import Mathlib

/-!
# Fetch stage of the x86 timing simulator (src/arch/x86/timing/cpu-fetch.c)

A shallow embedding of `cpu-fetch.c` and theorems about it.

Conventions of the embedding.

* `unsigned int` values (instruction pointers, physical addresses, cache
  blocks) are natural numbers; every arithmetic result stored in one is
  reduced modulo `2^32`.
* `long long` values (cycle counts, uop identifiers, statistics, access
  handles) are unbounded integers: the counters start at zero, only grow, and
  signed overflow is undefined in C.
* `int` values that hold byte counts, uop counts, sizes, bit masks and array
  indices are natural numbers.
* A pointer to a context is the context itself, stored in the thread that is
  bound to it (`none` is the null pointer). A pointer to a uop is the position
  of the uop in the fetch queue of its thread; the functions that return a uop
  return that position together with the contents of the uop at that moment.
* A pointer to a memory module is the index of the module in the store `mods`
  of the state, so that threads can share a module.
* A null dereference, a failed `assert` and the fatal default arm of the policy
  switch are the result `none`. The `while` loops whose trip count depends on
  collaborators take a fuel argument and are `none` when it runs out.
* Functions, tables and constants that `cpu-fetch.c` uses but that are declared
  in other files (the functional executor, the MMU, the memory module, the
  branch predictor, the trace cache, the event queue, the register file
  helper, the configuration variables) are the fields of `x86_params`.
  Trace output (`x86_tracing`, `x86_trace`) writes to a file only and is left
  out.
-/

/-- Micro-instruction left by the functional executor in the staging list. -/
structure x86_uinst_t where
  opcode : Nat
  address : Nat
deriving DecidableEq, Repr, Inhabited

/-- Micro-operation: the fields that `cpu-fetch.c` writes. -/
structure x86_uop_t where
  uinst : x86_uinst_t
  flags : Nat
  id : Int
  id_in_core : Int
  ctx : Nat
  core : Nat
  thread : Nat
  mop_count : Nat
  mop_size : Nat
  mop_id : Int
  mop_index : Nat
  eip : Nat
  in_fetch_queue : Bool
  fetch_trace_cache : Bool
  specmode : Bool
  fetch_address : Nat
  fetch_access : Int
  neip : Nat
  pred_neip : Nat
  target_neip : Nat
  deps : Nat
  phy_addr : Nat
  bpred_info : Nat
deriving DecidableEq, Repr, Inhabited

/-- Status flags of a context that the fetch stage tests. -/
inductive x86_ctx_status_t where
  | x86_ctx_running
  | x86_ctx_spec_mode
deriving DecidableEq, Repr

/-- Guest context: the fields read by the fetch stage, and `arch` for the rest
of the architectural state (registers, memory), which only the executor
interprets. -/
structure x86_ctx_t where
  pid : Nat
  status_running : Bool
  status_spec_mode : Bool
  dealloc_signal : Nat
  address_space_index : Nat
  regs_eip : Nat
  inst_size : Nat
  target_eip : Nat
  arch : Nat
deriving DecidableEq, Repr

/-- Memory module (`struct mod_t`), as far as the fetch stage uses it: its block
size, its internal state, and the list of physical addresses of the accesses
issued to it, oldest first. -/
structure mod_t where
  block_size : Nat
  state : Nat
  accesses : List Nat
deriving DecidableEq, Repr

/-- Hardware thread (`X86_THREAD`). The field `inst_mod` is a pointer to a
memory module: the index of the module in `x86_cpu_t.mods`. -/
structure x86_thread_t where
  ctx : Option x86_ctx_t
  fetch_queue : List x86_uop_t
  fetch_eip : Nat
  fetch_neip : Nat
  fetchq_occ : Nat
  trace_cache_queue_occ : Nat
  fetch_block : Nat
  fetch_address : Nat
  fetch_access : Int
  fetch_stall_until : Int
  bpred : Nat
  trace_cache : Nat
  inst_mod : Nat
  fetched : Int
  committed : Int
  btb_reads : Int

/-- Core (`X86_CORE`). -/
structure x86_core_t where
  thread : Nat → x86_thread_t
  fetch_current : Nat
  fetch_switch_when : Int
  uop_id_counter : Int
  event_queue : Nat

/-- Processor (`x86_cpu`), together with the three pieces of global state
outside it that the fetch stage touches: the uinst staging list
`x86_uinst_list`, the pages reported to the MMU statistics, and the memory
modules `mods` that the pointers `inst_mod` of the threads point to (two
threads with the same pointer share a module). -/
structure x86_cpu_t where
  core : Nat → x86_core_t
  cycle : Int
  uop_id_counter : Int
  fetched : Int
  stage : String
  x86_uinst_list : List x86_uinst_t
  mmu_pages : List Nat
  mods : Nat → mod_t

/-- Fetch policy (`x86_cpu_fetch_kind`); `invalid` is any other value. -/
inductive x86_cpu_fetch_kind_t where
  | x86_cpu_fetch_kind_shared
  | x86_cpu_fetch_kind_timeslice
  | x86_cpu_fetch_kind_switchonevent
  | invalid
deriving DecidableEq, Repr

/-- Result of `x86_trace_cache_lookup`: the return value and the three output
arguments. -/
structure x86_trace_cache_result_t where
  hit : Bool
  mop_count : Nat
  mop_array : Nat → Nat
  neip : Nat

/-- Configuration variables and collaborators declared outside `cpu-fetch.c`.
The collaborators that have state receive it as their first argument and
return the new state. -/
structure x86_params where
  x86_fetch_queue_size : Nat
  x86_trace_cache_present : Bool
  x86_trace_cache_queue_size : Nat
  x86_trace_cache_branch_max : Nat
  x86_cpu_num_cores : Nat
  x86_cpu_num_threads : Nat
  x86_cpu_thread_quantum : Int
  x86_cpu_thread_switch_penalty : Int
  x86_cpu_fetch_kind : x86_cpu_fetch_kind_t
  x86_uinst_opcode_count : Nat
  X86_UINST_MEM : Nat
  X86_UINST_CTRL : Nat
  mmu_report : Bool
  x86_uinst_info_flags : Nat → Nat
  x86_ctx_execute : x86_ctx_t → List x86_uinst_t → x86_ctx_t × List x86_uinst_t
  x86_reg_file_count_deps : x86_uinst_t → Nat
  mmu_translate : Nat → Nat → Nat
  mod_can_access : mod_t → Nat → Bool
  mod_access : mod_t → Nat → Nat × Int
  x86_bpred_btb_next_branch : Nat → Nat → Nat → Nat × Nat
  x86_bpred_lookup_multiple : Nat → Nat → Nat → Nat × Nat
  x86_bpred_lookup : Nat → x86_uop_t → Bool × Nat × Nat
  x86_bpred_btb_lookup : Nat → x86_uop_t → Nat × Nat
  x86_trace_cache_lookup : Nat → Nat → Nat → x86_trace_cache_result_t × Nat
  x86_event_queue_long_latency : Nat → Nat → Bool

/-- Core `core` of the processor. -/
def X86_CORE (st : x86_cpu_t) (core : Nat) : x86_core_t :=
  st.core core

/-- Thread `thread` of core `core`. -/
def X86_THREAD (st : x86_cpu_t) (core thread : Nat) : x86_thread_t :=
  (st.core core).thread thread

/-- The memory module `*X86_THREAD.inst_mod` of thread `thread` of core
`core`. -/
def X86_THREAD_inst_mod (st : x86_cpu_t) (core thread : Nat) : mod_t :=
  st.mods (X86_THREAD st core thread).inst_mod

/-- Store `v` as the memory module that the pointer `m` points to. -/
def set_mod (st : x86_cpu_t) (m : Nat) (v : mod_t) : x86_cpu_t :=
  { st with mods := fun i => if i = m then v else st.mods i }

/-- Store `co` as core `core`. -/
def set_core (st : x86_cpu_t) (core : Nat) (co : x86_core_t) : x86_cpu_t :=
  { st with core := fun c => if c = core then co else st.core c }

/-- Store `th` as thread `thread` of core `core`. -/
def set_thread (st : x86_cpu_t) (core thread : Nat) (th : x86_thread_t) : x86_cpu_t :=
  set_core st core
    { st.core core with thread := fun t => if t = thread then th else (st.core core).thread t }

/-- Apply `f` to the element at position `i` of a list (a write through a
pointer to that element); positions outside the list change nothing. -/
def list_modify {α : Type} (f : α → α) : List α → Nat → List α
  | [], _ => []
  | x :: xs, 0 => f x :: xs
  | x :: xs, i + 1 => x :: list_modify f xs i

/-- Modelled from the spec: `x86_ctx_get_status` (context.h) tests one status
flag of the context, `status(flag) → bool`. -/
def x86_ctx_get_status (ctx : x86_ctx_t) (flag : x86_ctx_status_t) : Bool :=
  match flag with
  | .x86_ctx_running => ctx.status_running
  | .x86_ctx_spec_mode => ctx.status_spec_mode

/-- Modelled from the spec: `x86_ctx_set_eip` (context.h) sets the context's
EIP to the given value. -/
def x86_ctx_set_eip (ctx : x86_ctx_t) (eip : Nat) : x86_ctx_t :=
  { ctx with regs_eip := eip }

/-- The 32-bit value `~(block_size - 1)`. -/
def x86_block_mask (block_size : Nat) : Nat :=
  4294967295 - (block_size + 4294967295) % 4294967296

/-- The expression `addr & ~(block_size - 1)`. -/
def x86_block (addr block_size : Nat) : Nat :=
  addr &&& x86_block_mask block_size

/-- Eligibility predicate `x86_cpu_can_fetch` (lines 33-66). -/
def x86_cpu_can_fetch (env : x86_params) (st : x86_cpu_t) (core thread : Nat) : Bool :=
  let th := X86_THREAD st core thread
  match th.ctx with
  | none => false
  | some ctx =>
    if !x86_ctx_get_status ctx .x86_ctx_running then false
    else if th.fetch_stall_until ≥ st.cycle ∨ ctx.dealloc_signal ≠ 0 then false
    else if th.fetchq_occ ≥ env.x86_fetch_queue_size then false
    else
      let block := x86_block th.fetch_neip (X86_THREAD_inst_mod st core thread).block_size
      if block ≠ th.fetch_block then
        let phy_addr := env.mmu_translate ctx.address_space_index th.fetch_neip
        if !env.mod_can_access (X86_THREAD_inst_mod st core thread) phy_addr then false else true
      else true

/-- Creation and initialisation of one uop in `x86_cpu_fetch_inst`
(lines 100-133): `st` is the state when the uop is created, `ctx` the context
after execution, `uinst_count` the captured length of the staging list. -/
def fetch_inst_uop (env : x86_params) (st : x86_cpu_t) (core thread : Nat)
    (fetch_trace_cache : Bool) (ctx : x86_ctx_t) (uinst_count uinst_index : Nat)
    (uinst : x86_uinst_t) : x86_uop_t :=
  let th := X86_THREAD st core thread
  let flags := env.x86_uinst_info_flags uinst.opcode
  { uinst := uinst
    flags := flags
    id := st.uop_id_counter
    id_in_core := (X86_CORE st core).uop_id_counter
    ctx := ctx.pid
    core := core
    thread := thread
    mop_count := uinst_count
    mop_size := ctx.inst_size
    mop_id := st.uop_id_counter - (uinst_index : Int)
    mop_index := uinst_index
    eip := th.fetch_eip
    in_fetch_queue := true
    fetch_trace_cache := fetch_trace_cache
    specmode := x86_ctx_get_status ctx .x86_ctx_spec_mode
    fetch_address := th.fetch_address
    fetch_access := th.fetch_access
    neip := ctx.regs_eip
    pred_neip := th.fetch_neip
    target_neip := ctx.target_eip
    deps := env.x86_reg_file_count_deps uinst
    phy_addr := if flags &&& env.X86_UINST_MEM ≠ 0 then
        env.mmu_translate ctx.address_space_index uinst.address else 0
    bpred_info := 0 }

/-- State after one trip of the drain loop of `x86_cpu_fetch_inst` has created
`uop` (lines 104-105 and 177-181): both counters advance, the uop is appended
to the fetch queue, the statistics and the trace-cache occupancy are updated,
and the head of the staging list is gone. -/
def fetch_inst_insert (st : x86_cpu_t) (core thread : Nat) (fetch_trace_cache : Bool)
    (uop : x86_uop_t) (rest : List x86_uinst_t) : x86_cpu_t :=
  let th := X86_THREAD st core thread
  let th1 : x86_thread_t :=
    { th with
      fetch_queue := th.fetch_queue ++ [uop]
      fetched := th.fetched + 1
      trace_cache_queue_occ :=
        if fetch_trace_cache then th.trace_cache_queue_occ + 1 else th.trace_cache_queue_occ }
  let st1 : x86_cpu_t :=
    { st with
      uop_id_counter := st.uop_id_counter + 1
      fetched := st.fetched + 1
      x86_uinst_list := rest }
  let st2 := set_core st1 core { st1.core core with uop_id_counter := (st1.core core).uop_id_counter + 1 }
  set_thread st2 core thread th1

/-- The drain loop of `x86_cpu_fetch_inst` (lines 94-185). The list argument is
the staging list, `uinst_index` and `ret_uop` are the local variables. -/
def fetch_inst_drain (env : x86_params) (core thread : Nat) (fetch_trace_cache : Bool)
    (ctx : x86_ctx_t) (uinst_count : Nat) :
    List x86_uinst_t → Nat → Option (Nat × x86_uop_t) → x86_cpu_t →
      Option (x86_cpu_t × Option (Nat × x86_uop_t))
  | [], _, ret_uop, st => some (st, ret_uop)
  | uinst :: rest, uinst_index, ret_uop, st =>
    if 0 < uinst.opcode ∧ uinst.opcode < env.x86_uinst_opcode_count then
      let uop := fetch_inst_uop env st core thread fetch_trace_cache ctx uinst_count uinst_index uinst
      let ret_uop1 :=
        if ret_uop.isNone ∨ uop.flags &&& env.X86_UINST_CTRL ≠ 0 then
          some ((X86_THREAD st core thread).fetch_queue.length, uop)
        else ret_uop
      fetch_inst_drain env core thread fetch_trace_cache ctx uinst_count rest (uinst_index + 1)
        ret_uop1 (fetch_inst_insert st core thread fetch_trace_cache uop rest)
    else none

/-- Fetch primitive `x86_cpu_fetch_inst` (lines 72-192). -/
def x86_cpu_fetch_inst (env : x86_params) (st : x86_cpu_t) (core thread : Nat)
    (fetch_trace_cache : Bool) : Option (x86_cpu_t × Option (Nat × x86_uop_t)) :=
  let th := X86_THREAD st core thread
  match th.ctx with
  | none => none
  | some ctx =>
    let fetch_eip := th.fetch_neip
    let r := env.x86_ctx_execute (x86_ctx_set_eip ctx fetch_eip) st.x86_uinst_list
    let ctx1 := r.1
    let th1 : x86_thread_t :=
      { th with
        ctx := some ctx1
        fetch_eip := fetch_eip
        fetch_neip := (fetch_eip + ctx1.inst_size) % 4294967296 }
    let st1 := set_thread { st with x86_uinst_list := r.2 } core thread th1
    match fetch_inst_drain env core thread fetch_trace_cache ctx1 r.2.length r.2 0 none st1 with
    | none => none
    | some (st2, none) => some (st2, none)
    | some (st2, some ret_uop) =>
      if !fetch_trace_cache then
        let th2 := X86_THREAD st2 core thread
        some (set_thread st2 core thread
          { th2 with fetchq_occ := th2.fetchq_occ + ret_uop.2.mop_size }, some ret_uop)
      else some (st2, some ret_uop)

/-- One trip of the `for` loop of `x86_cpu_fetch_thread_trace_cache` (lines
228-249) over the hit `res`, with loop variable `i`; the boolean is false when
the trip ends in `break`. -/
def fetch_thread_trace_cache_iter (env : x86_params) (core thread : Nat)
    (res : x86_trace_cache_result_t) (i : Nat) (st : x86_cpu_t) : Option (x86_cpu_t × Bool) :=
  let th := X86_THREAD st core thread
  match th.ctx with
  | none => none
  | some ctx =>
    if !x86_ctx_get_status ctx .x86_ctx_running then some (st, false)
    else
      let st1 := set_thread st core thread { th with fetch_neip := res.mop_array i }
      match x86_cpu_fetch_inst env st1 core thread true with
      | none => none
      | some (st2, none) => some (st2, true)
      | some (st2, some (idx, uop)) =>
        if uop.flags &&& env.X86_UINST_CTRL ≠ 0 then
          let th2 := X86_THREAD st2 core thread
          let p := env.x86_bpred_lookup th2.bpred uop
          let pred_neip := if i = res.mop_count - 1 then res.neip else res.mop_array (i + 1)
          let th3 : x86_thread_t :=
            { th2 with
              bpred := p.2.1
              fetch_queue := list_modify
                (fun u => { u with bpred_info := p.2.2, pred_neip := pred_neip })
                th2.fetch_queue idx }
          some (set_thread st2 core thread th3, true)
        else some (st2, true)

/-- The `for` loop of `x86_cpu_fetch_thread_trace_cache` (lines 227-249) over
the hit `res`: `i` is the loop variable and the first argument is the number of
trips left, `mop_count - i`. -/
def fetch_thread_trace_cache_loop (env : x86_params) (core thread : Nat)
    (res : x86_trace_cache_result_t) : Nat → Nat → x86_cpu_t → Option x86_cpu_t
  | 0, _, st => some st
  | left + 1, i, st =>
    match fetch_thread_trace_cache_iter env core thread res i st with
    | none => none
    | some (st1, false) => some st1
    | some (st1, true) => fetch_thread_trace_cache_loop env core thread res left (i + 1) st1

/-- The accesses to the BTB, the branch predictor and the trace cache in
`x86_cpu_fetch_thread_trace_cache` (lines 216-222): the state after them and
the result of the trace-cache lookup. -/
def fetch_thread_trace_cache_lookup (env : x86_params) (st : x86_cpu_t) (core thread : Nat) :
    x86_cpu_t × x86_trace_cache_result_t :=
  let th := X86_THREAD st core thread
  let b := env.x86_bpred_btb_next_branch th.bpred th.fetch_neip
    (X86_THREAD_inst_mod st core thread).block_size
  let eip_branch := b.1
  let m := if eip_branch ≠ 0 then
      env.x86_bpred_lookup_multiple b.2 eip_branch env.x86_trace_cache_branch_max
    else (0, b.2)
  let mpred := m.1
  let l := env.x86_trace_cache_lookup th.trace_cache th.fetch_neip mpred
  (set_thread st core thread { th with bpred := m.2, trace_cache := l.2 }, l.1)

/-- Trace-cache fetch path `x86_cpu_fetch_thread_trace_cache` (lines 197-254);
the boolean is the return value. -/
def x86_cpu_fetch_thread_trace_cache (env : x86_params) (st : x86_cpu_t) (core thread : Nat) :
    Option (x86_cpu_t × Bool) :=
  let th := X86_THREAD st core thread
  if !env.x86_trace_cache_present then some (st, false)
  else if th.trace_cache_queue_occ ≥ env.x86_trace_cache_queue_size then some (st, false)
  else
    let p := fetch_thread_trace_cache_lookup env st core thread
    let st1 := p.1
    let res := p.2
    if !res.hit then some (st1, false)
    else
      match fetch_thread_trace_cache_loop env core thread res res.mop_count 0 st1 with
      | none => none
      | some st2 =>
        some (set_thread st2 core thread { X86_THREAD st2 core thread with fetch_neip := res.neip },
          true)

/-- One trip of the `while` loop of `x86_cpu_fetch_thread` (lines 290-324) for
the block `block`, the test of the loop condition included; the boolean is
false when the loop ends with this trip. -/
def fetch_thread_iter (env : x86_params) (core thread : Nat) (block : Nat) (st : x86_cpu_t) :
    Option (x86_cpu_t × Bool) :=
  let th := X86_THREAD st core thread
  if x86_block th.fetch_neip (X86_THREAD_inst_mod st core thread).block_size ≠ block then
    some (st, false)
  else
    match th.ctx with
    | none => none
    | some ctx =>
      if !x86_ctx_get_status ctx .x86_ctx_running then some (st, false)
      else if th.fetchq_occ ≥ env.x86_fetch_queue_size then some (st, false)
      else
        match x86_cpu_fetch_inst env st core thread false with
        | none => none
        | some (st1, ret) =>
          match (X86_THREAD st1 core thread).ctx with
          | none => none
          | some ctx1 =>
            if ctx1.inst_size = 0 then some (st1, false)
            else
              match ret with
              | none => some (st1, true)
              | some (idx, uop) =>
                if uop.flags &&& env.X86_UINST_CTRL ≠ 0 then
                  let th1 := X86_THREAD st1 core thread
                  let t := env.x86_bpred_btb_lookup th1.bpred uop
                  let target := t.1
                  if target ≠ 0 then
                    let p := env.x86_bpred_lookup t.2 uop
                    if p.1 then
                      some (set_thread st1 core thread
                        { th1 with
                          bpred := p.2.1
                          fetch_neip := target
                          fetch_queue := list_modify
                            (fun u => { u with bpred_info := p.2.2, pred_neip := target })
                            th1.fetch_queue idx }, false)
                    else
                      some (set_thread st1 core thread
                        { th1 with
                          bpred := p.2.1
                          fetch_queue := list_modify
                            (fun u => { u with bpred_info := p.2.2 }) th1.fetch_queue idx }, true)
                  else some (set_thread st1 core thread { th1 with bpred := t.2 }, true)
                else some (st1, true)

/-- The `while` loop of `x86_cpu_fetch_thread` (lines 290-324) for the block
`block`; the first argument is the fuel, one unit per trip. -/
def fetch_thread_loop (env : x86_params) (core thread : Nat) (block : Nat) :
    Nat → x86_cpu_t → Option x86_cpu_t
  | 0, _ => none
  | fuel + 1, st =>
    match fetch_thread_iter env core thread block st with
    | none => none
    | some (st1, false) => some st1
    | some (st1, true) => fetch_thread_loop env core thread block fuel st1

/-- The opening of a new instruction-cache access in `x86_cpu_fetch_thread`
(lines 274-287), on the state left by a trace-cache miss; the result is the
state and the local variable `block`. -/
def fetch_thread_open (env : x86_params) (st : x86_cpu_t) (core thread : Nat) :
    Option (x86_cpu_t × Nat) :=
  let th := X86_THREAD st core thread
  let m := X86_THREAD_inst_mod st core thread
  let block := x86_block th.fetch_neip m.block_size
  if block ≠ th.fetch_block then
    match th.ctx with
    | none => none
    | some ctx =>
      let phy_addr := env.mmu_translate ctx.address_space_index th.fetch_neip
      let a := env.mod_access m phy_addr
      let th1 : x86_thread_t :=
        { th with
          fetch_block := block
          fetch_address := phy_addr
          fetch_access := a.2
          btb_reads := th.btb_reads + 1 }
      let st1 := set_mod (set_thread st core thread th1) th.inst_mod
        { m with state := a.1, accesses := m.accesses ++ [phy_addr] }
      some (if env.mmu_report then { st1 with mmu_pages := st1.mmu_pages ++ [phy_addr] } else st1,
        block)
  else some (st, block)

/-- Block fetch path `x86_cpu_fetch_thread` (lines 257-325); `fuel` bounds the
trips of its `while` loop. -/
def x86_cpu_fetch_thread (env : x86_params) (fuel : Nat) (st : x86_cpu_t) (core thread : Nat) :
    Option x86_cpu_t :=
  match x86_cpu_fetch_thread_trace_cache env st core thread with
  | none => none
  | some (st1, true) => some st1
  | some (st1, false) =>
    match fetch_thread_open env st1 core thread with
    | none => none
    | some (st2, block) => fetch_thread_loop env core thread block fuel st2

/-- Store `v` in `X86_CORE.fetch_current`. -/
def set_fetch_current (st : x86_cpu_t) (core v : Nat) : x86_cpu_t :=
  set_core st core { st.core core with fetch_current := v }

/-- Shared policy (lines 335-344): the loop `X86_THREAD_FOR_EACH`, that is
`for (thread = 0; thread < x86_cpu_num_threads; thread++)`; the first argument
is the number of trips left and `thread` the loop variable. -/
def fetch_core_shared (env : x86_params) (fuel : Nat) (core : Nat) :
    Nat → Nat → x86_cpu_t → Option x86_cpu_t
  | 0, _, st => some st
  | left + 1, thread, st =>
    if x86_cpu_can_fetch env st core thread then
      match x86_cpu_fetch_thread env fuel st core thread with
      | none => none
      | some st1 => fetch_core_shared env fuel core left (thread + 1) st1
    else fetch_core_shared env fuel core left (thread + 1) st

/-- Timeslice policy (lines 346-359): the loop `X86_THREAD_FOR_EACH`; the first
argument is the number of trips left. -/
def fetch_core_timeslice (env : x86_params) (fuel : Nat) (core : Nat) :
    Nat → x86_cpu_t → Option x86_cpu_t
  | 0, st => some st
  | left + 1, st =>
    let st1 := set_fetch_current st core
      (((X86_CORE st core).fetch_current + 1) % env.x86_cpu_num_threads)
    if x86_cpu_can_fetch env st1 core (X86_CORE st1 core).fetch_current then
      x86_cpu_fetch_thread env fuel st1 core (X86_CORE st1 core).fetch_current
    else fetch_core_timeslice env fuel core left st1

/-- The search for a new thread under the switch-on-event policy (lines
385-403), entered with `must_switch` set; the first argument is the fuel, one
unit per test of the loop condition, and the result is the final value of
`new`. -/
def fetch_core_find_new (env : x86_params) (st : x86_cpu_t) (core thread : Nat)
    (must_switch : Bool) : Nat → Nat → Option Nat
  | 0, _ => none
  | fuel + 1, new =>
    if new = thread then some new
    else if !x86_cpu_can_fetch env st core new then
      fetch_core_find_new env st core thread must_switch fuel ((new + 1) % env.x86_cpu_num_threads)
    else if must_switch then some new
    else if (X86_THREAD st core new).committed > (X86_THREAD st core thread).committed + 100000 then
      fetch_core_find_new env st core thread must_switch fuel ((new + 1) % env.x86_cpu_num_threads)
    else if !env.x86_event_queue_long_latency (X86_CORE st core).event_queue new then some new
    else
      fetch_core_find_new env st core thread must_switch fuel ((new + 1) % env.x86_cpu_num_threads)

/-- The value of `must_switch` under the switch-on-event policy (lines
375-379). -/
def fetch_core_must_switch (env : x86_params) (st : x86_cpu_t) (core thread : Nat) : Bool :=
  !x86_cpu_can_fetch env st core thread
    || decide (st.cycle - (X86_CORE st core).fetch_switch_when >
        env.x86_cpu_thread_quantum + env.x86_cpu_thread_switch_penalty)
    || env.x86_event_queue_long_latency (X86_CORE st core).event_queue thread

/-- The thread switch of the switch-on-event policy (lines 381-412), `thread`
being the current thread. -/
def fetch_core_switch (env : x86_params) (fuel : Nat) (st : x86_cpu_t) (core thread : Nat) :
    Option x86_cpu_t :=
  let must_switch := fetch_core_must_switch env st core thread
  if must_switch then
    match fetch_core_find_new env st core thread must_switch fuel
        ((thread + 1) % env.x86_cpu_num_threads) with
    | none => none
    | some new =>
      if new ≠ thread then
        let st1 := set_core st core
          { st.core core with fetch_current := new, fetch_switch_when := st.cycle }
        some (set_thread st1 core new
          { X86_THREAD st1 core new with
            fetch_stall_until := st.cycle + env.x86_cpu_thread_switch_penalty - 1 })
      else some st
  else some st

/-- Switch-on-event policy (lines 361-418). -/
def fetch_core_switchonevent (env : x86_params) (fuel : Nat) (st : x86_cpu_t) (core : Nat) :
    Option x86_cpu_t :=
  let thread := (X86_CORE st core).fetch_current
  if (X86_THREAD st core thread).fetch_stall_until ≥ st.cycle then some st
  else
    match fetch_core_switch env fuel st core thread with
    | none => none
    | some st1 =>
      if x86_cpu_can_fetch env st1 core (X86_CORE st1 core).fetch_current then
        x86_cpu_fetch_thread env fuel st1 core (X86_CORE st1 core).fetch_current
      else some st1

/-- Thread arbiter `x86_cpu_fetch_core` (lines 328-424). -/
def x86_cpu_fetch_core (env : x86_params) (fuel : Nat) (st : x86_cpu_t) (core : Nat) :
    Option x86_cpu_t :=
  match env.x86_cpu_fetch_kind with
  | .x86_cpu_fetch_kind_shared => fetch_core_shared env fuel core env.x86_cpu_num_threads 0 st
  | .x86_cpu_fetch_kind_timeslice => fetch_core_timeslice env fuel core env.x86_cpu_num_threads st
  | .x86_cpu_fetch_kind_switchonevent => fetch_core_switchonevent env fuel st core
  | .invalid => none

/-- The loop `X86_CORE_FOR_EACH` of `x86_cpu_fetch` (lines 432-433); the first
argument is the number of trips left and `core` the loop variable. -/
def x86_cpu_fetch_cores (env : x86_params) (fuel : Nat) : Nat → Nat → x86_cpu_t → Option x86_cpu_t
  | 0, _, st => some st
  | left + 1, core, st =>
    match x86_cpu_fetch_core env fuel st core with
    | none => none
    | some st1 => x86_cpu_fetch_cores env fuel left (core + 1) st1

/-- Cycle driver `x86_cpu_fetch` (lines 427-434). -/
def x86_cpu_fetch (env : x86_params) (fuel : Nat) (st : x86_cpu_t) : Option x86_cpu_t :=
  x86_cpu_fetch_cores env fuel env.x86_cpu_num_cores 0 { st with stage := "fetch" }

/-! ## Closed forms, frames and runs used in the statements -/

/-- The uop created for the uinst at position `i` of the staging list by a
drain that starts in state `st` with `uinst_index = idx`: it is initialised as
in `fetch_inst_uop`, and the two counters have advanced `i` times since `st`. -/
def fetch_inst_uop_at (env : x86_params) (st : x86_cpu_t) (core thread : Nat)
    (fetch_trace_cache : Bool) (ctx : x86_ctx_t) (uinst_count idx i : Nat)
    (uinst : x86_uinst_t) : x86_uop_t :=
  { fetch_inst_uop env st core thread fetch_trace_cache ctx uinst_count (idx + i) uinst with
    id := st.uop_id_counter + (i : Int)
    id_in_core := (X86_CORE st core).uop_id_counter + (i : Int)
    mop_id := st.uop_id_counter + (i : Int) - ((idx + i : Nat) : Int) }

/-- Apply `f` to every element of a list together with its position, counted
from `i`. -/
def map_from {α β : Type} (f : Nat → α → β) : List α → Nat → List β
  | [], _ => []
  | x :: xs, i => f i x :: map_from f xs (i + 1)

/-- The value of `ret_uop` after the uops `uops`, which occupy the positions
`pos, pos + 1, ...` of the fetch queue, have gone through the selection of
lines 173-174, starting from the value `ret`. -/
def select_ret_uop (ctrl : Nat) : List x86_uop_t → Nat → Option (Nat × x86_uop_t) →
    Option (Nat × x86_uop_t)
  | [], _, ret => ret
  | u :: us, pos, ret =>
    select_ret_uop ctrl us (pos + 1)
      (if ret.isNone ∨ u.flags &&& ctrl ≠ 0 then some (pos, u) else ret)

/-- The state after the drain loop has appended the uops `news` to the fetch
queue of the thread, starting from `st`. -/
def fetch_inst_drained (st : x86_cpu_t) (core thread : Nat) (fetch_trace_cache : Bool)
    (news : List x86_uop_t) : x86_cpu_t :=
  let th := X86_THREAD st core thread
  let st1 : x86_cpu_t :=
    { st with
      uop_id_counter := st.uop_id_counter + (news.length : Int)
      fetched := st.fetched + (news.length : Int)
      x86_uinst_list := [] }
  let st2 := set_core st1 core
    { st1.core core with uop_id_counter := (st1.core core).uop_id_counter + (news.length : Int) }
  set_thread st2 core thread
    { th with
      fetch_queue := th.fetch_queue ++ news
      fetched := th.fetched + (news.length : Int)
      trace_cache_queue_occ :=
        if fetch_trace_cache then th.trace_cache_queue_occ + news.length
        else th.trace_cache_queue_occ }

/-- The opcode passes the assertion of line 102. -/
def valid_opcode (env : x86_params) (uinst : x86_uinst_t) : Prop :=
  0 < uinst.opcode ∧ uinst.opcode < env.x86_uinst_opcode_count

instance (env : x86_params) (uinst : x86_uinst_t) : Decidable (valid_opcode env uinst) := by
  unfold valid_opcode; infer_instance

/-- The state of `x86_cpu_fetch_inst` after the functional simulation (lines
84-87) of a thread bound to `ctx`. -/
def fetch_inst_executed (env : x86_params) (st : x86_cpu_t) (core thread : Nat)
    (ctx : x86_ctx_t) : x86_cpu_t :=
  let th := X86_THREAD st core thread
  let r := env.x86_ctx_execute (x86_ctx_set_eip ctx th.fetch_neip) st.x86_uinst_list
  set_thread { st with x86_uinst_list := r.2 } core thread
    { th with
      ctx := some r.1
      fetch_eip := th.fetch_neip
      fetch_neip := (th.fetch_neip + r.1.inst_size) % 4294967296 }

/-- The uops that `x86_cpu_fetch_inst` creates, in order of creation, for a
thread bound to `ctx`. -/
def fetch_inst_news (env : x86_params) (st : x86_cpu_t) (core thread : Nat)
    (fetch_trace_cache : Bool) (ctx : x86_ctx_t) : List x86_uop_t :=
  let th := X86_THREAD st core thread
  let r := env.x86_ctx_execute (x86_ctx_set_eip ctx th.fetch_neip) st.x86_uinst_list
  map_from
    (fetch_inst_uop_at env (fetch_inst_executed env st core thread ctx) core thread
      fetch_trace_cache r.1 r.2.length 0)
    r.2 0

/-- The charge of lines 189-190 on the state `st` left by the drain. -/
def fetch_inst_charged (st : x86_cpu_t) (core thread : Nat) (fetch_trace_cache : Bool)
    (ret : Option (Nat × x86_uop_t)) : x86_cpu_t :=
  match ret with
  | none => st
  | some ret_uop =>
    if !fetch_trace_cache then
      set_thread st core thread
        { X86_THREAD st core thread with
          fetchq_occ := (X86_THREAD st core thread).fetchq_occ + ret_uop.2.mop_size }
    else st

/-- The call of the functional executor made by `x86_cpu_fetch_inst` (lines
85-86) in state `st` on a thread bound to `ctx`: the context after execution
(its `inst_size` is the size the executor reports) and the staging list the
executor leaves. -/
def x86_ctx_execute_at (env : x86_params) (st : x86_cpu_t) (core thread : Nat)
    (ctx : x86_ctx_t) : x86_ctx_t × List x86_uinst_t :=
  env.x86_ctx_execute (x86_ctx_set_eip ctx (X86_THREAD st core thread).fetch_neip)
    st.x86_uinst_list

/-- The writes that the two fetch paths make to the thread after the fetch
primitive has returned: the predictor state, `fetch_neip`, and fields of the
uop at position `idx` of the fetch queue. -/
def fetch_adjust (st : x86_cpu_t) (core thread : Nat) (bpred neip : Nat)
    (f : x86_uop_t → x86_uop_t) (idx : Nat) : x86_cpu_t :=
  set_thread st core thread
    { X86_THREAD st core thread with
      bpred := bpred
      fetch_neip := neip
      fetch_queue := list_modify f (X86_THREAD st core thread).fetch_queue idx }

/-- Nothing outside thread `thread` of core `core` differs between `st` and
`st1`, apart from the global uop counter, the uop counter of `core`, the
processor statistics, the staging list, the MMU report and the memory
modules. -/
def same_outside (st st1 : x86_cpu_t) (core thread : Nat) : Prop :=
  st1.cycle = st.cycle ∧
  (∀ c t, c ≠ core ∨ t ≠ thread → X86_THREAD st1 c t = X86_THREAD st c t) ∧
  (∀ c, (X86_CORE st1 c).fetch_current = (X86_CORE st c).fetch_current ∧
    (X86_CORE st1 c).fetch_switch_when = (X86_CORE st c).fetch_switch_when ∧
    (X86_CORE st1 c).event_queue = (X86_CORE st c).event_queue) ∧
  (∀ c, c ≠ core → (X86_CORE st1 c).uop_id_counter = (X86_CORE st c).uop_id_counter)

/-- The value of `fetchq_occ` after lines 189-190, from its value `occ` before
them. -/
def fetch_inst_fetchq_occ (occ : Nat) (fetch_trace_cache : Bool)
    (ret : Option (Nat × x86_uop_t)) : Nat :=
  match ret with
  | none => occ
  | some ret_uop => if fetch_trace_cache then occ else occ + ret_uop.2.mop_size

/-- Runs of the fetch stage, as far as the creation of uops goes:
`fetch_run env st log st2` holds when `st2` is reached from `st` by calls of
the fetch primitive, the only place where uops are created and the two uop
counters are written, interleaved with any other steps that leave the counters
alone; `log` lists the uops created, in order of creation, as they are when the
call that created them returns. -/
inductive fetch_run (env : x86_params) : x86_cpu_t → List x86_uop_t → x86_cpu_t → Prop where
  | done (st : x86_cpu_t) : fetch_run env st [] st
  | fetch (st st1 st2 : x86_cpu_t) (core thread : Nat) (fetch_trace_cache : Bool)
      (ret : Option (Nat × x86_uop_t)) (log : List x86_uop_t)
      (h : x86_cpu_fetch_inst env st core thread fetch_trace_cache = some (st1, ret))
      (hrest : fetch_run env st1 log st2) :
      fetch_run env st
        ((X86_THREAD st1 core thread).fetch_queue.drop
          (X86_THREAD st core thread).fetch_queue.length ++ log) st2
  | other (st st1 st2 : x86_cpu_t) (log : List x86_uop_t)
      (h : st1.uop_id_counter = st.uop_id_counter)
      (hcore : ∀ c, (X86_CORE st1 c).uop_id_counter = (X86_CORE st c).uop_id_counter)
      (hrest : fetch_run env st1 log st2) :
      fetch_run env st log st2

/-! ## Scenarios -/

/-- A functional executor for the scenarios: the instruction at any address is
`size` bytes long and decodes to the uinsts `uinsts`, which replace the
contents of the staging list. -/
def scenario_execute (size : Nat) (uinsts : List x86_uinst_t) (ctx : x86_ctx_t)
    (_staged : List x86_uinst_t) : x86_ctx_t × List x86_uinst_t :=
  ({ ctx with regs_eip := (ctx.regs_eip + size) % 4294967296, inst_size := size }, uinsts)

/-- Parameters of the scenarios: a fetch queue of 16 bytes, no trace cache, one
core with one thread, opcode 2 a control uinst, opcode 3 a memory uinst, an
identity MMU, a memory module that is always ready, a BTB and a predictor
without entries. -/
def scenario_params (size : Nat) (uinsts : List x86_uinst_t) : x86_params :=
  { x86_fetch_queue_size := 16
    x86_trace_cache_present := false
    x86_trace_cache_queue_size := 32
    x86_trace_cache_branch_max := 3
    x86_cpu_num_cores := 1
    x86_cpu_num_threads := 1
    x86_cpu_thread_quantum := 100
    x86_cpu_thread_switch_penalty := 5
    x86_cpu_fetch_kind := .x86_cpu_fetch_kind_shared
    x86_uinst_opcode_count := 4
    X86_UINST_MEM := 8
    X86_UINST_CTRL := 16
    mmu_report := false
    x86_uinst_info_flags := fun op => if op = 2 then 16 else if op = 3 then 8 else 1
    x86_ctx_execute := scenario_execute size uinsts
    x86_reg_file_count_deps := fun _ => 0
    mmu_translate := fun _ addr => addr
    mod_can_access := fun _ _ => true
    mod_access := fun m _ => (m.state + 1, (m.state : Int))
    x86_bpred_btb_next_branch := fun b _ _ => (0, b)
    x86_bpred_lookup_multiple := fun b _ _ => (0, b)
    x86_bpred_lookup := fun b _ => (false, b, 0)
    x86_bpred_btb_lookup := fun b _ => (0, b)
    x86_trace_cache_lookup := fun t _ _ =>
      ({ hit := false, mop_count := 0, mop_array := fun _ => 0, neip := 0 }, t)
    x86_event_queue_long_latency := fun _ _ => false }

/-- A running context at address `eip`. -/
def scenario_ctx (eip : Nat) : x86_ctx_t :=
  { pid := 1000
    status_running := true
    status_spec_mode := false
    dealloc_signal := 0
    address_space_index := 0
    regs_eip := eip
    inst_size := 0
    target_eip := 0
    arch := 0 }

/-- A thread bound to a running context, about to fetch at `neip`, with an
empty fetch queue that is charged `occ` bytes, and no block opened yet
(`fetch_block` holds a value that is not a block address); its instruction
module is module 0. -/
def scenario_thread (neip occ : Nat) : x86_thread_t :=
  { ctx := some (scenario_ctx neip)
    fetch_queue := []
    fetch_eip := 0
    fetch_neip := neip
    fetchq_occ := occ
    trace_cache_queue_occ := 0
    fetch_block := 4294967295
    fetch_address := 0
    fetch_access := 0
    fetch_stall_until := 0
    bpred := 0
    trace_cache := 0
    inst_mod := 0
    fetched := 0
    committed := 0
    btb_reads := 0 }

/-- A processor at cycle 1 whose threads are all `scenario_thread neip occ`,
with both uop counters at zero; the memory modules have 64-byte blocks and no
access has been issued to them. -/
def scenario_state (neip occ : Nat) : x86_cpu_t :=
  { core := fun _ =>
      { thread := fun _ => scenario_thread neip occ
        fetch_current := 0
        fetch_switch_when := 0
        uop_id_counter := 0
        event_queue := 0 }
    cycle := 1
    uop_id_counter := 0
    fetched := 0
    stage := ""
    x86_uinst_list := []
    mmu_pages := []
    mods := fun _ => { block_size := 64, state := 0, accesses := [] } }

/-- Scenario S4: a trace cache that hits with the line `[100, 200, 300]` and
next address 400; every instruction is 4 bytes long and decodes to one control
uinst. -/
def scenario_S4_params : x86_params :=
  { scenario_params 4 [⟨2, 0⟩] with
    x86_trace_cache_present := true
    x86_trace_cache_lookup := fun t _ _ =>
      ({ hit := true
         mop_count := 3
         mop_array := fun i => if i = 0 then 100 else if i = 1 then 200 else 300
         neip := 400 }, t) }

/-- The state after the trace-cache path has run in scenario S4. -/
def scenario_S4_after : x86_cpu_t :=
  match x86_cpu_fetch_thread_trace_cache scenario_S4_params (scenario_state 100 7) 0 0 with
  | some r => r.1
  | none => scenario_state 100 7

/-- The state after the block fetch path has run on thread 0 of core 0 (the
state itself if the path does not return). -/
def scenario_after (env : x86_params) (fuel : Nat) (st : x86_cpu_t) : x86_cpu_t :=
  (x86_cpu_fetch_thread env fuel st 0 0).getD st

/-- The result of the fetch primitive on thread 0 of core 0 with
`fetch_trace_cache` false (the state itself and no uop if it does not
return). -/
def scenario_inst_after (env : x86_params) (st : x86_cpu_t) :
    x86_cpu_t × Option (Nat × x86_uop_t) :=
  (x86_cpu_fetch_inst env st 0 0 false).getD (st, none)

/-- Parameters of the scenario of two calls: every instruction is 5 bytes long
and decodes to two uinsts. -/
def scenario_two_params : x86_params :=
  scenario_params 5 [⟨1, 0⟩, ⟨3, 64⟩]

/-- The result of the first call of the primitive in the scenario of two
calls. -/
def scenario_two_first : x86_cpu_t × Option (Nat × x86_uop_t) :=
  scenario_inst_after scenario_two_params (scenario_state 0 0)

/-- The result of the second call of the primitive in the scenario of two
calls. -/
def scenario_two_second : x86_cpu_t × Option (Nat × x86_uop_t) :=
  scenario_inst_after scenario_two_params scenario_two_first.1

/-- The uops created by the two calls, in order of creation. -/
def scenario_two_log : List x86_uop_t :=
  (X86_THREAD scenario_two_first.1 0 0).fetch_queue.drop
      (X86_THREAD (scenario_state 0 0) 0 0).fetch_queue.length ++
    ((X86_THREAD scenario_two_second.1 0 0).fetch_queue.drop
      (X86_THREAD scenario_two_first.1 0 0).fetch_queue.length ++ [])

/-- Scenario S2: every instruction is 4 bytes long and decodes to one control
uinst; the BTB returns the target 32 and the direction predictor says taken. -/
def scenario_S2_params : x86_params :=
  { scenario_params 4 [⟨2, 0⟩] with
    x86_bpred_btb_lookup := fun b _ => (32, b)
    x86_bpred_lookup := fun b _ => (true, b, 1) }

/-- The result of the first call of the primitive in scenario S2. -/
def scenario_S2_first : x86_cpu_t × Option (Nat × x86_uop_t) :=
  scenario_inst_after scenario_S2_params (scenario_state 0 0)

/-- The uop returned by the first call of the primitive in scenario S2, with
its position in the fetch queue. -/
def scenario_S2_uop : Nat × x86_uop_t :=
  scenario_S2_first.2.getD (0, default)

/-- Parameters of the timeslice scenario: three threads, 4-byte instructions
of one uinst each. -/
def scenario_timeslice_params : x86_params :=
  { scenario_params 4 [⟨1, 0⟩] with
    x86_cpu_num_threads := 3
    x86_cpu_fetch_kind := .x86_cpu_fetch_kind_timeslice }

/-- State of the timeslice scenario: at cycle 1, threads 0 and 2 are stalled
until cycle 5, thread 1 can fetch at address 56, and `fetch_current` is 1. -/
def scenario_timeslice_state : x86_cpu_t :=
  { scenario_state 56 0 with
    core := fun _ =>
      { thread := fun t =>
          if t = 1 then scenario_thread 56 0
          else { scenario_thread 56 0 with fetch_stall_until := 5 }
        fetch_current := 1
        fetch_switch_when := 0
        uop_id_counter := 0
        event_queue := 0 } }

/-- Parameters of the idle timeslice scenario: two threads. -/
def scenario_idle_params : x86_params :=
  { scenario_params 4 [⟨1, 0⟩] with
    x86_cpu_num_threads := 2
    x86_cpu_fetch_kind := .x86_cpu_fetch_kind_timeslice }

/-- State of the idle timeslice scenario: at cycle 1 every thread is stalled
until cycle 5, and `fetch_current` is 0. -/
def scenario_idle_state : x86_cpu_t :=
  { scenario_state 0 0 with
    core := fun _ =>
      { thread := fun _ => { scenario_thread 0 0 with fetch_stall_until := 5 }
        fetch_current := 0
        fetch_switch_when := 0
        uop_id_counter := 0
        event_queue := 0 } }

/-- The state after the three assignments of a successful thread switch (lines
408-410) to the thread `new`. -/
def fetch_core_switched (env : x86_params) (st : x86_cpu_t) (core new : Nat) : x86_cpu_t :=
  set_thread
    (set_core st core { st.core core with fetch_current := new, fetch_switch_when := st.cycle })
    core new
    { X86_THREAD
        (set_core st core { st.core core with fetch_current := new, fetch_switch_when := st.cycle })
        core new with
      fetch_stall_until := st.cycle + env.x86_cpu_thread_switch_penalty - 1 }

/-- Parameters of scenario S5: two threads under the switch-on-event policy,
quantum 100, switch penalty 5. -/
def scenario_S5_params : x86_params :=
  { scenario_params 4 [⟨1, 0⟩] with
    x86_cpu_num_threads := 2
    x86_cpu_fetch_kind := .x86_cpu_fetch_kind_switchonevent }

/-- State of scenario S5: cycle 106, thread 0 current since cycle 0, both
threads eligible. -/
def scenario_S5_state : x86_cpu_t :=
  { scenario_state 0 0 with cycle := 106 }

/-- Scenario S5 five cycles after the switch: the state that the arbiter left
at cycle 106, at cycle 111. -/
def scenario_S5_later : x86_cpu_t :=
  { fetch_core_switched scenario_S5_params scenario_S5_state 0 1 with cycle := 111 }

/-- Scenario S5 with a long-latency event pending on thread 1. -/
def scenario_S5_longlat_params : x86_params :=
  { scenario_S5_params with x86_event_queue_long_latency := fun _ t => t == 1 }

/-- Scenario S5 with the long-latency event, five cycles after the switch. -/
def scenario_S5_longlat_later : x86_cpu_t :=
  { fetch_core_switched scenario_S5_longlat_params scenario_S5_state 0 1 with cycle := 111 }

/-- Parameters of the three-thread scenario under the switch-on-event policy:
quantum 100, switch penalty 5. -/
def scenario_three_params : x86_params :=
  { scenario_params 4 [⟨1, 0⟩] with
    x86_cpu_num_threads := 3
    x86_cpu_fetch_kind := .x86_cpu_fetch_kind_switchonevent }

/-- Scenario S5 with the current thread 0 stalled until cycle 200. -/
def scenario_S5_stalled : x86_cpu_t :=
  set_thread scenario_S5_state 0 0
    { X86_THREAD scenario_S5_state 0 0 with fetch_stall_until := 200 }

/-- Scenario S5 at cycle 50, before the quantum of thread 0 expires: both
threads are eligible, have committed the same number of instructions, and no
long-latency event is pending. -/
def scenario_S5_early : x86_cpu_t :=
  { scenario_state 0 0 with cycle := 50 }

/-- Parameters of the shared scenario: three threads under the shared policy,
4-byte instructions of one uinst each. -/
def scenario_shared_params : x86_params :=
  { scenario_params 4 [⟨1, 0⟩] with x86_cpu_num_threads := 3 }

/-- State of the shared scenario: at cycle 1, thread 0 is stalled until cycle
5, threads 1 and 2 can fetch at address 56, and `fetch_current` is 1. -/
def scenario_shared_state : x86_cpu_t :=
  { scenario_state 56 0 with
    core := fun _ =>
      { thread := fun t =>
          if t = 0 then { scenario_thread 56 0 with fetch_stall_until := 5 }
          else scenario_thread 56 0
        fetch_current := 1
        fetch_switch_when := 0
        uop_id_counter := 0
        event_queue := 0 } }

/-- The shared scenario after the arbiter has run on core 0. -/
def scenario_shared_after : x86_cpu_t :=
  (x86_cpu_fetch_core scenario_shared_params 3 scenario_shared_state 0).getD scenario_shared_state

/-- The number of calls of the fetch primitive in the trip of the block loop
that starts in `st` (lines 290-304): one when the loop condition holds and
neither of the two breaks before the call is taken, none otherwise. -/
def fetch_thread_iter_calls (env : x86_params) (core thread : Nat) (block : Nat)
    (st : x86_cpu_t) : Nat :=
  let th := X86_THREAD st core thread
  if x86_block th.fetch_neip (X86_THREAD_inst_mod st core thread).block_size ≠ block then 0
  else
    match th.ctx with
    | none => 0
    | some ctx =>
      if !x86_ctx_get_status ctx .x86_ctx_running then 0
      else if th.fetchq_occ ≥ env.x86_fetch_queue_size then 0
      else 1

/-- The block loop `fetch_thread_loop` together with the number of calls of
the fetch primitive that its trips have made. -/
def fetch_thread_loop_calls (env : x86_params) (core thread : Nat) (block : Nat) :
    Nat → x86_cpu_t → Option (x86_cpu_t × Nat)
  | 0, _ => none
  | fuel + 1, st =>
    match fetch_thread_iter env core thread block st with
    | none => none
    | some (st1, false) => some (st1, fetch_thread_iter_calls env core thread block st)
    | some (st1, true) =>
      match fetch_thread_loop_calls env core thread block fuel st1 with
      | none => none
      | some (st2, calls) => some (st2, calls + fetch_thread_iter_calls env core thread block st)

/-- The thread `thread` of core `core` points to the same memory module in
`st1` as in `st`, and no other memory module differs between `st` and `st1`. -/
def same_mods (st st1 : x86_cpu_t) (core thread : Nat) : Prop :=
  (X86_THREAD st1 core thread).inst_mod = (X86_THREAD st core thread).inst_mod ∧
  ∀ i, i ≠ (X86_THREAD st core thread).inst_mod → st1.mods i = st.mods i

/-- Parameters of the shared scenario with a busy module: as
`scenario_shared_params`, but a memory module can be accessed only while no
access has been issued to it. -/
def scenario_busy_params : x86_params :=
  { scenario_shared_params with mod_can_access := fun m _ => m.state == 0 }

/-- The shared scenario with a busy module after the arbiter has run on core
0; the three threads point to the same memory module. -/
def scenario_busy_after : x86_cpu_t :=
  (x86_cpu_fetch_core scenario_busy_params 3 scenario_shared_state 0).getD scenario_shared_state

/-! ## Reading a state after a store -/

@[simp] theorem X86_THREAD_set_thread_same (st : x86_cpu_t) (core thread : Nat) (th : x86_thread_t) :
    X86_THREAD (set_thread st core thread th) core thread = th := by
  simp [X86_THREAD, set_thread, set_core]

theorem X86_THREAD_set_thread_other (st : x86_cpu_t) (core thread c t : Nat) (th : x86_thread_t)
    (h : c ≠ core ∨ t ≠ thread) :
    X86_THREAD (set_thread st core thread th) c t = X86_THREAD st c t := by
  simp only [X86_THREAD, set_thread, set_core]
  by_cases hc : c = core
  · subst hc
    rcases h with h | h
    · exact absurd rfl h
    · simp [h]
  · simp [hc]

@[simp] theorem set_thread_cycle (st : x86_cpu_t) (core thread : Nat) (th : x86_thread_t) :
    (set_thread st core thread th).cycle = st.cycle := rfl

@[simp] theorem set_thread_uop_id_counter (st : x86_cpu_t) (core thread : Nat) (th : x86_thread_t) :
    (set_thread st core thread th).uop_id_counter = st.uop_id_counter := rfl

@[simp] theorem set_thread_fetched (st : x86_cpu_t) (core thread : Nat) (th : x86_thread_t) :
    (set_thread st core thread th).fetched = st.fetched := rfl

@[simp] theorem set_thread_uinst_list (st : x86_cpu_t) (core thread : Nat) (th : x86_thread_t) :
    (set_thread st core thread th).x86_uinst_list = st.x86_uinst_list := rfl

@[simp] theorem set_thread_core_counter (st : x86_cpu_t) (core thread c : Nat) (th : x86_thread_t) :
    (X86_CORE (set_thread st core thread th) c).uop_id_counter = (X86_CORE st c).uop_id_counter := by
  simp only [X86_CORE, set_thread, set_core]
  by_cases hc : c = core
  · subst hc; simp
  · simp [hc]

@[simp] theorem set_thread_fetch_current (st : x86_cpu_t) (core thread c : Nat) (th : x86_thread_t) :
    (X86_CORE (set_thread st core thread th) c).fetch_current = (X86_CORE st c).fetch_current := by
  simp only [X86_CORE, set_thread, set_core]
  by_cases hc : c = core
  · subst hc; simp
  · simp [hc]

@[simp] theorem set_thread_fetch_switch_when (st : x86_cpu_t) (core thread c : Nat)
    (th : x86_thread_t) :
    (X86_CORE (set_thread st core thread th) c).fetch_switch_when =
      (X86_CORE st c).fetch_switch_when := by
  simp only [X86_CORE, set_thread, set_core]
  by_cases hc : c = core
  · subst hc; simp
  · simp [hc]

@[simp] theorem set_thread_mods (st : x86_cpu_t) (core thread : Nat) (th : x86_thread_t) :
    (set_thread st core thread th).mods = st.mods := rfl

@[simp] theorem X86_THREAD_set_mod (st : x86_cpu_t) (m : Nat) (v : mod_t) (c t : Nat) :
    X86_THREAD (set_mod st m v) c t = X86_THREAD st c t := rfl

@[simp] theorem X86_CORE_set_mod (st : x86_cpu_t) (m : Nat) (v : mod_t) (c : Nat) :
    X86_CORE (set_mod st m v) c = X86_CORE st c := rfl

@[simp] theorem set_mod_cycle (st : x86_cpu_t) (m : Nat) (v : mod_t) :
    (set_mod st m v).cycle = st.cycle := rfl

@[simp] theorem set_mod_uop_id_counter (st : x86_cpu_t) (m : Nat) (v : mod_t) :
    (set_mod st m v).uop_id_counter = st.uop_id_counter := rfl

@[simp] theorem set_mod_uinst_list (st : x86_cpu_t) (m : Nat) (v : mod_t) :
    (set_mod st m v).x86_uinst_list = st.x86_uinst_list := rfl

@[simp] theorem set_mod_mods_same (st : x86_cpu_t) (m : Nat) (v : mod_t) :
    (set_mod st m v).mods m = v := by
  simp [set_mod]

theorem set_mod_mods_other (st : x86_cpu_t) (m i : Nat) (v : mod_t) (h : i ≠ m) :
    (set_mod st m v).mods i = st.mods i := by
  simp [set_mod, h]

/-- The module of a thread is read through the pointer of the thread in the
store of modules. -/
theorem X86_THREAD_inst_mod_eq (st st1 : x86_cpu_t) (core thread : Nat)
    (hp : (X86_THREAD st1 core thread).inst_mod = (X86_THREAD st core thread).inst_mod)
    (hm : st1.mods = st.mods) :
    X86_THREAD_inst_mod st1 core thread = X86_THREAD_inst_mod st core thread := by
  unfold X86_THREAD_inst_mod
  rw [hp, hm]

/-! ## The eligibility predicate -/

/-- Claim C1. `x86_cpu_can_fetch` is true exactly when (1) the thread has a
context and it is running, (2) `fetch_stall_until < cycle` and the context has
no deallocation signal, (3) `fetchq_occ < x86_fetch_queue_size`, and (4) if the
block of `fetch_neip` differs from `fetch_block`, the instruction module
accepts an access at the translated address. When the block equals
`fetch_block`, the result is that of (1)-(3) alone, whatever the module
answers. -/
theorem x86_cpu_can_fetch_iff (env : x86_params) (st : x86_cpu_t) (core thread : Nat) :
    (x86_cpu_can_fetch env st core thread = true ↔
      ∃ ctx, (X86_THREAD st core thread).ctx = some ctx ∧
        x86_ctx_get_status ctx .x86_ctx_running = true ∧
        ((X86_THREAD st core thread).fetch_stall_until < st.cycle ∧ ctx.dealloc_signal = 0) ∧
        (X86_THREAD st core thread).fetchq_occ < env.x86_fetch_queue_size ∧
        (x86_block (X86_THREAD st core thread).fetch_neip
            (X86_THREAD_inst_mod st core thread).block_size ≠
            (X86_THREAD st core thread).fetch_block →
          env.mod_can_access (X86_THREAD_inst_mod st core thread)
            (env.mmu_translate ctx.address_space_index
              (X86_THREAD st core thread).fetch_neip) = true)) ∧
    (x86_block (X86_THREAD st core thread).fetch_neip
        (X86_THREAD_inst_mod st core thread).block_size =
        (X86_THREAD st core thread).fetch_block →
      (x86_cpu_can_fetch env st core thread = true ↔
        ∃ ctx, (X86_THREAD st core thread).ctx = some ctx ∧
          x86_ctx_get_status ctx .x86_ctx_running = true ∧
          ((X86_THREAD st core thread).fetch_stall_until < st.cycle ∧ ctx.dealloc_signal = 0) ∧
          (X86_THREAD st core thread).fetchq_occ < env.x86_fetch_queue_size)) := by
  unfold x86_cpu_can_fetch
  cases hctx : (X86_THREAD st core thread).ctx with
  | none => simp [hctx]
  | some ctx =>
    by_cases h1 : x86_ctx_get_status ctx .x86_ctx_running = true <;>
    by_cases h2 : (X86_THREAD st core thread).fetch_stall_until < st.cycle <;>
    by_cases h3 : ctx.dealloc_signal = 0 <;>
    by_cases h4 : (X86_THREAD st core thread).fetchq_occ < env.x86_fetch_queue_size <;>
    by_cases h5 : x86_block (X86_THREAD st core thread).fetch_neip
        (X86_THREAD_inst_mod st core thread).block_size =
        (X86_THREAD st core thread).fetch_block <;>
    simp [hctx, h1, h2, h3, h4, h5, not_lt.mp, not_le.mpr]

/-! ## The drain loop of the fetch primitive -/

theorem x86_cpu_t_ext (a b : x86_cpu_t) (h1 : a.core = b.core) (h2 : a.cycle = b.cycle)
    (h3 : a.uop_id_counter = b.uop_id_counter) (h4 : a.fetched = b.fetched)
    (h5 : a.stage = b.stage) (h6 : a.x86_uinst_list = b.x86_uinst_list)
    (h7 : a.mmu_pages = b.mmu_pages) (h8 : a.mods = b.mods) : a = b := by
  cases a; cases b; simp_all

theorem map_from_length {α β : Type} (f : Nat → α → β) (l : List α) (i : Nat) :
    (map_from f l i).length = l.length := by
  induction l generalizing i with
  | nil => rfl
  | cons x xs ih => simp [map_from, ih]

theorem map_from_getElem? {α β : Type} (f : Nat → α → β) (l : List α) (i k : Nat) :
    (map_from f l i)[k]? = (l[k]?).map (f (i + k)) := by
  induction l generalizing i k with
  | nil => simp [map_from]
  | cons x xs ih =>
    cases k with
    | zero => simp [map_from]
    | succ k => simp [map_from, ih, Nat.add_assoc, Nat.add_comm 1 k]

theorem fetch_inst_drained_nil (st : x86_cpu_t) (core thread : Nat) (tc : Bool)
    (h : st.x86_uinst_list = []) : fetch_inst_drained st core thread tc [] = st := by
  apply x86_cpu_t_ext <;> simp [fetch_inst_drained, set_thread, set_core, h, X86_THREAD]
  funext c
  by_cases hc : c = core
  · subst hc
    simp
    cases hco : st.core c
    simp
    funext t
    by_cases ht : t = thread
    · subst ht; simp
    · simp [ht]
  · simp [hc]

theorem fetch_inst_drained_insert (st : x86_cpu_t) (core thread : Nat) (tc : Bool)
    (uop : x86_uop_t) (rest : List x86_uinst_t) (news : List x86_uop_t) :
    fetch_inst_drained (fetch_inst_insert st core thread tc uop rest) core thread tc news =
      fetch_inst_drained st core thread tc (uop :: news) := by
  apply x86_cpu_t_ext <;>
    simp [fetch_inst_drained, fetch_inst_insert, set_thread, set_core, X86_THREAD]
  · funext c
    by_cases hc : c = core
    · subst hc
      simp
      constructor
      · funext t
        by_cases ht : t = thread
        · subst ht
          simp
          refine ⟨?_, ?_⟩
          · cases tc <;> simp; omega
          · omega
        · simp [ht]
      · omega
    · simp [hc]
  · omega
  · omega

theorem fetch_inst_uop_at_insert (env : x86_params) (st : x86_cpu_t) (core thread : Nat)
    (tc : Bool) (ctx : x86_ctx_t) (count idx i : Nat) (uop : x86_uop_t)
    (rest : List x86_uinst_t) (uinst : x86_uinst_t) :
    fetch_inst_uop_at env (fetch_inst_insert st core thread tc uop rest) core thread tc ctx count
        (idx + 1) i uinst =
      fetch_inst_uop_at env st core thread tc ctx count idx (i + 1) uinst := by
  simp [fetch_inst_uop_at, fetch_inst_uop, fetch_inst_insert, X86_CORE, set_thread, set_core,
    X86_THREAD]
  omega

theorem fetch_inst_uop_at_zero (env : x86_params) (st : x86_cpu_t) (core thread : Nat)
    (tc : Bool) (ctx : x86_ctx_t) (count idx : Nat) (uinst : x86_uinst_t) :
    fetch_inst_uop_at env st core thread tc ctx count idx 0 uinst =
      fetch_inst_uop env st core thread tc ctx count idx uinst := by
  simp [fetch_inst_uop_at, fetch_inst_uop]

theorem map_from_congr {α β : Type} (f g : Nat → α → β) (l : List α) (i j : Nat)
    (h : ∀ k x, f (i + k) x = g (j + k) x) : map_from f l i = map_from g l j := by
  induction l generalizing i j with
  | nil => rfl
  | cons x xs ih =>
    simp only [map_from]
    have h0 := h 0 x
    simp only [Nat.add_zero] at h0
    rw [h0, ih (i + 1) (j + 1)]
    intro k y
    have := h (k + 1) y
    simpa [Nat.add_assoc, Nat.add_comm 1 k] using this

/-- The drain loop in closed form: when every staged opcode passes the
assertion, the loop returns, the state is `fetch_inst_drained` with the uops
`fetch_inst_uop_at`, and `ret_uop` is given by `select_ret_uop`. -/
theorem fetch_inst_drain_eq (env : x86_params) (core thread : Nat) (tc : Bool) (ctx : x86_ctx_t)
    (count : Nat) (l : List x86_uinst_t) (idx : Nat) (ret : Option (Nat × x86_uop_t))
    (st : x86_cpu_t) (hl : st.x86_uinst_list = l) (hv : ∀ u ∈ l, valid_opcode env u) :
    fetch_inst_drain env core thread tc ctx count l idx ret st =
      some (fetch_inst_drained st core thread tc
          (map_from (fetch_inst_uop_at env st core thread tc ctx count idx) l 0),
        select_ret_uop env.X86_UINST_CTRL
          (map_from (fetch_inst_uop_at env st core thread tc ctx count idx) l 0)
          (X86_THREAD st core thread).fetch_queue.length ret) := by
  induction l generalizing idx ret st with
  | nil =>
    simp [fetch_inst_drain, map_from, select_ret_uop, fetch_inst_drained_nil st core thread tc hl]
  | cons u rest ih =>
    have hu : valid_opcode env u := hv u (List.mem_cons_self _ _)
    have hrest : ∀ v ∈ rest, valid_opcode env v := fun v hm => hv v (List.mem_cons_of_mem _ hm)
    have hu2 : 0 < u.opcode ∧ u.opcode < env.x86_uinst_opcode_count := hu
    simp only [fetch_inst_drain, hu2, and_self, if_true]
    rw [ih (idx + 1) _ _ rfl hrest]
    have hm : map_from (fetch_inst_uop_at env
          (fetch_inst_insert st core thread tc
            (fetch_inst_uop env st core thread tc ctx count idx u) rest) core thread tc ctx count
          (idx + 1)) rest 0 =
        map_from (fetch_inst_uop_at env st core thread tc ctx count idx) rest 1 := by
      apply map_from_congr
      intro k x
      rw [fetch_inst_uop_at_insert]
      simp [Nat.add_comm]
    rw [hm, fetch_inst_drained_insert]
    simp only [map_from, fetch_inst_uop_at_zero, select_ret_uop]
    simp [fetch_inst_insert]

/-! ## The fetch primitive in closed form -/

/-- The fetch primitive on a thread bound to `ctx` whose executor stages only
opcodes that pass the assertion: it returns, and its result is given by
`fetch_inst_executed`, `fetch_inst_news`, `fetch_inst_drained`,
`select_ret_uop` and `fetch_inst_charged`. -/
theorem x86_cpu_fetch_inst_eq (env : x86_params) (st : x86_cpu_t) (core thread : Nat) (tc : Bool)
    (ctx : x86_ctx_t) (hctx : (X86_THREAD st core thread).ctx = some ctx)
    (hv : ∀ u ∈ (env.x86_ctx_execute (x86_ctx_set_eip ctx (X86_THREAD st core thread).fetch_neip)
      st.x86_uinst_list).2, valid_opcode env u) :
    x86_cpu_fetch_inst env st core thread tc =
      some (fetch_inst_charged
          (fetch_inst_drained (fetch_inst_executed env st core thread ctx) core thread tc
            (fetch_inst_news env st core thread tc ctx))
          core thread tc
          (select_ret_uop env.X86_UINST_CTRL (fetch_inst_news env st core thread tc ctx)
            (X86_THREAD st core thread).fetch_queue.length none),
        select_ret_uop env.X86_UINST_CTRL (fetch_inst_news env st core thread tc ctx)
          (X86_THREAD st core thread).fetch_queue.length none) := by
  have hd := fetch_inst_drain_eq env core thread tc
    (env.x86_ctx_execute (x86_ctx_set_eip ctx (X86_THREAD st core thread).fetch_neip)
      st.x86_uinst_list).1
    (env.x86_ctx_execute (x86_ctx_set_eip ctx (X86_THREAD st core thread).fetch_neip)
      st.x86_uinst_list).2.length
    (env.x86_ctx_execute (x86_ctx_set_eip ctx (X86_THREAD st core thread).fetch_neip)
      st.x86_uinst_list).2 0 none (fetch_inst_executed env st core thread ctx) rfl hv
  have hq : (X86_THREAD (fetch_inst_executed env st core thread ctx) core thread).fetch_queue =
      (X86_THREAD st core thread).fetch_queue := by
    simp [fetch_inst_executed]
  rw [hq] at hd
  change fetch_inst_drain env core thread tc _ _ _ 0 none _ =
    some (fetch_inst_drained (fetch_inst_executed env st core thread ctx) core thread tc
      (fetch_inst_news env st core thread tc ctx),
      select_ret_uop env.X86_UINST_CTRL (fetch_inst_news env st core thread tc ctx)
        (X86_THREAD st core thread).fetch_queue.length none) at hd
  unfold x86_cpu_fetch_inst
  simp only [hctx]
  change (match fetch_inst_drain env core thread tc _ _ _ 0 none
    (fetch_inst_executed env st core thread ctx) with
    | none => none
    | some (st2, none) => some (st2, none)
    | some (st2, some ret_uop) => _) = _
  rw [hd]
  cases hsel : select_ret_uop env.X86_UINST_CTRL (fetch_inst_news env st core thread tc ctx)
      (X86_THREAD st core thread).fetch_queue.length none with
  | none => simp [fetch_inst_charged]
  | some r => cases tc <;> simp [fetch_inst_charged]

theorem select_ret_uop_cases (ctrl : Nat) (l : List x86_uop_t) (pos : Nat)
    (ret : Option (Nat × x86_uop_t)) :
    select_ret_uop ctrl l pos ret = ret ∨
      ∃ k u, l[k]? = some u ∧ select_ret_uop ctrl l pos ret = some (pos + k, u) := by
  induction l generalizing pos ret with
  | nil => left; rfl
  | cons x xs ih =>
    simp only [select_ret_uop]
    rcases ih (pos + 1) (if ret.isNone ∨ x.flags &&& ctrl ≠ 0 then some (pos, x) else ret) with
      h | ⟨k, u, hk, h⟩
    · rw [h]
      by_cases hc : ret.isNone ∨ x.flags &&& ctrl ≠ 0
      · right
        exact ⟨0, x, by simp, by rw [if_pos hc]; rfl⟩
      · left; rw [if_neg hc]
    · right
      refine ⟨k + 1, u, by simpa using hk, ?_⟩
      rw [h]
      simp [Nat.add_assoc, Nat.add_comm 1 k]

theorem select_ret_uop_isSome (ctrl : Nat) (l : List x86_uop_t) (pos : Nat)
    (ret : Option (Nat × x86_uop_t)) (h : ret.isSome) :
    (select_ret_uop ctrl l pos ret).isSome := by
  induction l generalizing pos ret with
  | nil => simpa [select_ret_uop] using h
  | cons x xs ih =>
    simp only [select_ret_uop]
    apply ih
    by_cases hc : ret.isNone ∨ x.flags &&& ctrl ≠ 0
    · rw [if_pos hc]; rfl
    · rw [if_neg hc]; exact h

theorem select_ret_uop_none_iff (ctrl : Nat) (l : List x86_uop_t) (pos : Nat) :
    select_ret_uop ctrl l pos none = none ↔ l = [] := by
  cases l with
  | nil => simp [select_ret_uop]
  | cons x xs =>
    simp only [select_ret_uop]
    have := select_ret_uop_isSome ctrl xs (pos + 1) (some (pos, x)) rfl
    have hc : (none : Option (Nat × x86_uop_t)).isNone = true ∨ x.flags &&& ctrl ≠ 0 :=
      Or.inl rfl
    rw [if_pos hc]
    constructor
    · intro h
      simp [h] at this
    · intro h
      cases h

theorem select_ret_uop_some (ctrl : Nat) (l : List x86_uop_t) (pos idx : Nat) (uop : x86_uop_t)
    (h : select_ret_uop ctrl l pos none = some (idx, uop)) :
    ∃ k, l[k]? = some uop ∧ idx = pos + k := by
  rcases select_ret_uop_cases ctrl l pos none with h1 | ⟨k, u, hk, h1⟩
  · rw [h1] at h; cases h
  · rw [h1] at h
    simp only [Option.some.injEq, Prod.mk.injEq] at h
    exact ⟨k, by rw [hk, h.2], h.1.symm⟩

theorem fetch_inst_news_length (env : x86_params) (st : x86_cpu_t) (core thread : Nat) (tc : Bool)
    (ctx : x86_ctx_t) :
    (fetch_inst_news env st core thread tc ctx).length =
      (x86_ctx_execute_at env st core thread ctx).2.length := by
  simp [fetch_inst_news, map_from_length, x86_ctx_execute_at]

theorem fetch_inst_news_getElem? (env : x86_params) (st : x86_cpu_t) (core thread : Nat)
    (tc : Bool) (ctx : x86_ctx_t) (k : Nat) :
    (fetch_inst_news env st core thread tc ctx)[k]? =
      ((x86_ctx_execute_at env st core thread ctx).2[k]?).map
        (fetch_inst_uop_at env (fetch_inst_executed env st core thread ctx) core thread tc
          (x86_ctx_execute_at env st core thread ctx).1
          (x86_ctx_execute_at env st core thread ctx).2.length 0 k) := by
  simp [fetch_inst_news, map_from_getElem?, x86_ctx_execute_at]

/-- The thread after the fetch primitive, field by field. -/
theorem fetch_inst_thread (env : x86_params) (st : x86_cpu_t) (core thread : Nat) (tc : Bool)
    (ctx : x86_ctx_t) (ret : Option (Nat × x86_uop_t)) :
    X86_THREAD (fetch_inst_charged
        (fetch_inst_drained (fetch_inst_executed env st core thread ctx) core thread tc
          (fetch_inst_news env st core thread tc ctx)) core thread tc ret) core thread =
      { X86_THREAD st core thread with
        ctx := some (x86_ctx_execute_at env st core thread ctx).1
        fetch_eip := (X86_THREAD st core thread).fetch_neip
        fetch_neip := ((X86_THREAD st core thread).fetch_neip +
          (x86_ctx_execute_at env st core thread ctx).1.inst_size) % 4294967296
        fetch_queue := (X86_THREAD st core thread).fetch_queue ++
          fetch_inst_news env st core thread tc ctx
        fetched := (X86_THREAD st core thread).fetched +
          ((x86_ctx_execute_at env st core thread ctx).2.length : Int)
        trace_cache_queue_occ :=
          if tc then (X86_THREAD st core thread).trace_cache_queue_occ +
            (x86_ctx_execute_at env st core thread ctx).2.length
          else (X86_THREAD st core thread).trace_cache_queue_occ
        fetchq_occ :=
          fetch_inst_fetchq_occ (X86_THREAD st core thread).fetchq_occ tc ret } := by
  have hl := fetch_inst_news_length env st core thread tc ctx
  cases ret with
  | none =>
    simp [fetch_inst_charged, fetch_inst_drained, fetch_inst_executed, hl, x86_ctx_execute_at,
      fetch_inst_fetchq_occ]
  | some r =>
    cases tc <;>
      simp [fetch_inst_charged, fetch_inst_drained, fetch_inst_executed, hl, x86_ctx_execute_at,
        fetch_inst_fetchq_occ]

/-- The fields of the `k`-th uop created by the fetch primitive. -/
theorem fetch_inst_news_fields (env : x86_params) (st : x86_cpu_t) (core thread : Nat)
    (tc : Bool) (ctx : x86_ctx_t) (k : Nat) (u : x86_uop_t)
    (h : (fetch_inst_news env st core thread tc ctx)[k]? = some u) :
    k < (x86_ctx_execute_at env st core thread ctx).2.length ∧
    u.mop_index = k ∧
    u.mop_count = (x86_ctx_execute_at env st core thread ctx).2.length ∧
    u.mop_size = (x86_ctx_execute_at env st core thread ctx).1.inst_size ∧
    u.id = st.uop_id_counter + (k : Int) ∧
    u.id_in_core = (X86_CORE st core).uop_id_counter + (k : Int) ∧
    u.mop_id = st.uop_id_counter ∧
    u.core = core ∧ u.thread = thread ∧
    u.fetch_trace_cache = tc ∧
    u.eip = (X86_THREAD st core thread).fetch_neip ∧
    u.pred_neip = ((X86_THREAD st core thread).fetch_neip +
      (x86_ctx_execute_at env st core thread ctx).1.inst_size) % 4294967296 ∧
    u.fetch_address = (X86_THREAD st core thread).fetch_address ∧
    u.fetch_access = (X86_THREAD st core thread).fetch_access ∧
    (∃ uinst, (x86_ctx_execute_at env st core thread ctx).2[k]? = some uinst ∧
      u.uinst = uinst ∧ u.flags = env.x86_uinst_info_flags uinst.opcode) := by
  rw [fetch_inst_news_getElem?] at h
  cases hk : (x86_ctx_execute_at env st core thread ctx).2[k]? with
  | none => rw [hk] at h; cases h
  | some uinst =>
    rw [hk] at h
    simp only [Option.map_some', Option.some.injEq] at h
    subst h
    have hlt : k < (x86_ctx_execute_at env st core thread ctx).2.length := by
      rcases List.getElem?_eq_some.mp hk with ⟨hlt, _⟩
      exact hlt
    refine ⟨hlt, ?_⟩
    simp [fetch_inst_uop_at, fetch_inst_uop, fetch_inst_executed, x86_ctx_execute_at, X86_CORE]
    simp [set_thread, set_core]

/-- Claim C2. A call of `x86_cpu_fetch_inst` on a thread bound to a context, in
which the executor reports size `s` and leaves `n` uinsts (with opcodes that
pass the assertion) in the staging list, returns; if `fetch_trace_cache` is
false and `n ≥ 1`, `fetchq_occ` has grown by `s`, whatever `n` is; if `n = 0`
or `fetch_trace_cache` is true, `fetchq_occ` is unchanged. -/
theorem x86_cpu_fetch_inst_fetchq_occ (env : x86_params) (st : x86_cpu_t) (core thread : Nat)
    (tc : Bool) (ctx : x86_ctx_t) (s n : Nat)
    (hctx : (X86_THREAD st core thread).ctx = some ctx)
    (hv : ∀ u ∈ (x86_ctx_execute_at env st core thread ctx).2, valid_opcode env u)
    (hs : (x86_ctx_execute_at env st core thread ctx).1.inst_size = s)
    (hn : (x86_ctx_execute_at env st core thread ctx).2.length = n) :
    ∃ st1 ret, x86_cpu_fetch_inst env st core thread tc = some (st1, ret) ∧
      (tc = false → 1 ≤ n →
        (X86_THREAD st1 core thread).fetchq_occ = (X86_THREAD st core thread).fetchq_occ + s) ∧
      (n = 0 ∨ tc = true →
        (X86_THREAD st1 core thread).fetchq_occ = (X86_THREAD st core thread).fetchq_occ) := by
  refine ⟨_, _, x86_cpu_fetch_inst_eq env st core thread tc ctx hctx hv, ?_, ?_⟩
  · intro htc h1
    rw [fetch_inst_thread]
    cases hsel : select_ret_uop env.X86_UINST_CTRL (fetch_inst_news env st core thread tc ctx)
        (X86_THREAD st core thread).fetch_queue.length none with
    | none =>
      have h0 := (select_ret_uop_none_iff _ _ _).mp hsel
      have hl := fetch_inst_news_length env st core thread tc ctx
      rw [h0, hn] at hl
      simp at hl
      omega
    | some r =>
      obtain ⟨idx, u⟩ := r
      obtain ⟨k, hk, -⟩ := select_ret_uop_some _ _ _ _ _ hsel
      have hf := fetch_inst_news_fields env st core thread tc ctx k u hk
      simp [htc, hf.2.2.2.1, hs, fetch_inst_fetchq_occ]
  · intro h
    rw [fetch_inst_thread]
    cases hsel : select_ret_uop env.X86_UINST_CTRL (fetch_inst_news env st core thread tc ctx)
        (X86_THREAD st core thread).fetch_queue.length none with
    | none => rfl
    | some r =>
      rcases h with h | h
      · obtain ⟨idx, u⟩ := r
        obtain ⟨k, hk, -⟩ := select_ret_uop_some _ _ _ _ _ hsel
        have hf := fetch_inst_news_fields env st core thread tc ctx k u hk
        omega
      · simp [h, fetch_inst_fetchq_occ]

/-- Claim C2 on a scenario: a 5-byte instruction that decodes to two uinsts
charges 5 bytes, once. -/
theorem x86_cpu_fetch_inst_fetchq_occ_witness :
    ∃ st1 ret, x86_cpu_fetch_inst (scenario_params 5 [⟨1, 0⟩, ⟨3, 64⟩]) (scenario_state 0 7) 0 0
        false = some (st1, ret) ∧
      (false = false → 1 ≤ 2 → (X86_THREAD st1 0 0).fetchq_occ = 7 + 5) ∧
      (2 = 0 ∨ false = true → (X86_THREAD st1 0 0).fetchq_occ = 7) :=
  x86_cpu_fetch_inst_fetchq_occ (scenario_params 5 [⟨1, 0⟩, ⟨3, 64⟩]) (scenario_state 0 7) 0 0
    false (scenario_ctx 0) 5 2 rfl (by decide) rfl rfl

theorem fetch_inst_drain_valid (env : x86_params) (core thread : Nat) (tc : Bool)
    (ctx : x86_ctx_t) (count : Nat) (l : List x86_uinst_t) (idx : Nat)
    (ret : Option (Nat × x86_uop_t)) (st : x86_cpu_t)
    (r : x86_cpu_t × Option (Nat × x86_uop_t))
    (h : fetch_inst_drain env core thread tc ctx count l idx ret st = some r) :
    ∀ u ∈ l, valid_opcode env u := by
  induction l generalizing idx ret st with
  | nil => intro u hu; cases hu
  | cons x xs ih =>
    by_cases hx : 0 < x.opcode ∧ x.opcode < env.x86_uinst_opcode_count
    · simp only [fetch_inst_drain, hx, and_self, if_true] at h
      intro u hu
      rcases List.mem_cons.mp hu with hu | hu
      · subst hu; exact hx
      · exact ih _ _ _ h u hu
    · simp only [fetch_inst_drain, if_neg hx] at h
      cases h

/-- A call of the fetch primitive that returns was made on a thread bound to a
context, every staged opcode passed the assertion, and the result is the closed
form. -/
theorem x86_cpu_fetch_inst_some (env : x86_params) (st : x86_cpu_t) (core thread : Nat)
    (tc : Bool) (st1 : x86_cpu_t) (ret : Option (Nat × x86_uop_t))
    (h : x86_cpu_fetch_inst env st core thread tc = some (st1, ret)) :
    ∃ ctx, (X86_THREAD st core thread).ctx = some ctx ∧
      (∀ u ∈ (x86_ctx_execute_at env st core thread ctx).2, valid_opcode env u) ∧
      ret = select_ret_uop env.X86_UINST_CTRL (fetch_inst_news env st core thread tc ctx)
        (X86_THREAD st core thread).fetch_queue.length none ∧
      st1 = fetch_inst_charged
        (fetch_inst_drained (fetch_inst_executed env st core thread ctx) core thread tc
          (fetch_inst_news env st core thread tc ctx)) core thread tc ret := by
  cases hctx : (X86_THREAD st core thread).ctx with
  | none =>
    simp [x86_cpu_fetch_inst, hctx] at h
  | some ctx =>
    have hv : ∀ u ∈ (x86_ctx_execute_at env st core thread ctx).2, valid_opcode env u := by
      unfold x86_cpu_fetch_inst at h
      simp only [hctx] at h
      cases hd : fetch_inst_drain env core thread tc
          (env.x86_ctx_execute (x86_ctx_set_eip ctx (X86_THREAD st core thread).fetch_neip)
            st.x86_uinst_list).1
          (env.x86_ctx_execute (x86_ctx_set_eip ctx (X86_THREAD st core thread).fetch_neip)
            st.x86_uinst_list).2.length
          (env.x86_ctx_execute (x86_ctx_set_eip ctx (X86_THREAD st core thread).fetch_neip)
            st.x86_uinst_list).2 0 none
          (set_thread
            { st with x86_uinst_list := (env.x86_ctx_execute
              (x86_ctx_set_eip ctx (X86_THREAD st core thread).fetch_neip) st.x86_uinst_list).2 }
            core thread
            { X86_THREAD st core thread with
              ctx := some (env.x86_ctx_execute
                (x86_ctx_set_eip ctx (X86_THREAD st core thread).fetch_neip) st.x86_uinst_list).1
              fetch_eip := (X86_THREAD st core thread).fetch_neip
              fetch_neip := ((X86_THREAD st core thread).fetch_neip + (env.x86_ctx_execute
                (x86_ctx_set_eip ctx (X86_THREAD st core thread).fetch_neip)
                  st.x86_uinst_list).1.inst_size) % 4294967296 }) with
      | none => rw [hd] at h; cases h
      | some r => exact fetch_inst_drain_valid _ _ _ _ _ _ _ _ _ _ _ hd
    have he := x86_cpu_fetch_inst_eq env st core thread tc ctx hctx hv
    rw [he] at h
    simp only [Option.some.injEq, Prod.mk.injEq] at h
    refine ⟨ctx, rfl, hv, h.2.symm, ?_⟩
    rw [← h.1, ← h.2]

/-! ## Writes through a uop pointer -/

theorem list_modify_id {α : Type} (l : List α) (i : Nat) : list_modify (fun u => u) l i = l := by
  induction l generalizing i with
  | nil => rfl
  | cons x xs ih => cases i <;> simp [list_modify, ih]

theorem list_modify_length {α : Type} (f : α → α) (l : List α) (i : Nat) :
    (list_modify f l i).length = l.length := by
  induction l generalizing i with
  | nil => rfl
  | cons x xs ih => cases i <;> simp [list_modify, ih]

theorem list_modify_getElem? {α : Type} (f : α → α) (l : List α) (i k : Nat) :
    (list_modify f l i)[k]? = if k = i then (l[k]?).map f else l[k]? := by
  induction l generalizing i k with
  | nil => simp [list_modify]
  | cons x xs ih =>
    cases i with
    | zero =>
      cases k with
      | zero => simp [list_modify]
      | succ k => simp [list_modify]
    | succ i =>
      cases k with
      | zero => simp [list_modify]
      | succ k => simp [list_modify, ih]

theorem list_modify_append_right {α : Type} (f : α → α) (l1 l2 : List α) (k : Nat) :
    list_modify f (l1 ++ l2) (l1.length + k) = l1 ++ list_modify f l2 k := by
  induction l1 with
  | nil => simp
  | cons x xs ih =>
    have : (x :: xs).length + k = (xs.length + k) + 1 := by simp; omega
    rw [this]
    simp [list_modify, ih]

theorem set_thread_self (st : x86_cpu_t) (core thread : Nat) :
    set_thread st core thread (X86_THREAD st core thread) = st := by
  apply x86_cpu_t_ext <;> simp [set_thread, set_core, X86_THREAD]
  funext c
  by_cases hc : c = core
  · subst hc
    simp
    cases hco : st.core c
    simp
    funext t
    by_cases ht : t = thread
    · subst ht; simp
    · simp [ht]
  · simp [hc]

/-! ## What one trip of each loop does -/

theorem fetch_adjust_id (st : x86_cpu_t) (core thread : Nat) (idx : Nat) :
    fetch_adjust st core thread (X86_THREAD st core thread).bpred
      (X86_THREAD st core thread).fetch_neip (fun u => u) idx = st := by
  unfold fetch_adjust
  rw [list_modify_id]
  exact set_thread_self st core thread

/-- A trip of the block loop either leaves at once with the state unchanged, or
calls the primitive once, on a running context with `fetchq_occ` below the
limit, and then only adjusts the thread. -/
theorem fetch_thread_iter_cases (env : x86_params) (core thread block : Nat)
    (st st2 : x86_cpu_t) (b : Bool)
    (h : fetch_thread_iter env core thread block st = some (st2, b)) :
    (st2 = st ∧ b = false) ∨
    ∃ ctx st1 ret ctx1, (X86_THREAD st core thread).ctx = some ctx ∧
      x86_ctx_get_status ctx .x86_ctx_running = true ∧
      (X86_THREAD st core thread).fetchq_occ < env.x86_fetch_queue_size ∧
      x86_block (X86_THREAD st core thread).fetch_neip
        (X86_THREAD_inst_mod st core thread).block_size = block ∧
      x86_cpu_fetch_inst env st core thread false = some (st1, ret) ∧
      (X86_THREAD st1 core thread).ctx = some ctx1 ∧
      (b = true → ctx1.inst_size ≠ 0) ∧
      ∃ bp neip f idx, st2 = fetch_adjust st1 core thread bp neip f idx ∧
        (f = (fun u => u) ∨ ∃ uop, ret = some (idx, uop)) := by
  unfold fetch_thread_iter at h
  by_cases hb : x86_block (X86_THREAD st core thread).fetch_neip
      (X86_THREAD_inst_mod st core thread).block_size = block
  swap
  · simp [hb] at h
    obtain ⟨h1, h2⟩ := h
    subst h1 h2
    left; exact ⟨rfl, rfl⟩
  simp only [hb, ne_eq, not_true_eq_false, if_false] at h
  cases hctx : (X86_THREAD st core thread).ctx with
  | none => simp [hctx] at h
  | some ctx =>
    simp only [hctx] at h
    by_cases hr : x86_ctx_get_status ctx .x86_ctx_running = true
    swap
    · simp [hr] at h
      obtain ⟨h1, h2⟩ := h
      subst h1 h2
      left; exact ⟨rfl, rfl⟩
    by_cases ho : (X86_THREAD st core thread).fetchq_occ < env.x86_fetch_queue_size
    swap
    · simp [hr, ho] at h
      rw [if_pos (by omega)] at h
      simp at h
      obtain ⟨h1, h2⟩ := h
      subst h1 h2
      left; exact ⟨rfl, rfl⟩
    simp only [hr, Bool.not_true, Bool.false_eq_true, if_false, ge_iff_le, not_le.mpr ho] at h
    cases hf : x86_cpu_fetch_inst env st core thread false with
    | none => simp [hf] at h
    | some r =>
      obtain ⟨st1, ret⟩ := r
      simp only [hf] at h
      cases hc1 : (X86_THREAD st1 core thread).ctx with
      | none => simp [hc1] at h
      | some ctx1 =>
        simp only [hc1] at h
        right
        refine ⟨ctx, st1, ret, ctx1, rfl, hr, ho, hb, rfl, hc1, ?_⟩
        by_cases hz : ctx1.inst_size = 0
        · simp [hz] at h
          obtain ⟨h1, h2⟩ := h
          subst h1 h2
          refine ⟨by simp, (X86_THREAD st1 core thread).bpred,
            (X86_THREAD st1 core thread).fetch_neip, (fun u => u), 0, ?_, Or.inl rfl⟩
          rw [fetch_adjust_id]
        simp only [hz, if_false] at h
        refine ⟨fun _ => hz, ?_⟩
        cases ret with
        | none =>
          simp at h
          obtain ⟨h1, h2⟩ := h
          subst h1 h2
          refine ⟨(X86_THREAD st1 core thread).bpred,
            (X86_THREAD st1 core thread).fetch_neip, (fun u => u), 0, ?_, Or.inl rfl⟩
          rw [fetch_adjust_id]
        | some r =>
          obtain ⟨idx, uop⟩ := r
          simp only at h
          by_cases hcf : uop.flags &&& env.X86_UINST_CTRL = 0
          · simp [hcf] at h
            obtain ⟨h1, h2⟩ := h
            subst h1 h2
            refine ⟨(X86_THREAD st1 core thread).bpred,
            (X86_THREAD st1 core thread).fetch_neip, (fun u => u), 0, ?_, Or.inl rfl⟩
            rw [fetch_adjust_id]
          simp only [ne_eq, hcf, not_false_eq_true, if_true] at h
          by_cases ht : (env.x86_bpred_btb_lookup (X86_THREAD st1 core thread).bpred uop).1 = 0
          · simp [ht] at h
            obtain ⟨h1, h2⟩ := h
            subst h1 h2
            refine ⟨(env.x86_bpred_btb_lookup (X86_THREAD st1 core thread).bpred uop).2,
              (X86_THREAD st1 core thread).fetch_neip, (fun u => u), 0, ?_, Or.inl rfl⟩
            simp [fetch_adjust, list_modify_id, hc1]
          simp only [ht, not_false_eq_true, if_true] at h
          by_cases hp : (env.x86_bpred_lookup
              (env.x86_bpred_btb_lookup (X86_THREAD st1 core thread).bpred uop).2 uop).1 = true
          · simp [hp] at h
            obtain ⟨h1, h2⟩ := h
            subst h1 h2
            refine ⟨(env.x86_bpred_lookup
                (env.x86_bpred_btb_lookup (X86_THREAD st1 core thread).bpred uop).2 uop).2.1,
              (env.x86_bpred_btb_lookup (X86_THREAD st1 core thread).bpred uop).1,
              (fun u => { u with
                bpred_info := (env.x86_bpred_lookup
                  (env.x86_bpred_btb_lookup (X86_THREAD st1 core thread).bpred uop).2 uop).2.2
                pred_neip := (env.x86_bpred_btb_lookup (X86_THREAD st1 core thread).bpred uop).1 }),
              idx, ?_, Or.inr ⟨uop, rfl⟩⟩
            simp [fetch_adjust, hc1]
          · simp [hp] at h
            obtain ⟨h1, h2⟩ := h
            subst h1 h2
            refine ⟨(env.x86_bpred_lookup
                (env.x86_bpred_btb_lookup (X86_THREAD st1 core thread).bpred uop).2 uop).2.1,
              (X86_THREAD st1 core thread).fetch_neip,
              (fun u => { u with
                bpred_info := (env.x86_bpred_lookup
                  (env.x86_bpred_btb_lookup (X86_THREAD st1 core thread).bpred uop).2 uop).2.2 }),
              idx, ?_, Or.inr ⟨uop, rfl⟩⟩
            simp [fetch_adjust, hc1]

/-- A trip of the trace-cache loop either breaks with the state unchanged
because the context is not running, or sets `fetch_neip` to `mop_array[i]`,
calls the primitive once, and then, if the returned uop is a control uop,
records the prediction and overwrites its `pred_neip`. -/
theorem fetch_thread_trace_cache_iter_cases (env : x86_params) (core thread : Nat)
    (res : x86_trace_cache_result_t) (i : Nat) (st st2 : x86_cpu_t) (b : Bool)
    (h : fetch_thread_trace_cache_iter env core thread res i st = some (st2, b)) :
    (st2 = st ∧ b = false ∧ ∃ ctx, (X86_THREAD st core thread).ctx = some ctx ∧
      x86_ctx_get_status ctx .x86_ctx_running = false) ∨
    ∃ ctx st1 ret, (X86_THREAD st core thread).ctx = some ctx ∧
      x86_ctx_get_status ctx .x86_ctx_running = true ∧ b = true ∧
      x86_cpu_fetch_inst env
        (set_thread st core thread
          { X86_THREAD st core thread with fetch_neip := res.mop_array i })
        core thread true = some (st1, ret) ∧
      ((st2 = st1 ∧ ∀ idx uop, ret = some (idx, uop) → uop.flags &&& env.X86_UINST_CTRL = 0) ∨
        ∃ idx uop, ret = some (idx, uop) ∧ uop.flags &&& env.X86_UINST_CTRL ≠ 0 ∧
          st2 = fetch_adjust st1 core thread
            (env.x86_bpred_lookup (X86_THREAD st1 core thread).bpred uop).2.1
            (X86_THREAD st1 core thread).fetch_neip
            (fun u => { u with
              bpred_info := (env.x86_bpred_lookup (X86_THREAD st1 core thread).bpred uop).2.2
              pred_neip := if i = res.mop_count - 1 then res.neip else res.mop_array (i + 1) })
            idx) := by
  unfold fetch_thread_trace_cache_iter at h
  cases hctx : (X86_THREAD st core thread).ctx with
  | none => simp [hctx] at h
  | some ctx =>
    simp only [hctx] at h
    by_cases hr : x86_ctx_get_status ctx .x86_ctx_running = true
    swap
    · simp [hr] at h
      obtain ⟨h1, h2⟩ := h
      subst h1 h2
      left; exact ⟨rfl, rfl, ctx, rfl, by simpa using hr⟩
    simp only [hr, Bool.not_true, Bool.false_eq_true, if_false] at h
    right
    cases hf : x86_cpu_fetch_inst env
        (set_thread st core thread
          { X86_THREAD st core thread with fetch_neip := res.mop_array i })
        core thread true with
    | none =>
      simp only [hctx] at hf
      simp [hf] at h
    | some r =>
      obtain ⟨st1, ret⟩ := r
      have hf2 := hf
      simp only [hctx] at hf2
      simp only [hf2] at h
      cases ret with
      | none =>
        simp at h
        obtain ⟨h1, h2⟩ := h
        subst h1 h2
        exact ⟨ctx, st1, none, rfl, hr, rfl, rfl, Or.inl ⟨rfl, by simp⟩⟩
      | some r =>
        obtain ⟨idx, uop⟩ := r
        simp only at h
        by_cases hcf : uop.flags &&& env.X86_UINST_CTRL = 0
        · simp [hcf] at h
          obtain ⟨h1, h2⟩ := h
          subst h1 h2
          refine ⟨ctx, st1, _, rfl, hr, rfl, rfl, Or.inl ⟨rfl, ?_⟩⟩
          intro idx1 uop1 he
          simp only [Option.some.injEq, Prod.mk.injEq] at he
          rw [← he.2]; exact hcf
        · simp only [ne_eq, hcf, not_false_eq_true, if_true] at h
          simp only [Option.some.injEq, Prod.mk.injEq] at h
          obtain ⟨h1, h2⟩ := h
          subst h1 h2
          exact ⟨ctx, st1, _, rfl, hr, rfl, rfl, Or.inr ⟨idx, uop, rfl, hcf, rfl⟩⟩

/-- A property that every trip of the trace-cache loop preserves holds when
the loop returns. -/
theorem fetch_thread_trace_cache_loop_invariant (env : x86_params) (core thread : Nat)
    (res : x86_trace_cache_result_t) (P : x86_cpu_t → Prop)
    (hstep : ∀ i st st1 b, P st →
      fetch_thread_trace_cache_iter env core thread res i st = some (st1, b) → P st1)
    (left i : Nat) (st st1 : x86_cpu_t) (h0 : P st)
    (h : fetch_thread_trace_cache_loop env core thread res left i st = some st1) : P st1 := by
  induction left generalizing i st with
  | zero =>
    simp only [fetch_thread_trace_cache_loop, Option.some.injEq] at h
    subst h; exact h0
  | succ n ih =>
    simp only [fetch_thread_trace_cache_loop] at h
    cases hi : fetch_thread_trace_cache_iter env core thread res i st with
    | none => simp [hi] at h
    | some r =>
      obtain ⟨st2, b⟩ := r
      have hp := hstep i st st2 b h0 hi
      cases b with
      | false =>
        simp only [hi, Option.some.injEq] at h
        subst h; exact hp
      | true =>
        simp only [hi] at h
        exact ih _ _ hp h

/-- A property that every trip of the block loop preserves holds when the loop
returns. -/
theorem fetch_thread_loop_invariant (env : x86_params) (core thread block : Nat)
    (P : x86_cpu_t → Prop)
    (hstep : ∀ st st1 b, P st →
      fetch_thread_iter env core thread block st = some (st1, b) → P st1)
    (fuel : Nat) (st st1 : x86_cpu_t) (h0 : P st)
    (h : fetch_thread_loop env core thread block fuel st = some st1) : P st1 := by
  induction fuel generalizing st with
  | zero => simp [fetch_thread_loop] at h
  | succ n ih =>
    simp only [fetch_thread_loop] at h
    cases hi : fetch_thread_iter env core thread block st with
    | none => simp [hi] at h
    | some r =>
      obtain ⟨st2, b⟩ := r
      have hp := hstep st st2 b h0 hi
      cases b with
      | false =>
        simp only [hi, Option.some.injEq] at h
        subst h; exact hp
      | true =>
        simp only [hi] at h
        exact ih _ hp h

theorem list_modify_mem {α : Type} (f : α → α) (l : List α) (i : Nat) (u : α)
    (h : u ∈ list_modify f l i) : u ∈ l ∨ ∃ v ∈ l, u = f v := by
  induction l generalizing i with
  | nil => simp [list_modify] at h
  | cons x xs ih =>
    cases i with
    | zero =>
      simp only [list_modify, List.mem_cons] at h
      rcases h with h | h
      · right; exact ⟨x, List.mem_cons_self _ _, h⟩
      · left; exact List.mem_cons_of_mem _ h
    | succ i =>
      simp only [list_modify, List.mem_cons] at h
      rcases h with h | h
      · left; rw [h]; exact List.mem_cons_self _ _
      · rcases ih i h with h1 | ⟨v, hv, h1⟩
        · left; exact List.mem_cons_of_mem _ h1
        · right; exact ⟨v, List.mem_cons_of_mem _ hv, h1⟩

/-- The thread after a call of the fetch primitive that returns. -/
theorem x86_cpu_fetch_inst_some_thread (env : x86_params) (st : x86_cpu_t) (core thread : Nat)
    (tc : Bool) (st1 : x86_cpu_t) (ret : Option (Nat × x86_uop_t))
    (h : x86_cpu_fetch_inst env st core thread tc = some (st1, ret)) :
    ∃ ctx, (X86_THREAD st core thread).ctx = some ctx ∧
      (∀ u ∈ (x86_ctx_execute_at env st core thread ctx).2, valid_opcode env u) ∧
      ret = select_ret_uop env.X86_UINST_CTRL (fetch_inst_news env st core thread tc ctx)
        (X86_THREAD st core thread).fetch_queue.length none ∧
      X86_THREAD st1 core thread =
        { X86_THREAD st core thread with
          ctx := some (x86_ctx_execute_at env st core thread ctx).1
          fetch_eip := (X86_THREAD st core thread).fetch_neip
          fetch_neip := ((X86_THREAD st core thread).fetch_neip +
            (x86_ctx_execute_at env st core thread ctx).1.inst_size) % 4294967296
          fetch_queue := (X86_THREAD st core thread).fetch_queue ++
            fetch_inst_news env st core thread tc ctx
          fetched := (X86_THREAD st core thread).fetched +
            ((x86_ctx_execute_at env st core thread ctx).2.length : Int)
          trace_cache_queue_occ :=
            if tc then (X86_THREAD st core thread).trace_cache_queue_occ +
              (x86_ctx_execute_at env st core thread ctx).2.length
            else (X86_THREAD st core thread).trace_cache_queue_occ
          fetchq_occ :=
            fetch_inst_fetchq_occ (X86_THREAD st core thread).fetchq_occ tc ret } := by
  obtain ⟨ctx, hctx, hv, hret, hst⟩ := x86_cpu_fetch_inst_some env st core thread tc st1 ret h
  refine ⟨ctx, hctx, hv, hret, ?_⟩
  rw [hst, fetch_inst_thread]

/-- The fetch primitive writes to no memory module. -/
theorem x86_cpu_fetch_inst_mods (env : x86_params) (st : x86_cpu_t) (core thread : Nat)
    (tc : Bool) (st1 : x86_cpu_t) (ret : Option (Nat × x86_uop_t))
    (h : x86_cpu_fetch_inst env st core thread tc = some (st1, ret)) :
    st1.mods = st.mods := by
  obtain ⟨ctx, -, -, -, hst⟩ := x86_cpu_fetch_inst_some env st core thread tc st1 ret h
  subst hst
  cases ret with
  | none => simp [fetch_inst_charged, fetch_inst_drained, fetch_inst_executed, set_thread, set_core]
  | some r =>
    cases tc <;>
      simp [fetch_inst_charged, fetch_inst_drained, fetch_inst_executed, set_thread, set_core]

/-- The returned uop of a call of the fetch primitive is one of the uops the
call created; `idx` is its position in the fetch queue. -/
theorem x86_cpu_fetch_inst_some_ret (env : x86_params) (st : x86_cpu_t) (core thread : Nat)
    (tc : Bool) (st1 : x86_cpu_t) (idx : Nat) (uop : x86_uop_t)
    (h : x86_cpu_fetch_inst env st core thread tc = some (st1, some (idx, uop))) :
    ∃ ctx k, (X86_THREAD st core thread).ctx = some ctx ∧
      (fetch_inst_news env st core thread tc ctx)[k]? = some uop ∧
      idx = (X86_THREAD st core thread).fetch_queue.length + k := by
  obtain ⟨ctx, hctx, -, hret, -⟩ := x86_cpu_fetch_inst_some env st core thread tc st1 _ h
  obtain ⟨k, hk, hidx⟩ := select_ret_uop_some _ _ _ _ _ hret.symm
  exact ⟨ctx, k, hctx, hk, hidx⟩

/-- A trip of the trace-cache loop appends a group of uops, all marked
`fetch_trace_cache`, to the fetch queue, adds their number to
`trace_cache_queue_occ`, and leaves `fetchq_occ` alone. -/
theorem fetch_thread_trace_cache_iter_thread (env : x86_params) (core thread : Nat)
    (res : x86_trace_cache_result_t) (i : Nat) (st st2 : x86_cpu_t) (b : Bool)
    (h : fetch_thread_trace_cache_iter env core thread res i st = some (st2, b)) :
    ∃ group : List x86_uop_t, (∀ u ∈ group, u.fetch_trace_cache = true) ∧
      (X86_THREAD st2 core thread).fetch_queue = (X86_THREAD st core thread).fetch_queue ++ group ∧
      (X86_THREAD st2 core thread).fetchq_occ = (X86_THREAD st core thread).fetchq_occ ∧
      (X86_THREAD st2 core thread).trace_cache_queue_occ =
        (X86_THREAD st core thread).trace_cache_queue_occ + group.length ∧
      (b = false → st2 = st) := by
  rcases fetch_thread_trace_cache_iter_cases env core thread res i st st2 b h with
    ⟨h1, h2, -⟩ | ⟨ctx, st1, ret, hctx, hr, hb, hf, hcase⟩
  · subst h1
    exact ⟨[], by simp, by simp, rfl, rfl, fun _ => rfl⟩
  · obtain ⟨ctx1, hctx1, hv, hret, hth⟩ := x86_cpu_fetch_inst_some_thread env _ core thread true
      st1 ret hf
    have hocc : (X86_THREAD st1 core thread).fetchq_occ = (X86_THREAD st core thread).fetchq_occ := by
      rw [hth]; cases ret <;> simp [fetch_inst_fetchq_occ]
    have hnews : ∀ u ∈ fetch_inst_news env (set_thread st core thread
        { X86_THREAD st core thread with fetch_neip := res.mop_array i }) core thread true ctx1,
        u.fetch_trace_cache = true := by
      intro u hu
      obtain ⟨k, hk, hk2⟩ := List.getElem_of_mem hu
      have := fetch_inst_news_fields env _ core thread true ctx1 k u
        (by rw [List.getElem?_eq_getElem hk, hk2])
      exact this.2.2.2.2.2.2.2.2.2.1
    have hlen := fetch_inst_news_length env (set_thread st core thread
        { X86_THREAD st core thread with fetch_neip := res.mop_array i }) core thread true ctx1
    rcases hcase with ⟨h2, -⟩ | ⟨idx, uop, hret2, hcf, h2⟩
    · subst h2
      refine ⟨_, hnews, ?_, hocc, ?_, by simp [hb]⟩
      · rw [hth]; simp
      · rw [hth]; simp [hlen]
    · subst hret2
      obtain ⟨k, hk, hidx⟩ := select_ret_uop_some _ _ _ _ _ hret.symm
      simp only [X86_THREAD_set_thread_same] at hidx
      refine ⟨list_modify (fun u => { u with
          bpred_info := (env.x86_bpred_lookup (X86_THREAD st1 core thread).bpred uop).2.2
          pred_neip := if i = res.mop_count - 1 then res.neip else res.mop_array (i + 1) })
        (fetch_inst_news env (set_thread st core thread
        { X86_THREAD st core thread with fetch_neip := res.mop_array i }) core thread true ctx1) k,
        ?_, ?_, ?_, ?_, by simp [hb]⟩
      · intro u hu
        rcases list_modify_mem _ _ _ _ hu with hu1 | ⟨v, hv1, hu1⟩
        · exact hnews u hu1
        · rw [hu1]; exact hnews v hv1
      · rw [h2]
        simp only [fetch_adjust, X86_THREAD_set_thread_same]
        rw [hth, hidx]
        simp only [X86_THREAD_set_thread_same]
        rw [list_modify_append_right]
      · rw [h2]
        simp only [fetch_adjust, X86_THREAD_set_thread_same]
        exact hocc
      · rw [h2]
        simp only [fetch_adjust, X86_THREAD_set_thread_same]
        rw [hth]
        simp [list_modify_length, hlen]

/-! ## The trace-cache fetch path -/

/-- The trace-cache loop appends uops marked `fetch_trace_cache` to the fetch
queue, adds their number to `trace_cache_queue_occ`, and leaves `fetchq_occ`
alone. -/
theorem fetch_thread_trace_cache_loop_thread (env : x86_params) (core thread : Nat)
    (res : x86_trace_cache_result_t) (left i : Nat) (st st1 : x86_cpu_t)
    (h : fetch_thread_trace_cache_loop env core thread res left i st = some st1) :
    ∃ news : List x86_uop_t, (∀ u ∈ news, u.fetch_trace_cache = true) ∧
      (X86_THREAD st1 core thread).fetch_queue = (X86_THREAD st core thread).fetch_queue ++ news ∧
      (X86_THREAD st1 core thread).fetchq_occ = (X86_THREAD st core thread).fetchq_occ ∧
      (X86_THREAD st1 core thread).trace_cache_queue_occ =
        (X86_THREAD st core thread).trace_cache_queue_occ + news.length := by
  refine fetch_thread_trace_cache_loop_invariant env core thread res
    (fun s => ∃ news : List x86_uop_t, (∀ u ∈ news, u.fetch_trace_cache = true) ∧
      (X86_THREAD s core thread).fetch_queue = (X86_THREAD st core thread).fetch_queue ++ news ∧
      (X86_THREAD s core thread).fetchq_occ = (X86_THREAD st core thread).fetchq_occ ∧
      (X86_THREAD s core thread).trace_cache_queue_occ =
        (X86_THREAD st core thread).trace_cache_queue_occ + news.length)
    ?_ left i st st1 ⟨[], by simp, by simp, rfl, rfl⟩ h
  intro j s s1 b ⟨news, hn, hq, ho, ht⟩ hi
  obtain ⟨group, hg, hq1, ho1, ht1, -⟩ :=
    fetch_thread_trace_cache_iter_thread env core thread res j s s1 b hi
  refine ⟨news ++ group, ?_, ?_, ?_, ?_⟩
  · intro u hu
    rcases List.mem_append.mp hu with hu | hu
    · exact hn u hu
    · exact hg u hu
  · rw [hq1, hq, List.append_assoc]
  · rw [ho1, ho]
  · rw [ht1, ht, List.length_append]; omega

/-- The trace-cache path returns miss with the state unchanged or changed only
by the lookups, or returns hit after the loop has run over the line found and
`fetch_neip` has been set to the `neip` of that line. -/
theorem x86_cpu_fetch_thread_trace_cache_cases (env : x86_params) (st : x86_cpu_t)
    (core thread : Nat) (st1 : x86_cpu_t) (hit : Bool)
    (h : x86_cpu_fetch_thread_trace_cache env st core thread = some (st1, hit)) :
    (hit = false ∧
      (st1 = st ∨ st1 = (fetch_thread_trace_cache_lookup env st core thread).1)) ∨
    (hit = true ∧ env.x86_trace_cache_present = true ∧
      (X86_THREAD st core thread).trace_cache_queue_occ < env.x86_trace_cache_queue_size ∧
      (fetch_thread_trace_cache_lookup env st core thread).2.hit = true ∧
      ∃ st2, fetch_thread_trace_cache_loop env core thread
          (fetch_thread_trace_cache_lookup env st core thread).2
          (fetch_thread_trace_cache_lookup env st core thread).2.mop_count 0
          (fetch_thread_trace_cache_lookup env st core thread).1 = some st2 ∧
        st1 = set_thread st2 core thread
          { X86_THREAD st2 core thread with
            fetch_neip := (fetch_thread_trace_cache_lookup env st core thread).2.neip }) := by
  unfold x86_cpu_fetch_thread_trace_cache at h
  by_cases hp : env.x86_trace_cache_present = true
  swap
  · simp [hp] at h
    obtain ⟨h1, h2⟩ := h
    subst h1 h2
    left; exact ⟨rfl, Or.inl rfl⟩
  by_cases hq : (X86_THREAD st core thread).trace_cache_queue_occ ≥ env.x86_trace_cache_queue_size
  · simp [hp, hq] at h
    obtain ⟨h1, h2⟩ := h
    subst h1 h2
    left; exact ⟨rfl, Or.inl rfl⟩
  simp only [hp, Bool.not_true, Bool.false_eq_true, if_false, hq] at h
  by_cases hh : (fetch_thread_trace_cache_lookup env st core thread).2.hit = true
  swap
  · simp [hh] at h
    obtain ⟨h1, h2⟩ := h
    subst h1 h2
    left; exact ⟨rfl, Or.inr rfl⟩
  simp only [hh, Bool.not_true, Bool.false_eq_true, if_false] at h
  cases hloop : fetch_thread_trace_cache_loop env core thread
      (fetch_thread_trace_cache_lookup env st core thread).2
      (fetch_thread_trace_cache_lookup env st core thread).2.mop_count 0
      (fetch_thread_trace_cache_lookup env st core thread).1 with
  | none => simp [hloop] at h
  | some st2 =>
    simp only [hloop, Option.some.injEq, Prod.mk.injEq] at h
    obtain ⟨h1, h2⟩ := h
    subst h1 h2
    right
    exact ⟨rfl, hp, by omega, hh, st2, rfl, rfl⟩

/-- Claim C6. When `x86_cpu_fetch_thread_trace_cache` returns hit, the fetch
queue is the old one followed by the uops appended, every one of them has
`fetch_trace_cache` set, `fetchq_occ` is unchanged, and
`trace_cache_queue_occ` has grown by their number. When it returns miss,
`fetchq_occ`, `trace_cache_queue_occ`, `fetch_neip` and the fetch queue are
unchanged. -/
theorem x86_cpu_fetch_thread_trace_cache_occ (env : x86_params) (st : x86_cpu_t)
    (core thread : Nat) (st1 : x86_cpu_t) (hit : Bool)
    (h : x86_cpu_fetch_thread_trace_cache env st core thread = some (st1, hit)) :
    (hit = true →
      ∃ news : List x86_uop_t, (∀ u ∈ news, u.fetch_trace_cache = true) ∧
        (X86_THREAD st1 core thread).fetch_queue =
          (X86_THREAD st core thread).fetch_queue ++ news ∧
        (X86_THREAD st1 core thread).fetchq_occ = (X86_THREAD st core thread).fetchq_occ ∧
        (X86_THREAD st1 core thread).trace_cache_queue_occ =
          (X86_THREAD st core thread).trace_cache_queue_occ + news.length) ∧
    (hit = false →
      (X86_THREAD st1 core thread).fetchq_occ = (X86_THREAD st core thread).fetchq_occ ∧
      (X86_THREAD st1 core thread).trace_cache_queue_occ =
        (X86_THREAD st core thread).trace_cache_queue_occ ∧
      (X86_THREAD st1 core thread).fetch_neip = (X86_THREAD st core thread).fetch_neip ∧
      (X86_THREAD st1 core thread).fetch_queue = (X86_THREAD st core thread).fetch_queue) := by
  rcases x86_cpu_fetch_thread_trace_cache_cases env st core thread st1 hit h with
    ⟨h1, h2⟩ | ⟨h1, -, -, -, st2, hloop, h2⟩
  · subst h1
    refine ⟨fun hc => (by cases hc), fun _ => ?_⟩
    rcases h2 with h2 | h2 <;> subst h2 <;> simp [fetch_thread_trace_cache_lookup]
  · subst h1 h2
    obtain ⟨news, hn, hq1, ho, ht⟩ :=
      fetch_thread_trace_cache_loop_thread env core thread _ _ _ _ _ hloop
    simp only [fetch_thread_trace_cache_lookup, X86_THREAD_set_thread_same] at hq1 ho ht
    refine ⟨fun _ => ⟨news, hn, ?_, ?_, ?_⟩, fun hc => by cases hc⟩
    · simpa using hq1
    · simpa using ho
    · simpa using ht

/-- Claim C6 on scenario S4: a hit on a line of three single-uop
macro-instructions appends three uops marked `fetch_trace_cache`, adds 3 to
`trace_cache_queue_occ`, and leaves `fetchq_occ` at 7. -/
theorem x86_cpu_fetch_thread_trace_cache_occ_witness :
    x86_cpu_fetch_thread_trace_cache scenario_S4_params (scenario_state 100 7) 0 0 =
      some (scenario_S4_after, true) ∧
    (X86_THREAD scenario_S4_after 0 0).trace_cache_queue_occ = 0 + 3 ∧
    (X86_THREAD scenario_S4_after 0 0).fetchq_occ = 7 ∧
    (X86_THREAD scenario_S4_after 0 0).fetch_queue.map (fun u => u.fetch_trace_cache) =
      [true, true, true] ∧
    ((true = true →
      ∃ news : List x86_uop_t, (∀ u ∈ news, u.fetch_trace_cache = true) ∧
        (X86_THREAD scenario_S4_after 0 0).fetch_queue =
          (X86_THREAD (scenario_state 100 7) 0 0).fetch_queue ++ news ∧
        (X86_THREAD scenario_S4_after 0 0).fetchq_occ =
          (X86_THREAD (scenario_state 100 7) 0 0).fetchq_occ ∧
        (X86_THREAD scenario_S4_after 0 0).trace_cache_queue_occ =
          (X86_THREAD (scenario_state 100 7) 0 0).trace_cache_queue_occ + news.length) ∧
    (true = false →
      (X86_THREAD scenario_S4_after 0 0).fetchq_occ =
        (X86_THREAD (scenario_state 100 7) 0 0).fetchq_occ ∧
      (X86_THREAD scenario_S4_after 0 0).trace_cache_queue_occ =
        (X86_THREAD (scenario_state 100 7) 0 0).trace_cache_queue_occ ∧
      (X86_THREAD scenario_S4_after 0 0).fetch_neip =
        (X86_THREAD (scenario_state 100 7) 0 0).fetch_neip ∧
      (X86_THREAD scenario_S4_after 0 0).fetch_queue =
        (X86_THREAD (scenario_state 100 7) 0 0).fetch_queue)) :=
  ⟨rfl, by decide, by decide, by decide,
    x86_cpu_fetch_thread_trace_cache_occ scenario_S4_params (scenario_state 100 7) 0 0
      scenario_S4_after true rfl⟩

/-! ## The block fetch path -/

/-- The block fetch path returns what the trace-cache path returns on a hit,
and on a miss what the block loop returns after the block has been opened. -/
theorem x86_cpu_fetch_thread_cases (env : x86_params) (fuel : Nat) (st : x86_cpu_t)
    (core thread : Nat) (st1 : x86_cpu_t)
    (h : x86_cpu_fetch_thread env fuel st core thread = some st1) :
    ∃ sa hit, x86_cpu_fetch_thread_trace_cache env st core thread = some (sa, hit) ∧
      ((hit = true ∧ st1 = sa) ∨
        (hit = false ∧ ∃ sb block, fetch_thread_open env sa core thread = some (sb, block) ∧
          fetch_thread_loop env core thread block fuel sb = some st1)) := by
  unfold x86_cpu_fetch_thread at h
  cases htc : x86_cpu_fetch_thread_trace_cache env st core thread with
  | none => simp [htc] at h
  | some r =>
    obtain ⟨sa, hit⟩ := r
    cases hit with
    | true =>
      simp only [htc, Option.some.injEq] at h
      exact ⟨sa, true, rfl, Or.inl ⟨rfl, h.symm⟩⟩
    | false =>
      simp only [htc] at h
      cases ho : fetch_thread_open env sa core thread with
      | none => simp [ho] at h
      | some r =>
        obtain ⟨sb, block⟩ := r
        simp only [ho] at h
        exact ⟨sa, false, rfl, Or.inr ⟨rfl, sb, block, ho, h⟩⟩

/-- Opening the block changes `fetch_block`, `fetch_address`, `fetch_access`,
the memory module and `btb_reads` of the thread, nothing else in it, and the
variable `block` is the block of `fetch_neip`. -/
theorem fetch_thread_open_thread (env : x86_params) (st : x86_cpu_t) (core thread : Nat)
    (sb : x86_cpu_t) (block : Nat) (h : fetch_thread_open env st core thread = some (sb, block)) :
    block = x86_block (X86_THREAD st core thread).fetch_neip
      (X86_THREAD_inst_mod st core thread).block_size ∧
    (X86_THREAD sb core thread).ctx = (X86_THREAD st core thread).ctx ∧
    (X86_THREAD sb core thread).fetch_queue = (X86_THREAD st core thread).fetch_queue ∧
    (X86_THREAD sb core thread).fetch_neip = (X86_THREAD st core thread).fetch_neip ∧
    (X86_THREAD sb core thread).fetchq_occ = (X86_THREAD st core thread).fetchq_occ ∧
    (X86_THREAD sb core thread).trace_cache_queue_occ =
      (X86_THREAD st core thread).trace_cache_queue_occ ∧
    (X86_THREAD_inst_mod sb core thread).block_size =
      (X86_THREAD_inst_mod st core thread).block_size ∧
    (X86_THREAD sb core thread).fetch_block = block := by
  unfold fetch_thread_open at h
  by_cases hb : x86_block (X86_THREAD st core thread).fetch_neip
      (X86_THREAD_inst_mod st core thread).block_size = (X86_THREAD st core thread).fetch_block
  · simp [hb] at h
    obtain ⟨h1, h2⟩ := h
    subst h1
    simp [← h2, hb]
  · simp only [ne_eq, hb, not_false_eq_true, if_true] at h
    cases hctx : (X86_THREAD st core thread).ctx with
    | none => simp [hctx] at h
    | some ctx =>
      simp only [hctx, Option.some.injEq, Prod.mk.injEq] at h
      obtain ⟨h1, h2⟩ := h
      subst h1 h2
      cases env.mmu_report <;>
        simp [X86_THREAD, X86_THREAD_inst_mod, set_thread, set_core, set_mod]

/-- After a call of the fetch primitive with `fetch_trace_cache` false, the
thread is bound to a context, and `fetchq_occ` is unchanged or has grown by the
`inst_size` of that context. -/
theorem x86_cpu_fetch_inst_occ_after (env : x86_params) (st : x86_cpu_t) (core thread : Nat)
    (st1 : x86_cpu_t) (ret : Option (Nat × x86_uop_t))
    (h : x86_cpu_fetch_inst env st core thread false = some (st1, ret)) :
    ∃ ctx1, (X86_THREAD st1 core thread).ctx = some ctx1 ∧
      ((X86_THREAD st1 core thread).fetchq_occ = (X86_THREAD st core thread).fetchq_occ ∨
        (X86_THREAD st1 core thread).fetchq_occ =
          (X86_THREAD st core thread).fetchq_occ + ctx1.inst_size) := by
  obtain ⟨ctx, hctx, hv, hret, hth⟩ :=
    x86_cpu_fetch_inst_some_thread env st core thread false st1 ret h
  refine ⟨(x86_ctx_execute_at env st core thread ctx).1, by rw [hth], ?_⟩
  cases ret with
  | none => left; rw [hth]; rfl
  | some r =>
    obtain ⟨idx, u⟩ := r
    obtain ⟨k, hk, -⟩ := select_ret_uop_some _ _ _ _ _ hret.symm
    have hf := fetch_inst_news_fields env st core thread false ctx k u hk
    right
    rw [hth]
    simp [fetch_inst_fetchq_occ, hf.2.2.2.1]

/-- Claim C3 fails as stated: with a fetch queue of 16 bytes of which 15 are
occupied, the block fetch path fetches one 4-byte instruction at address 60 and
returns with `fetchq_occ = 19`. -/
theorem x86_cpu_fetch_thread_overshoot :
    (X86_THREAD (scenario_state 60 15) 0 0).fetchq_occ ≤
      (scenario_params 4 [⟨1, 0⟩]).x86_fetch_queue_size ∧
    (scenario_params 4 [⟨1, 0⟩]).x86_fetch_queue_size = 16 ∧
    (x86_cpu_fetch_thread (scenario_params 4 [⟨1, 0⟩]) 2 (scenario_state 60 15) 0 0).map
      (fun st => (X86_THREAD st 0 0).fetchq_occ) = some 19 := by
  decide

/-- Claim C3, amended. If `fetchq_occ ≤ x86_fetch_queue_size` holds for a
thread when `x86_cpu_fetch_thread` is called on it, then on return either it
still holds, or `fetchq_occ` exceeds `x86_fetch_queue_size` by less than the
size of the macro-instruction executed last (`ctx->inst.size`): the limit is
tested before each macro-instruction is fetched, not after. -/
theorem x86_cpu_fetch_thread_fetchq_occ_bound (env : x86_params) (fuel : Nat) (st : x86_cpu_t)
    (core thread : Nat) (st1 : x86_cpu_t)
    (h0 : (X86_THREAD st core thread).fetchq_occ ≤ env.x86_fetch_queue_size)
    (h : x86_cpu_fetch_thread env fuel st core thread = some st1) :
    (X86_THREAD st1 core thread).fetchq_occ ≤ env.x86_fetch_queue_size ∨
    ∃ ctx1, (X86_THREAD st1 core thread).ctx = some ctx1 ∧
      (X86_THREAD st1 core thread).fetchq_occ < env.x86_fetch_queue_size + ctx1.inst_size := by
  obtain ⟨sa, hit, htc, hcase⟩ := x86_cpu_fetch_thread_cases env fuel st core thread st1 h
  have hocc : (X86_THREAD sa core thread).fetchq_occ = (X86_THREAD st core thread).fetchq_occ := by
    have h6 := x86_cpu_fetch_thread_trace_cache_cases env st core thread sa hit htc
    rcases h6 with ⟨-, h2⟩ | ⟨-, -, -, -, st2, hloop, h2⟩
    · rcases h2 with h2 | h2 <;> subst h2 <;> simp [fetch_thread_trace_cache_lookup]
    · obtain ⟨news, -, -, ho, -⟩ :=
        fetch_thread_trace_cache_loop_thread env core thread _ _ _ _ _ hloop
      subst h2
      simp only [fetch_thread_trace_cache_lookup, X86_THREAD_set_thread_same] at ho
      simpa using ho
  rcases hcase with ⟨-, h1⟩ | ⟨-, sb, block, hopen, hloop⟩
  · subst h1
    left; omega
  · have hob := (fetch_thread_open_thread env sa core thread sb block hopen).2.2.2.2.1
    refine fetch_thread_loop_invariant env core thread block
      (fun s => (X86_THREAD s core thread).fetchq_occ ≤ env.x86_fetch_queue_size ∨
        ∃ ctx1, (X86_THREAD s core thread).ctx = some ctx1 ∧
          (X86_THREAD s core thread).fetchq_occ < env.x86_fetch_queue_size + ctx1.inst_size)
      ?_ fuel sb st1 (Or.inl (by omega)) hloop
    intro s s2 b hP hi
    rcases fetch_thread_iter_cases env core thread block s s2 b hi with
      ⟨h1, -⟩ | ⟨ctx, s1, ret, ctx1, -, -, hlt, -, hf, -, -, bp, neip, f, idx, h2, -⟩
    · subst h1; exact hP
    · obtain ⟨c1, hc1, hor⟩ := x86_cpu_fetch_inst_occ_after env s core thread s1 ret hf
      subst h2
      simp only [fetch_adjust, X86_THREAD_set_thread_same]
      rcases hor with hor | hor
      · left; omega
      · right; exact ⟨c1, hc1, by omega⟩

/-- Claim C3, amended, on the scenario of the overshoot: the path returns with
`fetchq_occ = 19 < 16 + 4`. -/
theorem x86_cpu_fetch_thread_fetchq_occ_bound_witness :
    (X86_THREAD (scenario_state 60 15) 0 0).fetchq_occ ≤
      (scenario_params 4 [⟨1, 0⟩]).x86_fetch_queue_size ∧
    x86_cpu_fetch_thread (scenario_params 4 [⟨1, 0⟩]) 2 (scenario_state 60 15) 0 0 =
      some (scenario_after (scenario_params 4 [⟨1, 0⟩]) 2 (scenario_state 60 15)) ∧
    ((X86_THREAD (scenario_after (scenario_params 4 [⟨1, 0⟩]) 2 (scenario_state 60 15)) 0 0).fetchq_occ
        ≤ (scenario_params 4 [⟨1, 0⟩]).x86_fetch_queue_size ∨
      ∃ ctx1,
        (X86_THREAD (scenario_after (scenario_params 4 [⟨1, 0⟩]) 2 (scenario_state 60 15)) 0 0).ctx =
          some ctx1 ∧
        (X86_THREAD (scenario_after (scenario_params 4 [⟨1, 0⟩]) 2 (scenario_state 60 15)) 0
          0).fetchq_occ < (scenario_params 4 [⟨1, 0⟩]).x86_fetch_queue_size + ctx1.inst_size) :=
  ⟨by decide, rfl,
    x86_cpu_fetch_thread_fetchq_occ_bound (scenario_params 4 [⟨1, 0⟩]) 2 (scenario_state 60 15) 0 0
      _ (by decide) rfl⟩

/-! ## Macro-instruction grouping and uop identifiers -/

theorem fetch_inst_news_get (env : x86_params) (st : x86_cpu_t) (core thread : Nat)
    (tc : Bool) (ctx : x86_ctx_t) (i : Nat)
    (hi : i < (x86_ctx_execute_at env st core thread ctx).2.length) :
    ∃ u, (fetch_inst_news env st core thread tc ctx)[i]? = some u := by
  rw [fetch_inst_news_getElem?, List.getElem?_eq_getElem hi]
  exact ⟨_, rfl⟩

/-- Claim C4. A call of `x86_cpu_fetch_inst` on a thread bound to a context, in
which the executor leaves `n` uinsts (with opcodes that pass the assertion) and
reports size `s`, returns with exactly `n` uops appended to the end of the
fetch queue; the `i`-th of them wraps the `i`-th staged uinst and has
`mop_index = i`, `mop_count = n`, `mop_size = s`, and `mop_id` equal to the
`id` of the first uop of the group, which is at most the `id` of every uop of
the group. -/
theorem x86_cpu_fetch_inst_grouping (env : x86_params) (st : x86_cpu_t) (core thread : Nat)
    (tc : Bool) (ctx : x86_ctx_t) (s n : Nat)
    (hctx : (X86_THREAD st core thread).ctx = some ctx)
    (hv : ∀ u ∈ (x86_ctx_execute_at env st core thread ctx).2, valid_opcode env u)
    (hs : (x86_ctx_execute_at env st core thread ctx).1.inst_size = s)
    (hn : (x86_ctx_execute_at env st core thread ctx).2.length = n) :
    ∃ st1 ret, ∃ news : List x86_uop_t,
      x86_cpu_fetch_inst env st core thread tc = some (st1, ret) ∧
      (X86_THREAD st1 core thread).fetch_queue =
        (X86_THREAD st core thread).fetch_queue ++ news ∧
      news.length = n ∧
      ∀ i, i < n →
        ∃ u, news[i]? = some u ∧
          some u.uinst = (x86_ctx_execute_at env st core thread ctx).2[i]? ∧
          u.mop_index = i ∧ u.mop_count = n ∧ u.mop_size = s ∧
          (∃ u0, news[0]? = some u0 ∧ u.mop_id = u0.id) ∧
          (∀ (j : Nat) (v : x86_uop_t), news[j]? = some v → u.mop_id ≤ v.id) := by
  refine ⟨_, _, fetch_inst_news env st core thread tc ctx,
    x86_cpu_fetch_inst_eq env st core thread tc ctx hctx hv, ?_, ?_, ?_⟩
  · rw [fetch_inst_thread]
  · rw [fetch_inst_news_length, hn]
  · intro i hi
    obtain ⟨u, hu⟩ := fetch_inst_news_get env st core thread tc ctx i (by omega)
    obtain ⟨u0, hu0⟩ := fetch_inst_news_get env st core thread tc ctx 0 (by omega)
    have hf := fetch_inst_news_fields env st core thread tc ctx i u hu
    have hf0 := fetch_inst_news_fields env st core thread tc ctx 0 u0 hu0
    obtain ⟨uinst, hui, hu1, -⟩ := hf.2.2.2.2.2.2.2.2.2.2.2.2.2.2
    refine ⟨u, hu, ?_, hf.2.1, by rw [hf.2.2.1, hn], by rw [hf.2.2.2.1, hs], ⟨u0, hu0, ?_⟩, ?_⟩
    · rw [hui, hu1]
    · rw [hf.2.2.2.2.2.2.1, hf0.2.2.2.2.1]; simp
    · intro j v hv1
      have hfj := fetch_inst_news_fields env st core thread tc ctx j v hv1
      rw [hf.2.2.2.2.2.2.1, hfj.2.2.2.2.1]
      omega

/-- Claim C4 on a scenario: a 5-byte instruction that decodes to two uinsts. -/
theorem x86_cpu_fetch_inst_grouping_witness :
    ∃ st1 ret, ∃ news : List x86_uop_t,
      x86_cpu_fetch_inst (scenario_params 5 [⟨1, 0⟩, ⟨3, 64⟩]) (scenario_state 0 7) 0 0 false =
        some (st1, ret) ∧
      (X86_THREAD st1 0 0).fetch_queue = (X86_THREAD (scenario_state 0 7) 0 0).fetch_queue ++ news ∧
      news.length = 2 ∧
      ∀ i, i < 2 →
        ∃ u, news[i]? = some u ∧
          some u.uinst = (x86_ctx_execute_at (scenario_params 5 [⟨1, 0⟩, ⟨3, 64⟩])
            (scenario_state 0 7) 0 0 (scenario_ctx 0)).2[i]? ∧
          u.mop_index = i ∧ u.mop_count = 2 ∧ u.mop_size = 5 ∧
          (∃ u0, news[0]? = some u0 ∧ u.mop_id = u0.id) ∧
          (∀ (j : Nat) (v : x86_uop_t), news[j]? = some v → u.mop_id ≤ v.id) :=
  x86_cpu_fetch_inst_grouping (scenario_params 5 [⟨1, 0⟩, ⟨3, 64⟩]) (scenario_state 0 7) 0 0
    false (scenario_ctx 0) 5 2 rfl (by decide) rfl rfl

theorem same_outside_refl (st : x86_cpu_t) (core thread : Nat) : same_outside st st core thread :=
  ⟨rfl, fun _ _ _ => rfl, fun _ => ⟨rfl, rfl, rfl⟩, fun _ _ => rfl⟩

theorem same_outside_trans (st st1 st2 : x86_cpu_t) (core thread : Nat)
    (h1 : same_outside st st1 core thread) (h2 : same_outside st1 st2 core thread) :
    same_outside st st2 core thread := by
  obtain ⟨a1, b1, c1, d1⟩ := h1
  obtain ⟨a2, b2, c2, d2⟩ := h2
  refine ⟨by rw [a2, a1], fun c t h => by rw [b2 c t h, b1 c t h], fun c => ?_,
    fun c h => by rw [d2 c h, d1 c h]⟩
  obtain ⟨x1, y1, z1⟩ := c1 c
  obtain ⟨x2, y2, z2⟩ := c2 c
  exact ⟨by rw [x2, x1], by rw [y2, y1], by rw [z2, z1]⟩

theorem same_outside_set_thread (st : x86_cpu_t) (core thread : Nat) (th : x86_thread_t) :
    same_outside st (set_thread st core thread th) core thread := by
  refine ⟨rfl, fun c t h => X86_THREAD_set_thread_other st core thread c t th h, fun c => ?_,
    fun c _ => by simp⟩
  refine ⟨by simp, by simp, ?_⟩
  simp only [X86_CORE, set_thread, set_core]
  by_cases hc : c = core
  · subst hc; simp
  · simp [hc]

/-- What a call of the fetch primitive that returns leaves alone, and what it
does to the two uop counters. -/
theorem x86_cpu_fetch_inst_frame (env : x86_params) (st : x86_cpu_t) (core thread : Nat)
    (tc : Bool) (st1 : x86_cpu_t) (ret : Option (Nat × x86_uop_t))
    (h : x86_cpu_fetch_inst env st core thread tc = some (st1, ret)) :
    same_outside st st1 core thread ∧
    st1.mmu_pages = st.mmu_pages ∧
    st1.uop_id_counter = st.uop_id_counter +
      (((X86_THREAD st1 core thread).fetch_queue.length -
        (X86_THREAD st core thread).fetch_queue.length : Nat) : Int) ∧
    (X86_CORE st1 core).uop_id_counter = (X86_CORE st core).uop_id_counter +
      (((X86_THREAD st1 core thread).fetch_queue.length -
        (X86_THREAD st core thread).fetch_queue.length : Nat) : Int) := by
  obtain ⟨ctx, hctx, hv, hret, hth⟩ :=
    x86_cpu_fetch_inst_some_thread env st core thread tc st1 ret h
  obtain ⟨ctx2, hctx2, -, -, hst⟩ := x86_cpu_fetch_inst_some env st core thread tc st1 ret h
  have hlen : (X86_THREAD st1 core thread).fetch_queue.length -
      (X86_THREAD st core thread).fetch_queue.length =
      (fetch_inst_news env st core thread tc ctx2).length := by
    rw [hctx] at hctx2
    cases hctx2
    rw [hth]
    simp
  rw [hlen]
  have hso : same_outside st (fetch_inst_drained (fetch_inst_executed env st core thread ctx2)
      core thread tc (fetch_inst_news env st core thread tc ctx2)) core thread := by
    refine ⟨rfl, ?_, ?_, ?_⟩
    · intro c t hct
      unfold fetch_inst_drained fetch_inst_executed
      rw [X86_THREAD_set_thread_other _ _ _ _ _ _ hct]
      simp only [X86_THREAD, set_thread, set_core]
      by_cases hc : c = core
      · subst hc
        rcases hct with hct | hct
        · exact absurd rfl hct
        · simp [hct]
      · simp [hc]
    · intro c
      simp only [fetch_inst_drained, fetch_inst_executed, X86_CORE, set_thread, set_core]
      by_cases hc : c = core
      · subst hc; simp
      · simp [hc]
    · intro c hc
      simp only [fetch_inst_drained, fetch_inst_executed, X86_CORE, set_thread, set_core]
      simp [hc]
  have hcnt : (fetch_inst_drained (fetch_inst_executed env st core thread ctx2)
      core thread tc (fetch_inst_news env st core thread tc ctx2)).uop_id_counter =
      st.uop_id_counter + ((fetch_inst_news env st core thread tc ctx2).length : Int) := by
    simp [fetch_inst_drained, fetch_inst_executed, set_thread, set_core]
  have hccnt : (X86_CORE (fetch_inst_drained (fetch_inst_executed env st core thread ctx2)
      core thread tc (fetch_inst_news env st core thread tc ctx2)) core).uop_id_counter =
      (X86_CORE st core).uop_id_counter +
        ((fetch_inst_news env st core thread tc ctx2).length : Int) := by
    simp [fetch_inst_drained, fetch_inst_executed, set_thread, set_core, X86_CORE]
  have hmmu : (fetch_inst_drained (fetch_inst_executed env st core thread ctx2)
      core thread tc (fetch_inst_news env st core thread tc ctx2)).mmu_pages = st.mmu_pages := by
    simp [fetch_inst_drained, fetch_inst_executed, set_thread, set_core]
  subst hst
  cases ret with
  | none => exact ⟨hso, hmmu, hcnt, hccnt⟩
  | some r =>
    cases tc with
    | true => exact ⟨hso, hmmu, hcnt, hccnt⟩
    | false =>
      simp only [fetch_inst_charged, Bool.not_false, if_true]
      refine ⟨same_outside_trans _ _ _ _ _ hso (same_outside_set_thread _ _ _ _), ?_, ?_, ?_⟩
      · simpa [set_thread, set_core] using hmmu
      · simpa using hcnt
      · simpa using hccnt

/-- The uops that a call of the fetch primitive has appended to the fetch
queue: the `k`-th has `id` and `id_in_core` equal to the counters before the
call plus `k`, and the counters end `n` higher, `n` being their number. -/
theorem x86_cpu_fetch_inst_created (env : x86_params) (st : x86_cpu_t) (core thread : Nat)
    (tc : Bool) (st1 : x86_cpu_t) (ret : Option (Nat × x86_uop_t))
    (h : x86_cpu_fetch_inst env st core thread tc = some (st1, ret)) :
    ∃ news : List x86_uop_t,
      (X86_THREAD st1 core thread).fetch_queue.drop
        (X86_THREAD st core thread).fetch_queue.length = news ∧
      (∀ (k : Nat) (u : x86_uop_t), news[k]? = some u →
        u.id = st.uop_id_counter + (k : Int) ∧
        u.id_in_core = (X86_CORE st core).uop_id_counter + (k : Int) ∧ u.core = core) ∧
      st1.uop_id_counter = st.uop_id_counter + (news.length : Int) ∧
      (X86_CORE st1 core).uop_id_counter =
        (X86_CORE st core).uop_id_counter + (news.length : Int) ∧
      (∀ c, c ≠ core → (X86_CORE st1 c).uop_id_counter = (X86_CORE st c).uop_id_counter) := by
  obtain ⟨ctx, hctx, hv, hret, hth⟩ :=
    x86_cpu_fetch_inst_some_thread env st core thread tc st1 ret h
  obtain ⟨hso, -, hcnt, hccnt⟩ := x86_cpu_fetch_inst_frame env st core thread tc st1 ret h
  have hq : (X86_THREAD st1 core thread).fetch_queue =
      (X86_THREAD st core thread).fetch_queue ++ fetch_inst_news env st core thread tc ctx := by
    rw [hth]
  refine ⟨fetch_inst_news env st core thread tc ctx, ?_, ?_, ?_, ?_, hso.2.2.2⟩
  · rw [hq, List.drop_left]
  · intro k u hk
    have hf := fetch_inst_news_fields env st core thread tc ctx k u hk
    exact ⟨hf.2.2.2.2.1, hf.2.2.2.2.2.1, hf.2.2.2.2.2.2.2.1⟩
  · rw [hcnt, hq]; simp
  · rw [hccnt, hq]; simp

theorem filter_positions {α : Type} (p : α → Bool) (l : List α) (i j : Nat) (a b : α)
    (hij : i < j) (ha : l[i]? = some a) (hb : l[j]? = some b) (hpa : p a = true)
    (hpb : p b = true) :
    ∃ i1 j1 : Nat, i1 < j1 ∧ (l.filter p)[i1]? = some a ∧ (l.filter p)[j1]? = some b := by
  induction l generalizing i j with
  | nil => simp at ha
  | cons x xs ih =>
    cases j with
    | zero => omega
    | succ j =>
      simp only [List.getElem?_cons_succ] at hb
      cases i with
      | zero =>
        simp only [List.getElem?_cons_zero, Option.some.injEq] at ha
        subst ha
        have hmem : b ∈ xs.filter p :=
          List.mem_filter.mpr ⟨List.mem_iff_getElem?.mpr ⟨j, hb⟩, hpb⟩
        obtain ⟨k, hk⟩ := List.mem_iff_getElem?.mp hmem
        exact ⟨0, k + 1, by omega, by simp [List.filter, hpa], by simp [List.filter, hpa, hk]⟩
      | succ i =>
        simp only [List.getElem?_cons_succ] at ha
        obtain ⟨i1, j1, h1, h2, h3⟩ := ih i j (by omega) ha hb
        by_cases hx : p x = true
        · exact ⟨i1 + 1, j1 + 1, by omega, by simp [List.filter, hx, h2],
            by simp [List.filter, hx, h3]⟩
        · exact ⟨i1, j1, h1, by simp [List.filter, hx, h2], by simp [List.filter, hx, h3]⟩

/-- Along a run of the fetch stage, the `k`-th uop created has `id` equal to
the initial process counter plus `k`, the `k`-th uop created on core `c` has
`id_in_core` equal to the initial counter of `c` plus `k`, and the counters end
as many units higher as uops were created. -/
theorem fetch_run_counters (env : x86_params) (st : x86_cpu_t) (log : List x86_uop_t)
    (st2 : x86_cpu_t) (h : fetch_run env st log st2) :
    (∀ (k : Nat) (u : x86_uop_t), log[k]? = some u → u.id = st.uop_id_counter + (k : Int)) ∧
    st2.uop_id_counter = st.uop_id_counter + (log.length : Int) ∧
    (∀ (c k : Nat) (u : x86_uop_t),
      (log.filter (fun v => decide (v.core = c)))[k]? = some u →
        u.id_in_core = (X86_CORE st c).uop_id_counter + (k : Int)) ∧
    (∀ c : Nat, (X86_CORE st2 c).uop_id_counter = (X86_CORE st c).uop_id_counter +
      ((log.filter (fun v => decide (v.core = c))).length : Int)) := by
  induction h with
  | done st => simp
  | other st st1 st2 log h hcore hrest ih =>
    obtain ⟨i1, i2, i3, i4⟩ := ih
    refine ⟨?_, ?_, ?_, ?_⟩
    · intro k u hk; rw [i1 k u hk, h]
    · rw [i2, h]
    · intro c k u hk; rw [i3 c k u hk, hcore]
    · intro c; rw [i4, hcore]
  | fetch st st1 st2 core thread tc ret log h hrest ih =>
    obtain ⟨i1, i2, i3, i4⟩ := ih
    obtain ⟨news, hnews, hf, hc1, hc2, hc3⟩ :=
      x86_cpu_fetch_inst_created env st core thread tc st1 ret h
    rw [hnews]
    have hfilter : ∀ c, news.filter (fun v => decide (v.core = c)) =
        if c = core then news else [] := by
      intro c
      by_cases hc : c = core
      · rw [if_pos hc]
        apply List.filter_eq_self.mpr
        intro a ha
        obtain ⟨k, hk⟩ := List.mem_iff_getElem?.mp ha
        simp [(hf k a hk).2.2, hc]
      · rw [if_neg hc]
        apply List.filter_eq_nil_iff.mpr
        intro a ha
        obtain ⟨k, hk⟩ := List.mem_iff_getElem?.mp ha
        simp [(hf k a hk).2.2, Ne.symm hc]
    refine ⟨?_, ?_, ?_, ?_⟩
    · intro k u hk
      by_cases hlt : k < news.length
      · rw [List.getElem?_append_left hlt] at hk
        exact (hf k u hk).1
      · rw [List.getElem?_append_right (by omega)] at hk
        rw [i1 _ u hk, hc1]
        omega
    · rw [i2, hc1, List.length_append]; push_cast; omega
    · intro c k u hk
      rw [List.filter_append, hfilter c] at hk
      by_cases hc : c = core
      · subst hc
        rw [if_pos rfl] at hk
        by_cases hlt : k < news.length
        · rw [List.getElem?_append_left hlt] at hk
          exact (hf k u hk).2.1
        · rw [List.getElem?_append_right (by omega)] at hk
          rw [i3 _ _ u hk, hc2]
          omega
      · rw [if_neg hc] at hk
        simp only [List.nil_append] at hk
        rw [i3 _ _ u hk, hc3 c hc]
    · intro c
      rw [i4, List.filter_append, hfilter c, List.length_append]
      by_cases hc : c = core
      · subst hc
        rw [if_pos rfl, hc2]; push_cast; omega
      · rw [if_neg hc, hc3 c hc]; simp

/-- Claim C5. Along any run of the fetch stage, the `k`-th uop created has `id`
equal to the initial process counter plus `k` and the `k`-th uop created on
core `c` has `id_in_core` equal to the initial counter of `c` plus `k`, that
is, each uop receives the value its counter has when it is created and the
counter then advances by one; the counters end as many units higher as uops
were created. Consequently a uop created before another has the smaller `id`,
and the smaller `id_in_core` if both belong to the same core, and no `id` is
issued twice. -/
theorem fetch_run_uop_ids (env : x86_params) (st : x86_cpu_t) (log : List x86_uop_t)
    (st2 : x86_cpu_t) (h : fetch_run env st log st2) :
    (∀ (k : Nat) (u : x86_uop_t), log[k]? = some u → u.id = st.uop_id_counter + (k : Int)) ∧
    st2.uop_id_counter = st.uop_id_counter + (log.length : Int) ∧
    (∀ (c k : Nat) (u : x86_uop_t),
      (log.filter (fun v => decide (v.core = c)))[k]? = some u →
        u.id_in_core = (X86_CORE st c).uop_id_counter + (k : Int)) ∧
    (∀ c : Nat, (X86_CORE st2 c).uop_id_counter = (X86_CORE st c).uop_id_counter +
      ((log.filter (fun v => decide (v.core = c))).length : Int)) ∧
    (∀ (i j : Nat) (u1 u2 : x86_uop_t), i < j → log[i]? = some u1 → log[j]? = some u2 →
      u1.id < u2.id ∧ (u1.core = u2.core → u1.id_in_core < u2.id_in_core)) ∧
    (log.map (fun u => u.id)).Nodup := by
  obtain ⟨h1, h2, h3, h4⟩ := fetch_run_counters env st log st2 h
  refine ⟨h1, h2, h3, h4, ?_, ?_⟩
  · intro i j u1 u2 hij hu1 hu2
    refine ⟨by rw [h1 i u1 hu1, h1 j u2 hu2]; omega, ?_⟩
    intro hcore
    obtain ⟨i1, j1, hlt, ha, hb⟩ := filter_positions (fun v => decide (v.core = u2.core)) log i j
      u1 u2 hij hu1 hu2 (by simp [hcore]) (by simp)
    rw [h3 _ _ u1 ha, h3 _ _ u2 hb]
    omega
  · rw [List.nodup_iff_getElem?_ne_getElem?]
    intro i j hij hj
    simp only [List.length_map] at hj
    simp only [List.getElem?_map]
    have hi : i < log.length := by omega
    rw [List.getElem?_eq_getElem hi, List.getElem?_eq_getElem hj]
    simp only [Option.map_some', ne_eq, Option.some.injEq]
    rw [h1 i _ (List.getElem?_eq_getElem hi), h1 j _ (List.getElem?_eq_getElem hj)]
    omega

/-- Claim C5 on a scenario: two calls of the primitive, each on a 5-byte
instruction that decodes to two uinsts, create four uops with the identifiers
0, 1, 2, 3, both process-wide and in their core. -/
theorem fetch_run_uop_ids_witness :
    fetch_run scenario_two_params (scenario_state 0 0) scenario_two_log scenario_two_second.1 ∧
    scenario_two_log.map (fun u => (u.id, u.id_in_core, u.mop_id, u.mop_index)) =
      [(0, 0, 0, 0), (1, 1, 0, 1), (2, 2, 2, 0), (3, 3, 2, 1)] ∧
    (∀ (i j : Nat) (u1 u2 : x86_uop_t), i < j → scenario_two_log[i]? = some u1 →
      scenario_two_log[j]? = some u2 →
      u1.id < u2.id ∧ (u1.core = u2.core → u1.id_in_core < u2.id_in_core)) ∧
    (scenario_two_log.map (fun u => u.id)).Nodup :=
  ⟨fetch_run.fetch (scenario_state 0 0) scenario_two_first.1 scenario_two_second.1 0 0 false
      scenario_two_first.2 _ rfl
      (fetch_run.fetch scenario_two_first.1 scenario_two_second.1 scenario_two_second.1 0 0 false
        scenario_two_second.2 [] rfl (fetch_run.done scenario_two_second.1)),
    by decide,
    (fetch_run_uop_ids scenario_two_params (scenario_state 0 0) scenario_two_log
      scenario_two_second.1
      (fetch_run.fetch (scenario_state 0 0) scenario_two_first.1 scenario_two_second.1 0 0 false
        scenario_two_first.2 _ rfl
        (fetch_run.fetch scenario_two_first.1 scenario_two_second.1 scenario_two_second.1 0 0
          false scenario_two_second.2 [] rfl (fetch_run.done scenario_two_second.1)))).2.2.2.2⟩

/-! ## The trail rule of the trace-cache path -/

/-- The uop returned by the fetch primitive sits at the returned position of
the fetch queue, among the uops the call appended, and its fields are those of
a uop created by the call. -/
theorem x86_cpu_fetch_inst_ret_in_queue (env : x86_params) (st : x86_cpu_t) (core thread : Nat)
    (tc : Bool) (st1 : x86_cpu_t) (idx : Nat) (uop : x86_uop_t)
    (h : x86_cpu_fetch_inst env st core thread tc = some (st1, some (idx, uop))) :
    (X86_THREAD st1 core thread).fetch_queue[idx]? = some uop ∧
    (X86_THREAD st core thread).fetch_queue.length ≤ idx ∧
    idx < (X86_THREAD st1 core thread).fetch_queue.length ∧
    uop.eip = (X86_THREAD st core thread).fetch_neip ∧
    uop.pred_neip = (X86_THREAD st1 core thread).fetch_neip ∧
    uop.fetch_trace_cache = tc ∧
    ∃ ctx1, (X86_THREAD st1 core thread).ctx = some ctx1 ∧ uop.mop_size = ctx1.inst_size := by
  obtain ⟨ctx, hctx, hv, hret, hth⟩ :=
    x86_cpu_fetch_inst_some_thread env st core thread tc st1 _ h
  obtain ⟨k, hk, hidx⟩ := select_ret_uop_some _ _ _ _ _ hret.symm
  have hf := fetch_inst_news_fields env st core thread tc ctx k uop hk
  have hq : (X86_THREAD st1 core thread).fetch_queue =
      (X86_THREAD st core thread).fetch_queue ++ fetch_inst_news env st core thread tc ctx := by
    rw [hth]
  have hlen := fetch_inst_news_length env st core thread tc ctx
  refine ⟨?_, by omega, ?_, hf.2.2.2.2.2.2.2.2.2.2.1, ?_, hf.2.2.2.2.2.2.2.2.2.1,
    ⟨(x86_ctx_execute_at env st core thread ctx).1, by rw [hth], hf.2.2.2.1⟩⟩
  · rw [hq, hidx, List.getElem?_append_right (by omega)]
    simpa using hk
  · rw [hq, List.length_append, hlen, hidx]
    have := hf.1
    omega
  · rw [hf.2.2.2.2.2.2.2.2.2.2.2.1, hth]

/-- Claim C7. When `x86_cpu_fetch_thread_trace_cache` hits with the line
`(mop_count, mop_array, neip)`, the thread's `fetch_neip` on return is `neip`
(whether or not the loop stopped early), and in every trip `i` of the loop
that is entered with the context running, the primitive is called on the state
with `fetch_neip = mop_array[i]` and returns; if the uop it returns has `CTRL`
set, then on return from the path that uop has `eip = mop_array[i]`, and its
`pred_neip` is `neip` when `i = mop_count - 1` and `mop_array[i+1]` when
`i < mop_count - 1`. -/
theorem x86_cpu_fetch_thread_trace_cache_trail (env : x86_params) (st : x86_cpu_t)
    (core thread : Nat) (st1 : x86_cpu_t)
    (h : x86_cpu_fetch_thread_trace_cache env st core thread = some (st1, true)) :
    (X86_THREAD st1 core thread).fetch_neip =
      (fetch_thread_trace_cache_lookup env st core thread).2.neip ∧
    ∃ st2, fetch_thread_trace_cache_loop env core thread
        (fetch_thread_trace_cache_lookup env st core thread).2
        (fetch_thread_trace_cache_lookup env st core thread).2.mop_count 0
        (fetch_thread_trace_cache_lookup env st core thread).1 = some st2 ∧
      ∀ (left i : Nat) (s : x86_cpu_t) (ctx : x86_ctx_t),
        fetch_thread_trace_cache_loop env core thread
          (fetch_thread_trace_cache_lookup env st core thread).2 (left + 1) i s = some st2 →
        (X86_THREAD s core thread).ctx = some ctx →
        x86_ctx_get_status ctx .x86_ctx_running = true →
        ∃ s1 ret,
          x86_cpu_fetch_inst env
            (set_thread s core thread
              { X86_THREAD s core thread with
                fetch_neip := (fetch_thread_trace_cache_lookup env st core thread).2.mop_array i })
            core thread true = some (s1, ret) ∧
          ∀ (idx : Nat) (uop : x86_uop_t), ret = some (idx, uop) →
            uop.flags &&& env.X86_UINST_CTRL ≠ 0 →
            ∃ u, (X86_THREAD st1 core thread).fetch_queue[idx]? = some u ∧
              u.eip = (fetch_thread_trace_cache_lookup env st core thread).2.mop_array i ∧
              (i = (fetch_thread_trace_cache_lookup env st core thread).2.mop_count - 1 →
                u.pred_neip = (fetch_thread_trace_cache_lookup env st core thread).2.neip) ∧
              (i < (fetch_thread_trace_cache_lookup env st core thread).2.mop_count - 1 →
                u.pred_neip =
                  (fetch_thread_trace_cache_lookup env st core thread).2.mop_array (i + 1)) := by
  rcases x86_cpu_fetch_thread_trace_cache_cases env st core thread st1 true h with
    ⟨h1, -⟩ | ⟨-, -, -, -, st2, hloop, h2⟩
  · cases h1
  subst h2
  refine ⟨by simp, st2, hloop, ?_⟩
  intro left i s ctx hl hctx hrun
  simp only [fetch_thread_trace_cache_loop] at hl
  cases hi : fetch_thread_trace_cache_iter env core thread
      (fetch_thread_trace_cache_lookup env st core thread).2 i s with
  | none => simp [hi] at hl
  | some r =>
    obtain ⟨s2, b⟩ := r
    rcases fetch_thread_trace_cache_iter_cases env core thread _ i s s2 b hi with
      ⟨-, -, c, hc, hnr⟩ | ⟨c, s1, ret, hc, -, hb, hf, hcase⟩
    · rw [hctx] at hc
      cases hc
      rw [hrun] at hnr
      cases hnr
    subst hb
    simp only [hi] at hl
    obtain ⟨news, -, hq, -, -⟩ :=
      fetch_thread_trace_cache_loop_thread env core thread _ _ _ _ _ hl
    refine ⟨s1, ret, hf, ?_⟩
    intro idx uop hret hcf
    subst hret
    obtain ⟨hget, -, hlt, heip, -, -, -⟩ :=
      x86_cpu_fetch_inst_ret_in_queue env _ core thread true s1 idx uop hf
    simp only [X86_THREAD_set_thread_same] at heip
    rcases hcase with ⟨-, hno⟩ | ⟨idx1, uop1, hret1, -, h2⟩
    · exact absurd (hno idx uop rfl) hcf
    · simp only [Option.some.injEq, Prod.mk.injEq] at hret1
      obtain ⟨e1, e2⟩ := hret1
      subst e1 e2
      have hq2 : ∃ u, (X86_THREAD s2 core thread).fetch_queue[idx]? = some u ∧
          u.eip = uop.eip ∧
          u.pred_neip =
            if i = (fetch_thread_trace_cache_lookup env st core thread).2.mop_count - 1 then
              (fetch_thread_trace_cache_lookup env st core thread).2.neip
            else (fetch_thread_trace_cache_lookup env st core thread).2.mop_array (i + 1) := by
        rw [h2]
        simp only [fetch_adjust, X86_THREAD_set_thread_same]
        rw [list_modify_getElem?, if_pos rfl, hget]
        exact ⟨_, rfl, rfl, rfl⟩
      have hlt2 : idx < (X86_THREAD s2 core thread).fetch_queue.length := by
        rw [h2]
        simp only [fetch_adjust, X86_THREAD_set_thread_same]
        rw [list_modify_length]
        exact hlt
      obtain ⟨u, hu, hue, hup⟩ := hq2
      refine ⟨u, ?_, ?_, ?_, ?_⟩
      · simp only [X86_THREAD_set_thread_same]
        rw [hq, List.getElem?_append_left hlt2]
        exact hu
      · rw [hue]; exact heip
      · intro hlast
        rw [hup, if_pos hlast]
      · intro hnot
        have : i ≠ (fetch_thread_trace_cache_lookup env st core thread).2.mop_count - 1 := by
          omega
        rw [hup, if_neg this]

/-- Claim C7 on scenario S4: the path hits with the line `[100, 200, 300]` and
next address 400; the three control uops end with `pred_neip` 200, 300 and 400,
and `fetch_neip` is 400. -/
theorem x86_cpu_fetch_thread_trace_cache_trail_witness :
    x86_cpu_fetch_thread_trace_cache scenario_S4_params (scenario_state 100 7) 0 0 =
      some (scenario_S4_after, true) ∧
    (X86_THREAD scenario_S4_after 0 0).fetch_queue.map (fun u => (u.eip, u.pred_neip)) =
      [(100, 200), (200, 300), (300, 400)] ∧
    (X86_THREAD scenario_S4_after 0 0).fetch_neip =
      (fetch_thread_trace_cache_lookup scenario_S4_params (scenario_state 100 7) 0 0).2.neip ∧
    (fetch_thread_trace_cache_lookup scenario_S4_params (scenario_state 100 7) 0 0).2.neip = 400 :=
  ⟨rfl, by decide,
    (x86_cpu_fetch_thread_trace_cache_trail scenario_S4_params (scenario_state 100 7) 0 0
      scenario_S4_after rfl).1,
    by decide⟩

/-! ## Predicted-taken branches and zero-length decodes in the block loop -/

/-- Claim C8. In a trip of the block loop of `x86_cpu_fetch_thread` (context
running, `fetchq_occ` below the limit, `fetch_neip` in the block) in which the
primitive reports a non-zero instruction size and returns a uop with `CTRL`
set, let `T` be the target the BTB returns for that uop. If `T ≠ 0` and the
direction predictor answers taken, the loop, and with it the call, returns at
once: the state is the one the primitive left, with the predictor state
updated, `fetch_neip = T`, and the uop's `pred_neip = T`, so the primitive is
not invoked again, even when `T` lies in the same block. If `T = 0`, the loop
goes on from the state the primitive left (with the predictor state updated by
the BTB lookup), in which `fetch_neip` and the uop's `pred_neip` are
`fetch_eip + size`. -/
theorem fetch_thread_loop_ctrl (env : x86_params) (core thread block fuel : Nat)
    (st st1 : x86_cpu_t) (ctx ctx1 : x86_ctx_t) (idx : Nat) (uop : x86_uop_t) (T : Nat)
    (hblock : x86_block (X86_THREAD st core thread).fetch_neip
      (X86_THREAD_inst_mod st core thread).block_size = block)
    (hctx : (X86_THREAD st core thread).ctx = some ctx)
    (hrun : x86_ctx_get_status ctx .x86_ctx_running = true)
    (hocc : (X86_THREAD st core thread).fetchq_occ < env.x86_fetch_queue_size)
    (hf : x86_cpu_fetch_inst env st core thread false = some (st1, some (idx, uop)))
    (hctx1 : (X86_THREAD st1 core thread).ctx = some ctx1)
    (hsize : ctx1.inst_size ≠ 0)
    (hctrl : uop.flags &&& env.X86_UINST_CTRL ≠ 0)
    (hT : (env.x86_bpred_btb_lookup (X86_THREAD st1 core thread).bpred uop).1 = T) :
    (T ≠ 0 →
      (env.x86_bpred_lookup
        (env.x86_bpred_btb_lookup (X86_THREAD st1 core thread).bpred uop).2 uop).1 = true →
      ∃ st2, fetch_thread_loop env core thread block (fuel + 1) st = some st2 ∧
        st2 = fetch_adjust st1 core thread
          (env.x86_bpred_lookup
            (env.x86_bpred_btb_lookup (X86_THREAD st1 core thread).bpred uop).2 uop).2.1
          T
          (fun u => { u with
            bpred_info := (env.x86_bpred_lookup
              (env.x86_bpred_btb_lookup (X86_THREAD st1 core thread).bpred uop).2 uop).2.2
            pred_neip := T })
          idx ∧
        (X86_THREAD st2 core thread).fetch_neip = T ∧
        ∃ u, (X86_THREAD st2 core thread).fetch_queue[idx]? = some u ∧ u.pred_neip = T) ∧
    (T = 0 →
      fetch_thread_loop env core thread block (fuel + 1) st =
        fetch_thread_loop env core thread block fuel
          (set_thread st1 core thread
            { X86_THREAD st1 core thread with
              bpred := (env.x86_bpred_btb_lookup (X86_THREAD st1 core thread).bpred uop).2 }) ∧
      (X86_THREAD st1 core thread).fetch_neip =
        ((X86_THREAD st1 core thread).fetch_eip + ctx1.inst_size) % 4294967296 ∧
      (X86_THREAD st1 core thread).fetch_eip = (X86_THREAD st core thread).fetch_neip ∧
      ∃ u, (X86_THREAD st1 core thread).fetch_queue[idx]? = some u ∧
        u.pred_neip = ((X86_THREAD st1 core thread).fetch_eip + ctx1.inst_size) % 4294967296) := by
  obtain ⟨hget, -, hlt, -, hpred, -, -⟩ :=
    x86_cpu_fetch_inst_ret_in_queue env st core thread false st1 idx uop hf
  have hnocc : ¬ (X86_THREAD st core thread).fetchq_occ ≥ env.x86_fetch_queue_size := by omega
  constructor
  · intro hT0 htaken
    have hT1 : (env.x86_bpred_btb_lookup (X86_THREAD st1 core thread).bpred uop).1 ≠ 0 := by
      rw [hT]; exact hT0
    have hiter : fetch_thread_iter env core thread block st =
        some (fetch_adjust st1 core thread
          (env.x86_bpred_lookup
            (env.x86_bpred_btb_lookup (X86_THREAD st1 core thread).bpred uop).2 uop).2.1
          T
          (fun u => { u with
            bpred_info := (env.x86_bpred_lookup
              (env.x86_bpred_btb_lookup (X86_THREAD st1 core thread).bpred uop).2 uop).2.2
            pred_neip := T })
          idx, false) := by
      unfold fetch_thread_iter
      simp only [hblock, ne_eq, not_true_eq_false, if_false, hctx, hrun, Bool.not_true,
        Bool.false_eq_true, hnocc, hf, hctx1, hsize, hctrl, not_false_eq_true, if_true, hT1,
        htaken]
      simp [fetch_adjust, hT, hctx1]
    refine ⟨_, by simp only [fetch_thread_loop, hiter], rfl, ?_, ?_⟩
    · simp [fetch_adjust]
    · simp only [fetch_adjust, X86_THREAD_set_thread_same]
      rw [list_modify_getElem?, if_pos rfl, hget]
      exact ⟨_, rfl, rfl⟩
  · intro hT0
    have hT1 : (env.x86_bpred_btb_lookup (X86_THREAD st1 core thread).bpred uop).1 = 0 := by
      rw [hT]; exact hT0
    have hiter : fetch_thread_iter env core thread block st =
        some (set_thread st1 core thread
          { X86_THREAD st1 core thread with
            bpred := (env.x86_bpred_btb_lookup (X86_THREAD st1 core thread).bpred uop).2 },
          true) := by
      unfold fetch_thread_iter
      simp only [hblock, ne_eq, not_true_eq_false, if_false, hctx, hrun, Bool.not_true,
        Bool.false_eq_true, hnocc, hf, hctx1, hsize, hctrl, not_false_eq_true, if_true, hT1]
    obtain ⟨c0, hc0, -, -, hth⟩ :=
      x86_cpu_fetch_inst_some_thread env st core thread false st1 _ hf
    have hc1 : ctx1 = (x86_ctx_execute_at env st core thread c0).1 := by
      rw [hth] at hctx1
      simp only [Option.some.injEq] at hctx1
      exact hctx1.symm
    have hneip : (X86_THREAD st1 core thread).fetch_neip =
        ((X86_THREAD st1 core thread).fetch_eip + ctx1.inst_size) % 4294967296 := by
      rw [hc1, hth]
    refine ⟨by simp only [fetch_thread_loop, hiter], hneip, by rw [hth], uop, hget, ?_⟩
    rw [hpred, hneip]

/-- Claim C8 on scenario S2: the control uop of the instruction at address 0 is
predicted taken to 32, an address of the same block; the loop returns after
this one call of the primitive with `fetch_neip = 32` and the uop's
`pred_neip = 32`. -/
theorem fetch_thread_loop_ctrl_witness :
    x86_cpu_fetch_inst scenario_S2_params (scenario_state 0 0) 0 0 false =
      some (scenario_S2_first.1, some (scenario_S2_uop.1, scenario_S2_uop.2)) ∧
    scenario_S2_uop.2.flags &&& scenario_S2_params.X86_UINST_CTRL ≠ 0 ∧
    x86_block 32 64 = 0 ∧
    (fetch_thread_loop scenario_S2_params 0 0 0 (5 + 1) (scenario_state 0 0)).map
      (fun st => ((X86_THREAD st 0 0).fetch_neip,
        (X86_THREAD st 0 0).fetch_queue.map (fun u => (u.eip, u.pred_neip)))) =
      some (32, [(0, 32)]) ∧
    ∃ st2, fetch_thread_loop scenario_S2_params 0 0 0 (5 + 1) (scenario_state 0 0) = some st2 ∧
      st2 = fetch_adjust scenario_S2_first.1 0 0
        (scenario_S2_params.x86_bpred_lookup
          (scenario_S2_params.x86_bpred_btb_lookup (X86_THREAD scenario_S2_first.1 0 0).bpred
            scenario_S2_uop.2).2 scenario_S2_uop.2).2.1
        32
        (fun u => { u with
          bpred_info := (scenario_S2_params.x86_bpred_lookup
            (scenario_S2_params.x86_bpred_btb_lookup (X86_THREAD scenario_S2_first.1 0 0).bpred
              scenario_S2_uop.2).2 scenario_S2_uop.2).2.2
          pred_neip := 32 })
        scenario_S2_uop.1 ∧
      (X86_THREAD st2 0 0).fetch_neip = 32 ∧
      ∃ u, (X86_THREAD st2 0 0).fetch_queue[scenario_S2_uop.1]? = some u ∧ u.pred_neip = 32 :=
  ⟨rfl, by decide, by decide, by decide,
    (fetch_thread_loop_ctrl scenario_S2_params 0 0 0 5 (scenario_state 0 0) scenario_S2_first.1
      (scenario_ctx 0)
      ((X86_THREAD scenario_S2_first.1 0 0).ctx.getD (scenario_ctx 0))
      scenario_S2_uop.1 scenario_S2_uop.2 32
      (by decide) rfl rfl (by decide) rfl rfl (by decide) (by decide) rfl).1 (by decide) rfl⟩

/-- A miss of the trace-cache path changes at most the predictor state and
the trace-cache state of the thread. -/
theorem x86_cpu_fetch_thread_trace_cache_miss (env : x86_params) (st : x86_cpu_t)
    (core thread : Nat) (sa : x86_cpu_t)
    (h : x86_cpu_fetch_thread_trace_cache env st core thread = some (sa, false)) :
    sa.x86_uinst_list = st.x86_uinst_list ∧
    ∃ b t, sa = set_thread st core thread
      { X86_THREAD st core thread with bpred := b, trace_cache := t } := by
  rcases x86_cpu_fetch_thread_trace_cache_cases env st core thread sa false h with
    ⟨-, h2⟩ | ⟨h1, -⟩
  · rcases h2 with h2 | h2
    · subst h2
      exact ⟨rfl, (X86_THREAD sa core thread).bpred, (X86_THREAD sa core thread).trace_cache,
        (set_thread_self sa core thread).symm⟩
    · subst h2
      exact ⟨rfl, _, _, rfl⟩
  · cases h1

/-- Opening the block returns when the thread is bound to a context, and
leaves the staging list alone. -/
theorem fetch_thread_open_some (env : x86_params) (st : x86_cpu_t) (core thread : Nat)
    (ctx : x86_ctx_t) (hctx : (X86_THREAD st core thread).ctx = some ctx) :
    ∃ sb, fetch_thread_open env st core thread =
        some (sb, x86_block (X86_THREAD st core thread).fetch_neip
          (X86_THREAD_inst_mod st core thread).block_size) ∧
      sb.x86_uinst_list = st.x86_uinst_list := by
  unfold fetch_thread_open
  by_cases hb : x86_block (X86_THREAD st core thread).fetch_neip
      (X86_THREAD_inst_mod st core thread).block_size = (X86_THREAD st core thread).fetch_block
  · exact ⟨st, by simp [hb], rfl⟩
  · simp only [ne_eq, hb, not_false_eq_true, if_true, hctx]
    refine ⟨_, rfl, ?_⟩
    cases env.mmu_report <;> simp

theorem x86_ctx_execute_at_congr (env : x86_params) (st sb : x86_cpu_t) (core thread : Nat)
    (ctx : x86_ctx_t)
    (h1 : (X86_THREAD sb core thread).fetch_neip = (X86_THREAD st core thread).fetch_neip)
    (h2 : sb.x86_uinst_list = st.x86_uinst_list) :
    x86_ctx_execute_at env sb core thread ctx = x86_ctx_execute_at env st core thread ctx := by
  unfold x86_ctx_execute_at
  rw [h1, h2]

/-- In a call of `x86_cpu_fetch_thread` that misses the trace cache on a thread
with a running context, `fetchq_occ` below the limit and staged opcodes that
pass the assertion, if the executor reports `inst.size = 0` on the first
primitive call, then the call returns (with any fuel of at least one trip) in
the state that this single primitive call left: the loop breaks after it,
`fetchq_occ` is unchanged and `fetch_neip` equals its value at entry. The
primitive appends one uop per uinst that the executor left in the staging
list, and returns null exactly when that list is empty. -/
theorem fetch_thread_zero_size_trip (env : x86_params) (fuel : Nat) (st : x86_cpu_t)
    (core thread : Nat) (sa : x86_cpu_t) (ctx : x86_ctx_t)
    (htc : x86_cpu_fetch_thread_trace_cache env st core thread = some (sa, false))
    (hctx : (X86_THREAD st core thread).ctx = some ctx)
    (hrun : x86_ctx_get_status ctx .x86_ctx_running = true)
    (hocc : (X86_THREAD st core thread).fetchq_occ < env.x86_fetch_queue_size)
    (hneip : (X86_THREAD st core thread).fetch_neip < 4294967296)
    (hv : ∀ u ∈ (x86_ctx_execute_at env st core thread ctx).2, valid_opcode env u)
    (hsize : (x86_ctx_execute_at env st core thread ctx).1.inst_size = 0) :
    ∃ sb block st1 ret, fetch_thread_open env sa core thread = some (sb, block) ∧
      x86_cpu_fetch_inst env sb core thread false = some (st1, ret) ∧
      x86_cpu_fetch_thread env (fuel + 1) st core thread = some st1 ∧
      (X86_THREAD st1 core thread).fetchq_occ = (X86_THREAD st core thread).fetchq_occ ∧
      (X86_THREAD st1 core thread).fetch_neip = (X86_THREAD st core thread).fetch_neip ∧
      ∃ news : List x86_uop_t,
        (X86_THREAD st1 core thread).fetch_queue =
          (X86_THREAD st core thread).fetch_queue ++ news ∧
        news.length = (x86_ctx_execute_at env st core thread ctx).2.length ∧
        (news = [] ↔ (x86_ctx_execute_at env st core thread ctx).2 = []) ∧
        (ret = none ↔ (x86_ctx_execute_at env st core thread ctx).2 = []) := by
  obtain ⟨hla, b, t, hsa⟩ := x86_cpu_fetch_thread_trace_cache_miss env st core thread sa htc
  have hctxa : (X86_THREAD sa core thread).ctx = some ctx := by rw [hsa]; simpa using hctx
  obtain ⟨sb, hopen, hlb⟩ := fetch_thread_open_some env sa core thread ctx hctxa
  obtain ⟨-, ob1, ob2, ob3, ob4, -, ob6, -⟩ := fetch_thread_open_thread env sa core thread sb _ hopen
  have hneq : (X86_THREAD sb core thread).fetch_neip = (X86_THREAD st core thread).fetch_neip := by
    rw [ob3, hsa]; simp
  have hoeq : (X86_THREAD sb core thread).fetchq_occ = (X86_THREAD st core thread).fetchq_occ := by
    rw [ob4, hsa]; simp
  have hqeq : (X86_THREAD sb core thread).fetch_queue = (X86_THREAD st core thread).fetch_queue := by
    rw [ob2, hsa]; simp
  have hctxb : (X86_THREAD sb core thread).ctx = some ctx := by rw [ob1]; exact hctxa
  have hex : x86_ctx_execute_at env sb core thread ctx = x86_ctx_execute_at env st core thread ctx :=
    x86_ctx_execute_at_congr env st sb core thread ctx hneq (by rw [hlb, hla])
  have hvb : ∀ u ∈ (x86_ctx_execute_at env sb core thread ctx).2, valid_opcode env u := by
    rw [hex]; exact hv
  obtain ⟨st1, ret, hf⟩ : ∃ st1 ret, x86_cpu_fetch_inst env sb core thread false = some (st1, ret) :=
    ⟨_, _, x86_cpu_fetch_inst_eq env sb core thread false ctx hctxb hvb⟩
  obtain ⟨c0, hc0, -, hret, hth⟩ := x86_cpu_fetch_inst_some_thread env sb core thread false _ _ hf
  rw [hctxb] at hc0
  cases hc0
  have hctx1 : (X86_THREAD st1 core thread).ctx =
      some (x86_ctx_execute_at env st core thread ctx).1 := by
    rw [hth, hex]
  have hblockb : x86_block (X86_THREAD sb core thread).fetch_neip
      (X86_THREAD_inst_mod sb core thread).block_size =
      x86_block (X86_THREAD sa core thread).fetch_neip
        (X86_THREAD_inst_mod sa core thread).block_size := by
    rw [ob3, ob6]
  have hnocc : ¬ (X86_THREAD sb core thread).fetchq_occ ≥ env.x86_fetch_queue_size := by
    rw [hoeq]; omega
  have hiter : fetch_thread_iter env core thread
      (x86_block (X86_THREAD sa core thread).fetch_neip
        (X86_THREAD_inst_mod sa core thread).block_size) sb = some (st1, false) := by
    unfold fetch_thread_iter
    simp only [hblockb, ne_eq, not_true_eq_false, if_false, hctxb, hrun, Bool.not_true,
      Bool.false_eq_true, hnocc, hf, hctx1, hsize, if_true]
  refine ⟨sb, _, st1, ret, hopen, hf, ?_, ?_, ?_, fetch_inst_news env sb core thread false ctx,
    ?_, ?_, ?_, ?_⟩
  · unfold x86_cpu_fetch_thread
    simp only [htc, hopen, fetch_thread_loop, hiter]
  · rw [hth]
    simp only []
    cases ret with
    | none => simp [fetch_inst_fetchq_occ, hoeq]
    | some r =>
      obtain ⟨idx, u⟩ := r
      obtain ⟨k, hk, -⟩ := select_ret_uop_some _ _ _ _ _ hret.symm
      have hfld := fetch_inst_news_fields env sb core thread false ctx k u hk
      simp [fetch_inst_fetchq_occ, hoeq, hfld.2.2.2.1, hex, hsize]
  · rw [hth]
    simp only [hex, hsize, Nat.add_zero, hneq]
    exact Nat.mod_eq_of_lt hneip
  · rw [hth, hqeq]
  · rw [fetch_inst_news_length, hex]
  · rw [← List.length_eq_zero, ← List.length_eq_zero, fetch_inst_news_length, hex]
  · rw [hret, select_ret_uop_none_iff, ← List.length_eq_zero, ← List.length_eq_zero,
      fetch_inst_news_length, hex]

/-- Claim C9. In a call of `x86_cpu_fetch_thread` that misses the trace cache
on a thread with a running context and `fetchq_occ` below the limit, if the
executor reports `inst.size = 0` on the first primitive call (an instruction
that it could not decode, for which it stages no uinst), then the call returns,
with any fuel of at least one trip, in the state that this single primitive
call left: the primitive returns null and appends nothing to the fetch queue,
the block loop breaks after it, `fetchq_occ` is unchanged and `fetch_neip`
equals its value at entry. -/
theorem x86_cpu_fetch_thread_zero_size (env : x86_params) (fuel : Nat) (st : x86_cpu_t)
    (core thread : Nat) (sa : x86_cpu_t) (ctx : x86_ctx_t)
    (htc : x86_cpu_fetch_thread_trace_cache env st core thread = some (sa, false))
    (hctx : (X86_THREAD st core thread).ctx = some ctx)
    (hrun : x86_ctx_get_status ctx .x86_ctx_running = true)
    (hocc : (X86_THREAD st core thread).fetchq_occ < env.x86_fetch_queue_size)
    (hneip : (X86_THREAD st core thread).fetch_neip < 4294967296)
    (hsize : (x86_ctx_execute_at env st core thread ctx).1.inst_size = 0)
    (hnone : (x86_ctx_execute_at env st core thread ctx).2 = []) :
    ∃ sb block st1, fetch_thread_open env sa core thread = some (sb, block) ∧
      x86_cpu_fetch_inst env sb core thread false = some (st1, none) ∧
      x86_cpu_fetch_thread env (fuel + 1) st core thread = some st1 ∧
      (X86_THREAD st1 core thread).fetch_queue = (X86_THREAD st core thread).fetch_queue ∧
      (X86_THREAD st1 core thread).fetchq_occ = (X86_THREAD st core thread).fetchq_occ ∧
      (X86_THREAD st1 core thread).fetch_neip = (X86_THREAD st core thread).fetch_neip := by
  obtain ⟨sb, block, st1, ret, hopen, hf, hret, hocc1, hneip1, news, hq, -, hnews, hnull⟩ :=
    fetch_thread_zero_size_trip env fuel st core thread sa ctx htc hctx hrun hocc hneip
      (by rw [hnone]; intro u hu; cases hu) hsize
  have hr : ret = none := hnull.mpr hnone
  subst hr
  refine ⟨sb, block, st1, hopen, hf, hret, ?_, hocc1, hneip1⟩
  rw [hq, hnews.mpr hnone, List.append_nil]

/-- Claim C9 on scenario S6: the first instruction has size 0 and no uinst; the
call returns after one primitive call with nothing appended, `fetchq_occ` and
`fetch_neip` unchanged. -/
theorem x86_cpu_fetch_thread_zero_size_witness :
    x86_cpu_fetch_thread_trace_cache (scenario_params 0 []) (scenario_state 8 3) 0 0 =
      some (scenario_state 8 3, false) ∧
    (x86_ctx_execute_at (scenario_params 0 []) (scenario_state 8 3) 0 0
      (scenario_ctx 8)).1.inst_size = 0 ∧
    (x86_cpu_fetch_thread (scenario_params 0 []) (0 + 1) (scenario_state 8 3) 0 0).map
      (fun st => ((X86_THREAD st 0 0).fetch_queue.length, (X86_THREAD st 0 0).fetchq_occ,
        (X86_THREAD st 0 0).fetch_neip)) = some (0, 3, 8) ∧
    ∃ sb block st1,
      fetch_thread_open (scenario_params 0 []) (scenario_state 8 3) 0 0 = some (sb, block) ∧
      x86_cpu_fetch_inst (scenario_params 0 []) sb 0 0 false = some (st1, none) ∧
      x86_cpu_fetch_thread (scenario_params 0 []) (0 + 1) (scenario_state 8 3) 0 0 = some st1 ∧
      (X86_THREAD st1 0 0).fetch_queue = (X86_THREAD (scenario_state 8 3) 0 0).fetch_queue ∧
      (X86_THREAD st1 0 0).fetchq_occ = (X86_THREAD (scenario_state 8 3) 0 0).fetchq_occ ∧
      (X86_THREAD st1 0 0).fetch_neip = (X86_THREAD (scenario_state 8 3) 0 0).fetch_neip :=
  ⟨rfl, rfl, by decide,
    x86_cpu_fetch_thread_zero_size (scenario_params 0 []) 0 (scenario_state 8 3) 0 0
      (scenario_state 8 3) (scenario_ctx 8) rfl rfl rfl (by decide) (by decide) rfl rfl⟩

/-! ## What the fetch paths leave alone -/

theorem fetch_thread_iter_frame (env : x86_params) (core thread block : Nat)
    (st st2 : x86_cpu_t) (b : Bool)
    (h : fetch_thread_iter env core thread block st = some (st2, b)) :
    same_outside st st2 core thread := by
  rcases fetch_thread_iter_cases env core thread block st st2 b h with
    ⟨h1, -⟩ | ⟨ctx, s1, ret, ctx1, -, -, -, -, hf, -, -, bp, neip, f, idx, h2, -⟩
  · subst h1; exact same_outside_refl _ _ _
  · subst h2
    exact same_outside_trans _ _ _ _ _ (x86_cpu_fetch_inst_frame env st core thread false s1 ret hf).1
      (same_outside_set_thread _ _ _ _)

theorem fetch_thread_trace_cache_iter_frame (env : x86_params) (core thread : Nat)
    (res : x86_trace_cache_result_t) (i : Nat) (st st2 : x86_cpu_t) (b : Bool)
    (h : fetch_thread_trace_cache_iter env core thread res i st = some (st2, b)) :
    same_outside st st2 core thread := by
  rcases fetch_thread_trace_cache_iter_cases env core thread res i st st2 b h with
    ⟨h1, -⟩ | ⟨ctx, s1, ret, -, -, -, hf, hcase⟩
  · subst h1; exact same_outside_refl _ _ _
  · have h1 := same_outside_trans _ _ _ _ _ (same_outside_set_thread st core thread _)
      (x86_cpu_fetch_inst_frame env _ core thread true s1 ret hf).1
    rcases hcase with ⟨h2, -⟩ | ⟨idx, uop, -, -, h2⟩
    · subst h2; exact h1
    · subst h2
      exact same_outside_trans _ _ _ _ _ h1 (same_outside_set_thread _ _ _ _)

theorem x86_cpu_fetch_thread_trace_cache_frame (env : x86_params) (st : x86_cpu_t)
    (core thread : Nat) (st1 : x86_cpu_t) (hit : Bool)
    (h : x86_cpu_fetch_thread_trace_cache env st core thread = some (st1, hit)) :
    same_outside st st1 core thread := by
  rcases x86_cpu_fetch_thread_trace_cache_cases env st core thread st1 hit h with
    ⟨-, h2⟩ | ⟨-, -, -, -, st2, hloop, h2⟩
  · rcases h2 with h2 | h2
    · subst h2; exact same_outside_refl _ _ _
    · subst h2; exact same_outside_set_thread _ _ _ _
  · subst h2
    have hl := fetch_thread_trace_cache_loop_invariant env core thread _
      (fun s => same_outside st s core thread)
      (fun i s s1 b hP hi => same_outside_trans _ _ _ _ _ hP
        (fetch_thread_trace_cache_iter_frame env core thread _ i s s1 b hi))
      _ _ _ _ (same_outside_set_thread st core thread _) hloop
    exact same_outside_trans _ _ _ _ _ hl (same_outside_set_thread _ _ _ _)

theorem fetch_thread_open_frame (env : x86_params) (st : x86_cpu_t) (core thread : Nat)
    (sb : x86_cpu_t) (block : Nat) (h : fetch_thread_open env st core thread = some (sb, block)) :
    same_outside st sb core thread := by
  unfold fetch_thread_open at h
  by_cases hb : x86_block (X86_THREAD st core thread).fetch_neip
      (X86_THREAD_inst_mod st core thread).block_size = (X86_THREAD st core thread).fetch_block
  · simp [hb] at h
    obtain ⟨h1, -⟩ := h
    subst h1
    exact same_outside_refl _ _ _
  · simp only [ne_eq, hb, not_false_eq_true, if_true] at h
    cases hctx : (X86_THREAD st core thread).ctx with
    | none => simp [hctx] at h
    | some ctx =>
      simp only [hctx, Option.some.injEq, Prod.mk.injEq] at h
      obtain ⟨h1, -⟩ := h
      subst h1
      cases env.mmu_report
      · simp only [Bool.false_eq_true, if_false]
        exact same_outside_trans _ _ _ _ _ (same_outside_set_thread _ _ _ _)
          ⟨rfl, fun _ _ _ => rfl, fun _ => ⟨rfl, rfl, rfl⟩, fun _ _ => rfl⟩
      · simp only [if_true]
        exact same_outside_trans _ _ _ _ _ (same_outside_set_thread _ _ _ _)
          ⟨rfl, fun _ _ _ => rfl, fun _ => ⟨rfl, rfl, rfl⟩, fun _ _ => rfl⟩

/-- The block fetch path on a thread changes nothing in the other threads of
the processor, nor the cycle, nor `fetch_current`, `fetch_switch_when` and the
event queue of any core, nor the uop counter of the other cores. -/
theorem x86_cpu_fetch_thread_frame (env : x86_params) (fuel : Nat) (st : x86_cpu_t)
    (core thread : Nat) (st1 : x86_cpu_t)
    (h : x86_cpu_fetch_thread env fuel st core thread = some st1) :
    same_outside st st1 core thread := by
  obtain ⟨sa, hit, htc, hcase⟩ := x86_cpu_fetch_thread_cases env fuel st core thread st1 h
  have h1 := x86_cpu_fetch_thread_trace_cache_frame env st core thread sa hit htc
  rcases hcase with ⟨-, h2⟩ | ⟨-, sb, block, hopen, hloop⟩
  · subst h2; exact h1
  · have h2 := same_outside_trans _ _ _ _ _ h1 (fetch_thread_open_frame env sa core thread sb block hopen)
    exact fetch_thread_loop_invariant env core thread block
      (fun s => same_outside st s core thread)
      (fun s s1 b hP hi => same_outside_trans _ _ _ _ _ hP
        (fetch_thread_iter_frame env core thread block s s1 b hi))
      fuel sb st1 h2 hloop

/-! ## The timeslice policy -/

theorem X86_THREAD_set_fetch_current (st : x86_cpu_t) (core v c t : Nat) :
    X86_THREAD (set_fetch_current st core v) c t = X86_THREAD st c t := by
  simp only [X86_THREAD, set_fetch_current, set_core]
  by_cases hc : c = core
  · subst hc; simp
  · simp [hc]

theorem X86_THREAD_inst_mod_set_fetch_current (st : x86_cpu_t) (core v c t : Nat) :
    X86_THREAD_inst_mod (set_fetch_current st core v) c t = X86_THREAD_inst_mod st c t := by
  unfold X86_THREAD_inst_mod
  rw [X86_THREAD_set_fetch_current]
  rfl

theorem x86_cpu_can_fetch_set_fetch_current (env : x86_params) (st : x86_cpu_t)
    (core v c t : Nat) :
    x86_cpu_can_fetch env (set_fetch_current st core v) c t = x86_cpu_can_fetch env st c t := by
  unfold x86_cpu_can_fetch
  rw [X86_THREAD_set_fetch_current, X86_THREAD_inst_mod_set_fetch_current]
  rfl

theorem X86_CORE_set_fetch_current (st : x86_cpu_t) (core v : Nat) :
    (X86_CORE (set_fetch_current st core v) core).fetch_current = v := by
  simp [X86_CORE, set_fetch_current, set_core]

theorem set_fetch_current_twice (st : x86_cpu_t) (core a b : Nat) :
    set_fetch_current (set_fetch_current st core a) core b = set_fetch_current st core b := by
  apply x86_cpu_t_ext <;> simp [set_fetch_current, set_core]
  funext c
  by_cases hc : c = core
  · simp [hc]
  · simp [hc]

/-- The timeslice loop with at least `k` trips left, when the `k`-th thread
after `fetch_current` in round-robin order is the first eligible one, fetches
from that thread after setting `fetch_current` to it. -/
theorem fetch_core_timeslice_first (env : x86_params) (fuel core : Nat) (k : Nat) :
    ∀ (left : Nat) (st : x86_cpu_t), 1 ≤ k → k ≤ left →
      x86_cpu_can_fetch env st core
        (((X86_CORE st core).fetch_current + k) % env.x86_cpu_num_threads) = true →
      (∀ j, 1 ≤ j → j < k → x86_cpu_can_fetch env st core
        (((X86_CORE st core).fetch_current + j) % env.x86_cpu_num_threads) = false) →
      fetch_core_timeslice env fuel core left st =
        x86_cpu_fetch_thread env fuel
          (set_fetch_current st core
            (((X86_CORE st core).fetch_current + k) % env.x86_cpu_num_threads))
          core (((X86_CORE st core).fetch_current + k) % env.x86_cpu_num_threads) := by
  induction k with
  | zero => intro left st h1; omega
  | succ k ih =>
    intro left st _ hle hcan hnot
    cases left with
    | zero => omega
    | succ left =>
      simp only [fetch_core_timeslice, X86_CORE_set_fetch_current,
        x86_cpu_can_fetch_set_fetch_current]
      by_cases hk : k = 0
      · subst hk
        simp only [Nat.zero_add] at hcan ⊢
        rw [if_pos hcan]
      · have hfirst := hnot 1 (by omega) (by omega)
        rw [if_neg (by rw [hfirst]; simp)]
        have hmod : ∀ j, ((X86_CORE st core).fetch_current + 1) % env.x86_cpu_num_threads + j
            ≡ (X86_CORE st core).fetch_current + (j + 1) [MOD env.x86_cpu_num_threads] := by
          intro j
          have : (X86_CORE st core).fetch_current + (j + 1) =
              ((X86_CORE st core).fetch_current + 1) + j := by omega
          rw [this]
          exact Nat.ModEq.add_right j (Nat.mod_modEq _ _)
        have hih := ih left
          (set_fetch_current st core
            (((X86_CORE st core).fetch_current + 1) % env.x86_cpu_num_threads))
          (by omega) (by omega)
          (by
            rw [x86_cpu_can_fetch_set_fetch_current, X86_CORE_set_fetch_current, (hmod k)]
            exact hcan)
          (by
            intro j hj1 hj2
            rw [x86_cpu_can_fetch_set_fetch_current, X86_CORE_set_fetch_current, (hmod j)]
            exact hnot (j + 1) (by omega) (by omega))
        rw [hih, set_fetch_current_twice, X86_CORE_set_fetch_current, (hmod k)]

theorem round_robin_reaches (c n t : Nat) (ht : t < n) :
    ∃ k, 1 ≤ k ∧ k ≤ n ∧ (c + k) % n = t := by
  have hr : c % n < n := Nat.mod_lt _ (by omega)
  by_cases hlt : c % n < t
  · refine ⟨t - c % n, by omega, by omega, ?_⟩
    have h2 : c % n + (t - c % n) = t := by omega
    rw [← Nat.mod_add_mod, h2, Nat.mod_eq_of_lt ht]
  · refine ⟨t + n - c % n, by omega, by omega, ?_⟩
    have h2 : c % n + (t + n - c % n) = t + n := by omega
    rw [← Nat.mod_add_mod, h2, Nat.add_mod_right, Nat.mod_eq_of_lt ht]

/-- Claim C10. Under the timeslice policy with `x86_cpu_num_threads = n ≥ 1`
and `fetch_current = c` at entry, if some thread of the core is eligible, then
there is a first eligible thread `(c + k) mod n` in the order `(c+1) mod n`,
..., `(c+n) mod n`, and `x86_cpu_fetch_core` is one call of
`x86_cpu_fetch_thread` on that thread, made after `fetch_current` has been set
to it; when the arbiter returns, `fetch_current` is that thread, and every
other thread of the core is as it was at entry. -/
theorem x86_cpu_fetch_core_timeslice (env : x86_params) (fuel : Nat) (st : x86_cpu_t)
    (core : Nat)
    (hkind : env.x86_cpu_fetch_kind = .x86_cpu_fetch_kind_timeslice)
    (_hn : 1 ≤ env.x86_cpu_num_threads)
    (helig : ∃ t, t < env.x86_cpu_num_threads ∧ x86_cpu_can_fetch env st core t = true) :
    ∃ k, 1 ≤ k ∧ k ≤ env.x86_cpu_num_threads ∧
      x86_cpu_can_fetch env st core
        (((X86_CORE st core).fetch_current + k) % env.x86_cpu_num_threads) = true ∧
      (∀ j, 1 ≤ j → j < k → x86_cpu_can_fetch env st core
        (((X86_CORE st core).fetch_current + j) % env.x86_cpu_num_threads) = false) ∧
      x86_cpu_fetch_core env fuel st core =
        x86_cpu_fetch_thread env fuel
          (set_fetch_current st core
            (((X86_CORE st core).fetch_current + k) % env.x86_cpu_num_threads))
          core (((X86_CORE st core).fetch_current + k) % env.x86_cpu_num_threads) ∧
      ∀ st1, x86_cpu_fetch_core env fuel st core = some st1 →
        (X86_CORE st1 core).fetch_current =
          ((X86_CORE st core).fetch_current + k) % env.x86_cpu_num_threads ∧
        ∀ t, t ≠ ((X86_CORE st core).fetch_current + k) % env.x86_cpu_num_threads →
          X86_THREAD st1 core t = X86_THREAD st core t := by
  obtain ⟨t, ht, hcan⟩ := helig
  obtain ⟨k0, hk1, hk2, hk3⟩ :=
    round_robin_reaches (X86_CORE st core).fetch_current env.x86_cpu_num_threads t ht
  have hex : ∃ k, 1 ≤ k ∧ x86_cpu_can_fetch env st core
      (((X86_CORE st core).fetch_current + k) % env.x86_cpu_num_threads) = true :=
    ⟨k0, hk1, by rw [hk3]; exact hcan⟩
  have hspec := Nat.find_spec hex
  have hmin := fun j => Nat.find_min (m := j) hex
  have hle : Nat.find hex ≤ k0 := Nat.find_min' hex ⟨hk1, by rw [hk3]; exact hcan⟩
  have hnot : ∀ j, 1 ≤ j → j < Nat.find hex → x86_cpu_can_fetch env st core
      (((X86_CORE st core).fetch_current + j) % env.x86_cpu_num_threads) = false := by
    intro j hj1 hj2
    have := hmin j hj2
    simp only [not_and, Bool.not_eq_true] at this
    exact this hj1
  have heq := fetch_core_timeslice_first env fuel core (Nat.find hex) env.x86_cpu_num_threads st
    hspec.1 (by omega) hspec.2 hnot
  have hcore : x86_cpu_fetch_core env fuel st core =
      fetch_core_timeslice env fuel core env.x86_cpu_num_threads st := by
    unfold x86_cpu_fetch_core
    rw [hkind]
  refine ⟨Nat.find hex, hspec.1, by omega, hspec.2, hnot, by rw [hcore, heq], ?_⟩
  intro st1 h1
  rw [hcore, heq] at h1
  obtain ⟨-, hth, hco, -⟩ := x86_cpu_fetch_thread_frame env fuel _ core _ st1 h1
  refine ⟨by rw [(hco core).1, X86_CORE_set_fetch_current], ?_⟩
  intro t1 ht1
  rw [hth core t1 (Or.inr ht1), X86_THREAD_set_fetch_current]

/-- Claim C10 on a scenario: three threads, `fetch_current = 1`, threads 2 and
0 stalled; the scan wraps around and fetches from thread 1 only, and
`fetch_current` is 1 on return. -/
theorem x86_cpu_fetch_core_timeslice_witness :
    (x86_cpu_fetch_core scenario_timeslice_params 3 scenario_timeslice_state 0).map
      (fun st => ((X86_CORE st 0).fetch_current, (X86_THREAD st 0 0).fetch_queue.length,
        (X86_THREAD st 0 1).fetch_queue.length, (X86_THREAD st 0 2).fetch_queue.length)) =
      some (1, 0, 2, 0) ∧
    ∃ k, 1 ≤ k ∧ k ≤ scenario_timeslice_params.x86_cpu_num_threads ∧
      x86_cpu_can_fetch scenario_timeslice_params scenario_timeslice_state 0
        (((X86_CORE scenario_timeslice_state 0).fetch_current + k) %
          scenario_timeslice_params.x86_cpu_num_threads) = true ∧
      (∀ j, 1 ≤ j → j < k → x86_cpu_can_fetch scenario_timeslice_params scenario_timeslice_state 0
        (((X86_CORE scenario_timeslice_state 0).fetch_current + j) %
          scenario_timeslice_params.x86_cpu_num_threads) = false) ∧
      x86_cpu_fetch_core scenario_timeslice_params 3 scenario_timeslice_state 0 =
        x86_cpu_fetch_thread scenario_timeslice_params 3
          (set_fetch_current scenario_timeslice_state 0
            (((X86_CORE scenario_timeslice_state 0).fetch_current + k) %
              scenario_timeslice_params.x86_cpu_num_threads))
          0 (((X86_CORE scenario_timeslice_state 0).fetch_current + k) %
            scenario_timeslice_params.x86_cpu_num_threads) ∧
      ∀ st1, x86_cpu_fetch_core scenario_timeslice_params 3 scenario_timeslice_state 0 = some st1 →
        (X86_CORE st1 0).fetch_current =
          ((X86_CORE scenario_timeslice_state 0).fetch_current + k) %
            scenario_timeslice_params.x86_cpu_num_threads ∧
        ∀ t, t ≠ ((X86_CORE scenario_timeslice_state 0).fetch_current + k) %
            scenario_timeslice_params.x86_cpu_num_threads →
          X86_THREAD st1 0 t = X86_THREAD scenario_timeslice_state 0 t :=
  ⟨by decide,
    x86_cpu_fetch_core_timeslice scenario_timeslice_params 3 scenario_timeslice_state 0 rfl
      (by decide) ⟨1, by decide, by decide⟩⟩

/-! ## The fetch paths as runs

The paths of `cpu-fetch.c` create uops and write the uop counters only through
the fetch primitive, so each of them is a run in the sense of `fetch_run`. -/

theorem fetch_run_trans (env : x86_params) (st st1 st2 : x86_cpu_t) (l1 l2 : List x86_uop_t)
    (h1 : fetch_run env st l1 st1) (h2 : fetch_run env st1 l2 st2) :
    fetch_run env st (l1 ++ l2) st2 := by
  induction h1 with
  | done s => simpa using h2
  | other s s1 s2 log h hcore _ ih => exact fetch_run.other s s1 st2 _ h hcore (ih h2)
  | fetch s s1 s2 core thread tc ret log h _ ih =>
    rw [List.append_assoc]
    exact fetch_run.fetch s s1 st2 core thread tc ret _ h (ih h2)

theorem fetch_run_set_thread (env : x86_params) (st : x86_cpu_t) (core thread : Nat)
    (th : x86_thread_t) : fetch_run env st [] (set_thread st core thread th) :=
  fetch_run.other st _ _ [] (by simp) (fun c => by simp) (fetch_run.done _)

theorem fetch_run_of_fetch_inst (env : x86_params) (st : x86_cpu_t) (core thread : Nat)
    (tc : Bool) (st1 : x86_cpu_t) (ret : Option (Nat × x86_uop_t))
    (h : x86_cpu_fetch_inst env st core thread tc = some (st1, ret)) :
    ∃ log, fetch_run env st log st1 :=
  ⟨_, fetch_run.fetch st st1 st1 core thread tc ret [] h (fetch_run.done st1)⟩

theorem fetch_run_exists_trans (env : x86_params) (st st1 st2 : x86_cpu_t)
    (h1 : ∃ log, fetch_run env st log st1) (h2 : ∃ log, fetch_run env st1 log st2) :
    ∃ log, fetch_run env st log st2 := by
  obtain ⟨l1, r1⟩ := h1
  obtain ⟨l2, r2⟩ := h2
  exact ⟨l1 ++ l2, fetch_run_trans env st st1 st2 l1 l2 r1 r2⟩

theorem fetch_thread_iter_run (env : x86_params) (core thread block : Nat)
    (st st2 : x86_cpu_t) (b : Bool)
    (h : fetch_thread_iter env core thread block st = some (st2, b)) :
    ∃ log, fetch_run env st log st2 := by
  rcases fetch_thread_iter_cases env core thread block st st2 b h with
    ⟨h1, -⟩ | ⟨ctx, s1, ret, ctx1, -, -, -, -, hf, -, -, bp, neip, f, idx, h2, -⟩
  · subst h1; exact ⟨[], fetch_run.done _⟩
  · subst h2
    exact fetch_run_exists_trans env _ _ _ (fetch_run_of_fetch_inst env st core thread false s1 ret hf)
      ⟨[], fetch_run_set_thread env s1 core thread _⟩

theorem fetch_thread_trace_cache_iter_run (env : x86_params) (core thread : Nat)
    (res : x86_trace_cache_result_t) (i : Nat) (st st2 : x86_cpu_t) (b : Bool)
    (h : fetch_thread_trace_cache_iter env core thread res i st = some (st2, b)) :
    ∃ log, fetch_run env st log st2 := by
  rcases fetch_thread_trace_cache_iter_cases env core thread res i st st2 b h with
    ⟨h1, -⟩ | ⟨ctx, s1, ret, -, -, -, hf, hcase⟩
  · subst h1; exact ⟨[], fetch_run.done _⟩
  · have h1 := fetch_run_exists_trans env _ _ _ ⟨[], fetch_run_set_thread env st core thread _⟩
      (fetch_run_of_fetch_inst env _ core thread true s1 ret hf)
    rcases hcase with ⟨h2, -⟩ | ⟨idx, uop, -, -, h2⟩
    · subst h2; exact h1
    · subst h2
      exact fetch_run_exists_trans env _ _ _ h1 ⟨[], fetch_run_set_thread env s1 core thread _⟩

/-- A call of the block fetch path that returns is a run. -/
theorem x86_cpu_fetch_thread_run (env : x86_params) (fuel : Nat) (st : x86_cpu_t)
    (core thread : Nat) (st1 : x86_cpu_t)
    (h : x86_cpu_fetch_thread env fuel st core thread = some st1) :
    ∃ log, fetch_run env st log st1 := by
  obtain ⟨sa, hit, htc, hcase⟩ := x86_cpu_fetch_thread_cases env fuel st core thread st1 h
  have h1 : ∃ log, fetch_run env st log sa := by
    rcases x86_cpu_fetch_thread_trace_cache_cases env st core thread sa hit htc with
      ⟨-, h2⟩ | ⟨-, -, -, -, st2, hloop, h2⟩
    · rcases h2 with h2 | h2
      · subst h2; exact ⟨[], fetch_run.done _⟩
      · subst h2; exact ⟨[], fetch_run_set_thread env st core thread _⟩
    · subst h2
      have hl := fetch_thread_trace_cache_loop_invariant env core thread _
        (fun s => ∃ log, fetch_run env st log s)
        (fun i s s1 b hP hi => fetch_run_exists_trans env _ _ _ hP
          (fetch_thread_trace_cache_iter_run env core thread _ i s s1 b hi))
        _ _ _ _ ⟨[], fetch_run_set_thread env st core thread _⟩ hloop
      exact fetch_run_exists_trans env _ _ _ hl ⟨[], fetch_run_set_thread env st2 core thread _⟩
  rcases hcase with ⟨-, h2⟩ | ⟨-, sb, block, hopen, hloop⟩
  · subst h2; exact h1
  · have h2 : ∃ log, fetch_run env sa log sb := by
      obtain ⟨-, -, -, hcnt⟩ := fetch_thread_open_frame env sa core thread sb block hopen
      refine ⟨[], fetch_run.other sa sb sb [] ?_ ?_ (fetch_run.done sb)⟩
      · unfold fetch_thread_open at hopen
        by_cases hb : x86_block (X86_THREAD sa core thread).fetch_neip
            (X86_THREAD_inst_mod sa core thread).block_size =
            (X86_THREAD sa core thread).fetch_block
        · simp [hb] at hopen
          rw [← hopen.1]
        · simp only [ne_eq, hb, not_false_eq_true, if_true] at hopen
          cases hctx : (X86_THREAD sa core thread).ctx with
          | none => simp [hctx] at hopen
          | some ctx =>
            simp only [hctx, Option.some.injEq, Prod.mk.injEq] at hopen
            rw [← hopen.1]
            cases env.mmu_report <;> simp
      · intro c
        by_cases hc : c = core
        · subst hc
          unfold fetch_thread_open at hopen
          by_cases hb : x86_block (X86_THREAD sa c thread).fetch_neip
              (X86_THREAD_inst_mod sa c thread).block_size =
              (X86_THREAD sa c thread).fetch_block
          · simp [hb] at hopen
            rw [← hopen.1]
          · simp only [ne_eq, hb, not_false_eq_true, if_true] at hopen
            cases hctx : (X86_THREAD sa c thread).ctx with
            | none => simp [hctx] at hopen
            | some ctx =>
              simp only [hctx, Option.some.injEq, Prod.mk.injEq] at hopen
              rw [← hopen.1]
              cases env.mmu_report
              · simp
              · simp only [if_true]
                exact set_thread_core_counter sa c thread c _
        · exact hcnt c hc
    exact fetch_thread_loop_invariant env core thread block
      (fun s => ∃ log, fetch_run env st log s)
      (fun s s1 b hP hi => fetch_run_exists_trans env _ _ _ hP
        (fetch_thread_iter_run env core thread block s s1 b hi))
      fuel sb st1 (fetch_run_exists_trans env _ _ _ h1 h2) hloop

theorem fetch_run_set_fetch_current (env : x86_params) (st : x86_cpu_t) (core v : Nat) :
    ∃ log, fetch_run env st log (set_fetch_current st core v) := by
  refine ⟨[], fetch_run.other st (set_fetch_current st core v) (set_fetch_current st core v) []
    rfl (fun c => ?_) (fetch_run.done _)⟩
  simp only [X86_CORE, set_fetch_current, set_core]
  by_cases hc : c = core
  · subst hc; simp
  · simp [hc]

theorem fetch_core_shared_run (env : x86_params) (fuel core : Nat) (left thread : Nat)
    (st st1 : x86_cpu_t) (h : fetch_core_shared env fuel core left thread st = some st1) :
    ∃ log, fetch_run env st log st1 := by
  induction left generalizing thread st with
  | zero =>
    simp only [fetch_core_shared, Option.some.injEq] at h
    subst h; exact ⟨[], fetch_run.done _⟩
  | succ n ih =>
    simp only [fetch_core_shared] at h
    by_cases hc : x86_cpu_can_fetch env st core thread = true
    · simp only [hc, if_true] at h
      cases hf : x86_cpu_fetch_thread env fuel st core thread with
      | none => simp [hf] at h
      | some s1 =>
        simp only [hf] at h
        exact fetch_run_exists_trans env _ _ _
          (x86_cpu_fetch_thread_run env fuel st core thread s1 hf) (ih _ _ h)
    · simp only [hc, Bool.false_eq_true, if_false] at h
      exact ih _ _ h

theorem fetch_core_timeslice_run (env : x86_params) (fuel core : Nat) (left : Nat)
    (st st1 : x86_cpu_t) (h : fetch_core_timeslice env fuel core left st = some st1) :
    ∃ log, fetch_run env st log st1 := by
  induction left generalizing st with
  | zero =>
    simp only [fetch_core_timeslice, Option.some.injEq] at h
    subst h; exact ⟨[], fetch_run.done _⟩
  | succ n ih =>
    simp only [fetch_core_timeslice] at h
    split at h
    · exact fetch_run_exists_trans env _ _ _ (fetch_run_set_fetch_current env st core _)
        (x86_cpu_fetch_thread_run env fuel _ core _ st1 h)
    · exact fetch_run_exists_trans env _ _ _ (fetch_run_set_fetch_current env st core _) (ih _ h)

theorem fetch_core_switch_run (env : x86_params) (fuel : Nat) (st : x86_cpu_t)
    (core thread : Nat) (st1 : x86_cpu_t) (h : fetch_core_switch env fuel st core thread = some st1) :
    ∃ log, fetch_run env st log st1 := by
  unfold fetch_core_switch at h
  by_cases hm : fetch_core_must_switch env st core thread = true
  · simp only [hm, if_true] at h
    cases hfind : fetch_core_find_new env st core thread true fuel
        ((thread + 1) % env.x86_cpu_num_threads) with
    | none => simp [hfind] at h
    | some new =>
      simp only [hfind] at h
      by_cases hne : new = thread
      · simp only [hne, ne_eq, not_true_eq_false, if_false, Option.some.injEq] at h
        subst h; exact ⟨[], fetch_run.done _⟩
      · simp only [ne_eq, hne, not_false_eq_true, if_true, Option.some.injEq] at h
        subst h
        refine fetch_run_exists_trans env _ _ _ ?_ ⟨[], fetch_run_set_thread env _ core _ _⟩
        refine ⟨[], fetch_run.other st _ _ [] (by rfl) (fun c => ?_) (fetch_run.done _)⟩
        simp only [X86_CORE, set_core]
        by_cases hc : c = core
        · subst hc; simp
        · simp [hc]
  · simp only [hm, Bool.false_eq_true, if_false, Option.some.injEq] at h
    subst h; exact ⟨[], fetch_run.done _⟩

theorem fetch_core_switchonevent_run (env : x86_params) (fuel : Nat) (st : x86_cpu_t)
    (core : Nat) (st1 : x86_cpu_t) (h : fetch_core_switchonevent env fuel st core = some st1) :
    ∃ log, fetch_run env st log st1 := by
  unfold fetch_core_switchonevent at h
  by_cases hs : (X86_THREAD st core (X86_CORE st core).fetch_current).fetch_stall_until ≥ st.cycle
  · simp only [hs, if_true, Option.some.injEq] at h
    subst h; exact ⟨[], fetch_run.done _⟩
  · simp only [hs, if_false] at h
    cases hsw : fetch_core_switch env fuel st core (X86_CORE st core).fetch_current with
    | none => simp [hsw] at h
    | some s1 =>
      simp only [hsw] at h
      have hs1 := fetch_core_switch_run env fuel st core _ s1 hsw
      by_cases hc : x86_cpu_can_fetch env s1 core (X86_CORE s1 core).fetch_current = true
      · simp only [hc, if_true] at h
        exact fetch_run_exists_trans env _ _ _ hs1 (x86_cpu_fetch_thread_run env fuel _ core _ st1 h)
      · simp only [hc, Bool.false_eq_true, if_false, Option.some.injEq] at h
        subst h; exact hs1

/-- A call of the arbiter that returns is a run. -/
theorem x86_cpu_fetch_core_run (env : x86_params) (fuel : Nat) (st : x86_cpu_t) (core : Nat)
    (st1 : x86_cpu_t) (h : x86_cpu_fetch_core env fuel st core = some st1) :
    ∃ log, fetch_run env st log st1 := by
  unfold x86_cpu_fetch_core at h
  split at h
  · exact fetch_core_shared_run env fuel core _ _ st st1 h
  · exact fetch_core_timeslice_run env fuel core _ st st1 h
  · exact fetch_core_switchonevent_run env fuel st core st1 h
  · cases h

/-- A fetch cycle that returns is a run, so the uops it creates are numbered
as along any run. -/
theorem x86_cpu_fetch_run (env : x86_params) (fuel : Nat) (st st1 : x86_cpu_t)
    (h : x86_cpu_fetch env fuel st = some st1) : ∃ log, fetch_run env st log st1 := by
  unfold x86_cpu_fetch at h
  have hcores : ∀ (left core : Nat) (s s1 : x86_cpu_t),
      x86_cpu_fetch_cores env fuel left core s = some s1 → ∃ log, fetch_run env s log s1 := by
    intro left
    induction left with
    | zero =>
      intro core s s1 hs
      simp only [x86_cpu_fetch_cores, Option.some.injEq] at hs
      subst hs; exact ⟨[], fetch_run.done _⟩
    | succ n ih =>
      intro core s s1 hs
      simp only [x86_cpu_fetch_cores] at hs
      cases hc : x86_cpu_fetch_core env fuel s core with
      | none => simp [hc] at hs
      | some s2 =>
        simp only [hc] at hs
        exact fetch_run_exists_trans env _ _ _ (x86_cpu_fetch_core_run env fuel s core s2 hc)
          (ih _ _ _ hs)
  exact fetch_run_exists_trans env st { st with stage := "fetch" } st1
    ⟨[], fetch_run.other st { st with stage := "fetch" } { st with stage := "fetch" } [] rfl
      (fun _ => rfl) (fetch_run.done _)⟩ (hcores _ _ _ _ h)

/-! ## The timeslice policy when no thread is eligible -/

theorem set_fetch_current_self (st : x86_cpu_t) (core : Nat) :
    set_fetch_current st core (X86_CORE st core).fetch_current = st := by
  apply x86_cpu_t_ext <;> simp [set_fetch_current, set_core, X86_CORE]
  funext c
  by_cases hc : c = core
  · subst hc; simp
  · simp [hc]

/-- The timeslice loop when no thread is eligible: every trip advances
`fetch_current` and nothing else happens. -/
theorem fetch_core_timeslice_none (env : x86_params) (fuel core : Nat)
    (hn : 1 ≤ env.x86_cpu_num_threads) (left : Nat) :
    ∀ st : x86_cpu_t,
      (∀ t, t < env.x86_cpu_num_threads → x86_cpu_can_fetch env st core t = false) →
      fetch_core_timeslice env fuel core left st =
        some (set_fetch_current st core
          (if left = 0 then (X86_CORE st core).fetch_current
           else ((X86_CORE st core).fetch_current + left) % env.x86_cpu_num_threads)) := by
  induction left with
  | zero =>
    intro st _
    simp only [fetch_core_timeslice, if_true, set_fetch_current_self]
  | succ left ih =>
    intro st hnone
    have hlt : ((X86_CORE st core).fetch_current + 1) % env.x86_cpu_num_threads <
        env.x86_cpu_num_threads := Nat.mod_lt _ (by omega)
    simp only [fetch_core_timeslice, X86_CORE_set_fetch_current,
      x86_cpu_can_fetch_set_fetch_current, hnone _ hlt, Bool.false_eq_true, if_false]
    rw [ih _ (fun t ht => by rw [x86_cpu_can_fetch_set_fetch_current]; exact hnone t ht),
      set_fetch_current_twice, X86_CORE_set_fetch_current]
    by_cases hl : left = 0
    · subst hl; simp
    · simp only [hl, if_false, Nat.succ_ne_zero]
      have : ((X86_CORE st core).fetch_current + 1) % env.x86_cpu_num_threads + left
          ≡ (X86_CORE st core).fetch_current + (left + 1) [MOD env.x86_cpu_num_threads] := by
        have h2 : (X86_CORE st core).fetch_current + (left + 1) =
            ((X86_CORE st core).fetch_current + 1) + left := by omega
        rw [h2]
        exact Nat.ModEq.add_right left (Nat.mod_modEq _ _)
      rw [this]

/-- Claim C11 fails as stated: with two threads, none eligible, and
`fetch_current = 0` at entry, the arbiter returns with `fetch_current = 0`. -/
theorem x86_cpu_fetch_core_timeslice_no_rotation :
    scenario_idle_params.x86_cpu_fetch_kind = .x86_cpu_fetch_kind_timeslice ∧
    scenario_idle_params.x86_cpu_num_threads = 2 ∧
    x86_cpu_can_fetch scenario_idle_params scenario_idle_state 0 0 = false ∧
    x86_cpu_can_fetch scenario_idle_params scenario_idle_state 0 1 = false ∧
    (X86_CORE scenario_idle_state 0).fetch_current = 0 ∧
    (x86_cpu_fetch_core scenario_idle_params 1 scenario_idle_state 0).map
      (fun st => (X86_CORE st 0).fetch_current) = some 0 := by
  decide

/-- Claim C11, amended. Under the timeslice policy with
`x86_cpu_num_threads = n ≥ 2`, if no thread of the core is eligible, the
arbiter returns the entry state with `fetch_current` replaced by
`(fetch_current + n) mod n`, so it performs no fetch; when `fetch_current` is a
thread index (`fetch_current < n`) at entry, this is the entry state itself:
the pointer advances once in each of the `n` trips of the loop and is back
where it started. -/
theorem x86_cpu_fetch_core_timeslice_idle (env : x86_params) (fuel : Nat) (st : x86_cpu_t)
    (core : Nat)
    (hkind : env.x86_cpu_fetch_kind = .x86_cpu_fetch_kind_timeslice)
    (hn : 2 ≤ env.x86_cpu_num_threads)
    (hnone : ∀ t, t < env.x86_cpu_num_threads → x86_cpu_can_fetch env st core t = false) :
    x86_cpu_fetch_core env fuel st core =
      some (set_fetch_current st core
        (((X86_CORE st core).fetch_current + env.x86_cpu_num_threads) %
          env.x86_cpu_num_threads)) ∧
    ((X86_CORE st core).fetch_current < env.x86_cpu_num_threads →
      x86_cpu_fetch_core env fuel st core = some st) := by
  have hcore : x86_cpu_fetch_core env fuel st core =
      fetch_core_timeslice env fuel core env.x86_cpu_num_threads st := by
    unfold x86_cpu_fetch_core
    rw [hkind]
  have h := fetch_core_timeslice_none env fuel core (by omega) env.x86_cpu_num_threads st hnone
  rw [if_neg (by omega)] at h
  refine ⟨by rw [hcore, h], ?_⟩
  intro hlt
  rw [hcore, h, Nat.add_mod_right, Nat.mod_eq_of_lt hlt, set_fetch_current_self]

/-- Claim C11, amended, on the idle scenario. -/
theorem x86_cpu_fetch_core_timeslice_idle_witness :
    x86_cpu_fetch_core scenario_idle_params 1 scenario_idle_state 0 =
      some (set_fetch_current scenario_idle_state 0
        (((X86_CORE scenario_idle_state 0).fetch_current +
          scenario_idle_params.x86_cpu_num_threads) % scenario_idle_params.x86_cpu_num_threads)) ∧
    ((X86_CORE scenario_idle_state 0).fetch_current < scenario_idle_params.x86_cpu_num_threads →
      x86_cpu_fetch_core scenario_idle_params 1 scenario_idle_state 0 = some scenario_idle_state) :=
  x86_cpu_fetch_core_timeslice_idle scenario_idle_params 1 scenario_idle_state 0 rfl (by decide)
    (by decide)

/-! ## The switch-on-event policy -/

theorem round_robin_ne (c n j : Nat) (hc : c < n) (h1 : 1 ≤ j) (h2 : j < n) :
    (c + j) % n ≠ c := by
  by_cases hlt : c + j < n
  · rw [Nat.mod_eq_of_lt hlt]; omega
  · rw [Nat.mod_eq_sub_mod (by omega), Nat.mod_eq_of_lt (by omega)]; omega

theorem round_robin_step (c n i : Nat) : ((c + i) % n + 1) % n = (c + (i + 1)) % n := by
  have h2 : c + (i + 1) = (c + i) + 1 := by omega
  rw [h2]
  exact Nat.ModEq.add_right 1 (Nat.mod_modEq _ _)

/-- The search for a new thread with `must_switch` set returns the first
eligible thread in round-robin order after the current one, when the scan does
not come back to the current thread before. -/
theorem fetch_core_find_new_first (env : x86_params) (st : x86_cpu_t) (core thread k : Nat)
    (hcan : x86_cpu_can_fetch env st core ((thread + k) % env.x86_cpu_num_threads) = true)
    (hne : ∀ j, 1 ≤ j → j ≤ k → (thread + j) % env.x86_cpu_num_threads ≠ thread)
    (hnot : ∀ j, 1 ≤ j → j < k →
      x86_cpu_can_fetch env st core ((thread + j) % env.x86_cpu_num_threads) = false)
    (d : Nat) :
    ∀ (i fuel : Nat), 1 ≤ i → i + d = k → d < fuel →
      fetch_core_find_new env st core thread true fuel
        ((thread + i) % env.x86_cpu_num_threads) =
        some ((thread + k) % env.x86_cpu_num_threads) := by
  induction d with
  | zero =>
    intro i fuel hi hik hf
    have : i = k := by omega
    subst this
    cases fuel with
    | zero => omega
    | succ fuel =>
      simp only [fetch_core_find_new, hne i hi (Nat.le_refl _), if_false, hcan, Bool.not_true,
        Bool.false_eq_true, if_true]
  | succ d ih =>
    intro i fuel hi hik hf
    cases fuel with
    | zero => omega
    | succ fuel =>
      simp only [fetch_core_find_new, hne i hi (by omega), if_false, hnot i hi (by omega),
        Bool.not_false, if_true, round_robin_step]
      exact ih (i + 1) fuel (by omega) (by omega) (by omega)

theorem x86_cpu_can_fetch_stalled (env : x86_params) (st : x86_cpu_t) (core thread : Nat)
    (h : (X86_THREAD st core thread).fetch_stall_until ≥ st.cycle) :
    x86_cpu_can_fetch env st core thread = false := by
  unfold x86_cpu_can_fetch
  cases hctx : (X86_THREAD st core thread).ctx with
  | none => simp [hctx]
  | some ctx =>
    by_cases hr : x86_ctx_get_status ctx .x86_ctx_running = true
    · simp [hctx, hr, h]
    · simp [hctx, hr]

/-- The thread switch with `must_switch` set, when `k` is the position of the
first eligible thread after the current one. -/
theorem fetch_core_switch_first (env : x86_params) (fuel : Nat) (st : x86_cpu_t)
    (core thread k : Nat) (hk1 : 1 ≤ k) (hkf : k ≤ fuel)
    (hmust : fetch_core_must_switch env st core thread = true)
    (hcan : x86_cpu_can_fetch env st core ((thread + k) % env.x86_cpu_num_threads) = true)
    (hne : ∀ j, 1 ≤ j → j ≤ k → (thread + j) % env.x86_cpu_num_threads ≠ thread)
    (hnot : ∀ j, 1 ≤ j → j < k →
      x86_cpu_can_fetch env st core ((thread + j) % env.x86_cpu_num_threads) = false) :
    fetch_core_switch env fuel st core thread =
      some (fetch_core_switched env st core ((thread + k) % env.x86_cpu_num_threads)) := by
  have hfind := fetch_core_find_new_first env st core thread k hcan hne hnot (k - 1) 1 fuel
    (by omega) (by omega) (by omega)
  unfold fetch_core_switch
  simp only [hmust, if_true, hfind, ne_eq, hne k hk1 (Nat.le_refl _), not_false_eq_true]
  rfl

theorem fetch_core_switch_stay (env : x86_params) (fuel : Nat) (st : x86_cpu_t)
    (core thread : Nat) (hmust : fetch_core_must_switch env st core thread = false) :
    fetch_core_switch env fuel st core thread = some st := by
  unfold fetch_core_switch
  simp [hmust]

theorem fetch_core_switched_fields (env : x86_params) (st : x86_cpu_t) (core new : Nat) :
    (X86_CORE (fetch_core_switched env st core new) core).fetch_current = new ∧
    (X86_CORE (fetch_core_switched env st core new) core).fetch_switch_when = st.cycle ∧
    (X86_THREAD (fetch_core_switched env st core new) core new).fetch_stall_until =
      st.cycle + env.x86_cpu_thread_switch_penalty - 1 ∧
    (fetch_core_switched env st core new).cycle = st.cycle ∧
    (∀ t, t ≠ new → X86_THREAD (fetch_core_switched env st core new) core t =
      X86_THREAD st core t) ∧
    X86_THREAD (fetch_core_switched env st core new) core new =
      { X86_THREAD st core new with
        fetch_stall_until := st.cycle + env.x86_cpu_thread_switch_penalty - 1 } := by
  refine ⟨?_, ?_, ?_, rfl, ?_, ?_⟩
  · unfold fetch_core_switched
    rw [set_thread_fetch_current]
    simp [X86_CORE, set_core]
  · unfold fetch_core_switched
    rw [set_thread_fetch_switch_when]
    simp [X86_CORE, set_core]
  · simp [fetch_core_switched]
  · intro t ht
    unfold fetch_core_switched
    rw [X86_THREAD_set_thread_other _ _ _ _ _ _ (Or.inr ht)]
    simp [X86_THREAD, set_core]
  · unfold fetch_core_switched
    rw [X86_THREAD_set_thread_same]
    simp [X86_THREAD, set_core]

theorem x86_cpu_fetch_core_switchonevent_eq (env : x86_params) (fuel : Nat) (st : x86_cpu_t)
    (core : Nat) (hkind : env.x86_cpu_fetch_kind = .x86_cpu_fetch_kind_switchonevent) :
    x86_cpu_fetch_core env fuel st core = fetch_core_switchonevent env fuel st core := by
  unfold x86_cpu_fetch_core
  rw [hkind]

/-- The arbiter under the switch-on-event policy does nothing while the
current thread is stalled. -/
theorem fetch_core_switchonevent_stalled (env : x86_params) (fuel : Nat) (st : x86_cpu_t)
    (core : Nat)
    (h : (X86_THREAD st core (X86_CORE st core).fetch_current).fetch_stall_until ≥ st.cycle) :
    fetch_core_switchonevent env fuel st core = some st := by
  unfold fetch_core_switchonevent
  simp only [h, if_true]

/-- The first eligible thread after the current one, when some other thread is
eligible and `fetch_current` is a thread index. -/
theorem round_robin_first (env : x86_params) (st : x86_cpu_t) (core cur t : Nat)
    (hcur : cur < env.x86_cpu_num_threads) (ht : t < env.x86_cpu_num_threads) (htne : t ≠ cur)
    (htcan : x86_cpu_can_fetch env st core t = true) :
    ∃ k, 1 ≤ k ∧ k < env.x86_cpu_num_threads ∧
      x86_cpu_can_fetch env st core ((cur + k) % env.x86_cpu_num_threads) = true ∧
      (∀ j, 1 ≤ j → j < k →
        x86_cpu_can_fetch env st core ((cur + j) % env.x86_cpu_num_threads) = false) ∧
      (∀ j, 1 ≤ j → j ≤ k → (cur + j) % env.x86_cpu_num_threads ≠ cur) := by
  obtain ⟨k0, hk1, hk2, hk3⟩ := round_robin_reaches cur env.x86_cpu_num_threads t ht
  have hk0 : k0 < env.x86_cpu_num_threads := by
    by_contra hge
    have : k0 = env.x86_cpu_num_threads := by omega
    rw [this, Nat.add_mod_right, Nat.mod_eq_of_lt hcur] at hk3
    exact htne hk3.symm
  have hex : ∃ k, 1 ≤ k ∧ x86_cpu_can_fetch env st core
      ((cur + k) % env.x86_cpu_num_threads) = true :=
    ⟨k0, hk1, by rw [hk3]; exact htcan⟩
  have hspec := Nat.find_spec hex
  have hle : Nat.find hex ≤ k0 := Nat.find_min' hex ⟨hk1, by rw [hk3]; exact htcan⟩
  refine ⟨Nat.find hex, hspec.1, by omega, hspec.2, ?_, ?_⟩
  · intro j hj1 hj2
    have := Nat.find_min (m := j) hex hj2
    simp only [not_and, Bool.not_eq_true] at this
    exact this hj1
  · intro j hj1 hj2
    exact round_robin_ne cur _ j hcur hj1 (by omega)

/-- Claim C12, amended. Under the switch-on-event policy at cycle `c` with
switch penalty `p ≥ 1`, if the current thread (a thread index) has
`fetch_stall_until < c`, `must_switch` holds and some other thread is eligible,
then the arbiter returns the state in which `fetch_current` is the first
eligible thread `new` in round-robin order after the current one,
`fetch_switch_when = c` and `new.fetch_stall_until = c + p - 1`, every other
thread and the rest of `new` being as at entry, so no thread fetches in cycle
`c`. In any state of a cycle `c' ≤ c + p - 1` in which `new` is current with
that stall time, the arbiter returns the state unchanged. In a state of cycle
`c + p` in which `new` is current with that stall time and
`fetch_switch_when = c`, the arbiter is one call of the block fetch path on
`new`, provided `new` is eligible, has no long-latency event pending and the
quantum is not negative. -/
theorem x86_cpu_fetch_core_switch (env : x86_params) (fuel : Nat) (st : x86_cpu_t)
    (core t : Nat)
    (hkind : env.x86_cpu_fetch_kind = .x86_cpu_fetch_kind_switchonevent)
    (hp : 1 ≤ env.x86_cpu_thread_switch_penalty)
    (hcur : (X86_CORE st core).fetch_current < env.x86_cpu_num_threads)
    (hfuel : env.x86_cpu_num_threads ≤ fuel)
    (hstall : (X86_THREAD st core (X86_CORE st core).fetch_current).fetch_stall_until < st.cycle)
    (hmust : fetch_core_must_switch env st core (X86_CORE st core).fetch_current = true)
    (ht : t < env.x86_cpu_num_threads) (htne : t ≠ (X86_CORE st core).fetch_current)
    (htcan : x86_cpu_can_fetch env st core t = true) :
    ∃ k, 1 ≤ k ∧ k < env.x86_cpu_num_threads ∧
      x86_cpu_can_fetch env st core
        (((X86_CORE st core).fetch_current + k) % env.x86_cpu_num_threads) = true ∧
      (∀ j, 1 ≤ j → j < k → x86_cpu_can_fetch env st core
        (((X86_CORE st core).fetch_current + j) % env.x86_cpu_num_threads) = false) ∧
      x86_cpu_fetch_core env fuel st core =
        some (fetch_core_switched env st core
          (((X86_CORE st core).fetch_current + k) % env.x86_cpu_num_threads)) ∧
      (∀ st1, x86_cpu_fetch_core env fuel st core = some st1 →
        (X86_CORE st1 core).fetch_current =
          ((X86_CORE st core).fetch_current + k) % env.x86_cpu_num_threads ∧
        (X86_CORE st1 core).fetch_switch_when = st.cycle ∧
        (X86_THREAD st1 core
          (((X86_CORE st core).fetch_current + k) % env.x86_cpu_num_threads)).fetch_stall_until =
          st.cycle + env.x86_cpu_thread_switch_penalty - 1 ∧
        X86_THREAD st1 core (((X86_CORE st core).fetch_current + k) % env.x86_cpu_num_threads) =
          { X86_THREAD st core
              (((X86_CORE st core).fetch_current + k) % env.x86_cpu_num_threads) with
            fetch_stall_until := st.cycle + env.x86_cpu_thread_switch_penalty - 1 } ∧
        ∀ t1, t1 ≠ ((X86_CORE st core).fetch_current + k) % env.x86_cpu_num_threads →
          X86_THREAD st1 core t1 = X86_THREAD st core t1) ∧
      (∀ st2 : x86_cpu_t,
        (X86_CORE st2 core).fetch_current =
          ((X86_CORE st core).fetch_current + k) % env.x86_cpu_num_threads →
        (X86_THREAD st2 core (X86_CORE st2 core).fetch_current).fetch_stall_until =
          st.cycle + env.x86_cpu_thread_switch_penalty - 1 →
        st2.cycle ≤ st.cycle + env.x86_cpu_thread_switch_penalty - 1 →
        x86_cpu_fetch_core env fuel st2 core = some st2) ∧
      (∀ st3 : x86_cpu_t,
        (X86_CORE st3 core).fetch_current =
          ((X86_CORE st core).fetch_current + k) % env.x86_cpu_num_threads →
        (X86_THREAD st3 core (X86_CORE st3 core).fetch_current).fetch_stall_until =
          st.cycle + env.x86_cpu_thread_switch_penalty - 1 →
        (X86_CORE st3 core).fetch_switch_when = st.cycle →
        st3.cycle = st.cycle + env.x86_cpu_thread_switch_penalty →
        0 ≤ env.x86_cpu_thread_quantum →
        x86_cpu_can_fetch env st3 core (X86_CORE st3 core).fetch_current = true →
        env.x86_event_queue_long_latency (X86_CORE st3 core).event_queue
          (X86_CORE st3 core).fetch_current = false →
        x86_cpu_fetch_core env fuel st3 core =
          x86_cpu_fetch_thread env fuel st3 core (X86_CORE st3 core).fetch_current) := by
  obtain ⟨k, hk1, hk2, hcan, hnot, hne⟩ :=
    round_robin_first env st core (X86_CORE st core).fetch_current t hcur ht htne htcan
  have hsw := fetch_core_switch_first env fuel st core (X86_CORE st core).fetch_current k hk1
    (by omega) hmust hcan hne hnot
  obtain ⟨f1, f2, f3, f4, f5, f6⟩ := fetch_core_switched_fields env st core
    (((X86_CORE st core).fetch_current + k) % env.x86_cpu_num_threads)
  have harb : x86_cpu_fetch_core env fuel st core =
      some (fetch_core_switched env st core
        (((X86_CORE st core).fetch_current + k) % env.x86_cpu_num_threads)) := by
    rw [x86_cpu_fetch_core_switchonevent_eq env fuel st core hkind]
    unfold fetch_core_switchonevent
    simp only [ge_iff_le, not_le.mpr hstall, if_false, hsw]
    rw [f1, x86_cpu_can_fetch_stalled env _ core _ (by rw [f3, f4]; omega)]
    simp
  refine ⟨k, hk1, hk2, hcan, hnot, harb, ?_, ?_, ?_⟩
  · intro st1 h1
    rw [harb] at h1
    simp only [Option.some.injEq] at h1
    subst h1
    exact ⟨f1, f2, f3, f6, f5⟩
  · intro st2 h1 h2 h3
    rw [x86_cpu_fetch_core_switchonevent_eq env fuel st2 core hkind]
    exact fetch_core_switchonevent_stalled env fuel st2 core (by rw [h2]; exact h3)
  · intro st3 h1 h2 h3 h4 h5 h6 h7
    rw [x86_cpu_fetch_core_switchonevent_eq env fuel st3 core hkind]
    have hm : fetch_core_must_switch env st3 core (X86_CORE st3 core).fetch_current = false := by
      unfold fetch_core_must_switch
      rw [h6, h7, h3, h4]
      simp
      omega
    unfold fetch_core_switchonevent
    have hns : ¬ (X86_THREAD st3 core (X86_CORE st3 core).fetch_current).fetch_stall_until ≥
        st3.cycle := by
      rw [h2, h4]; omega
    simp only [hns, if_false, fetch_core_switch_stay env fuel st3 core _ hm, h6, if_true]

/-- Claim C12 fails as stated in its last part: in scenario S5 with a
long-latency event pending on thread 1, the arbiter switches from thread 0 to
thread 1 at cycle 106 (`fetch_switch_when = 106`, stall until 110); at cycle
111 thread 1 is eligible, but `must_switch` holds again because of the event,
and the arbiter switches back to thread 0 without fetching from thread 1. -/
theorem x86_cpu_fetch_core_switch_back :
    scenario_S5_longlat_params.x86_cpu_fetch_kind = .x86_cpu_fetch_kind_switchonevent ∧
    (1 : Int) ≤ scenario_S5_longlat_params.x86_cpu_thread_switch_penalty ∧
    (X86_CORE scenario_S5_state 0).fetch_current = 0 ∧
    (X86_THREAD scenario_S5_state 0 0).fetch_stall_until < scenario_S5_state.cycle ∧
    fetch_core_must_switch scenario_S5_longlat_params scenario_S5_state 0 0 = true ∧
    x86_cpu_can_fetch scenario_S5_longlat_params scenario_S5_state 0 1 = true ∧
    (x86_cpu_fetch_core scenario_S5_longlat_params 8 scenario_S5_state 0).map
      (fun st => ((X86_CORE st 0).fetch_current, (X86_CORE st 0).fetch_switch_when,
        (X86_THREAD st 0 1).fetch_stall_until, st.cycle)) = some (1, 106, 110, 106) ∧
    scenario_S5_longlat_later.cycle = 106 + 5 ∧
    (X86_CORE scenario_S5_longlat_later 0).fetch_current = 1 ∧
    x86_cpu_can_fetch scenario_S5_longlat_params scenario_S5_longlat_later 0 1 = true ∧
    (x86_cpu_fetch_core scenario_S5_longlat_params 8 scenario_S5_longlat_later 0).map
      (fun st => ((X86_CORE st 0).fetch_current, (X86_THREAD st 0 1).fetch_queue.length,
        (X86_THREAD st 0 0).fetch_queue.length)) = some (0, 0, 0) := by
  decide

/-- Claim C12, amended, on scenario S5 (quantum 100, penalty 5, cycle 106,
`fetch_switch_when = 0`): the arbiter switches to thread 1 with
`fetch_stall_until = 110` and `fetch_switch_when = 106` without fetching, and
at cycle 111 thread 1 fetches. -/
theorem x86_cpu_fetch_core_switch_witness :
    (x86_cpu_fetch_core scenario_S5_params 8 scenario_S5_state 0).map
      (fun st => ((X86_CORE st 0).fetch_current, (X86_CORE st 0).fetch_switch_when,
        (X86_THREAD st 0 1).fetch_stall_until, (X86_THREAD st 0 0).fetch_queue.length,
        (X86_THREAD st 0 1).fetch_queue.length)) = some (1, 106, 110, 0, 0) ∧
    (x86_cpu_fetch_core scenario_S5_params 8 scenario_S5_later 0).map
      (fun st => ((X86_CORE st 0).fetch_current, (X86_THREAD st 0 0).fetch_queue.length,
        (X86_THREAD st 0 1).fetch_queue.length)) = some (1, 0, 4) ∧
    ∃ k, x86_cpu_fetch_core scenario_S5_params 8 scenario_S5_state 0 =
      some (fetch_core_switched scenario_S5_params scenario_S5_state 0
        (((X86_CORE scenario_S5_state 0).fetch_current + k) %
          scenario_S5_params.x86_cpu_num_threads)) :=
  ⟨by decide, by decide,
    (x86_cpu_fetch_core_switch scenario_S5_params 8 scenario_S5_state 0 1 rfl (by decide)
      (by decide) (by decide) (by decide) (by decide) (by decide) (by decide) (by decide)).imp
      (fun _ h => h.2.2.2.2.1)⟩

/-! ## Expiry of the quantum under the switch-on-event policy -/

theorem fetch_core_must_switch_quantum (env : x86_params) (st : x86_cpu_t) (core thread : Nat)
    (h : st.cycle - (X86_CORE st core).fetch_switch_when >
      env.x86_cpu_thread_quantum + env.x86_cpu_thread_switch_penalty) :
    fetch_core_must_switch env st core thread = true := by
  unfold fetch_core_must_switch
  simp [h]

/-- Claim C13 fails as stated. With three threads, all eligible, thread 0
current since cycle 0 and the quantum expired at cycle 106, thread B = 2 is
eligible but the arbiter returns with `fetch_current = 1`, the first eligible
thread after thread 0. With two threads and thread 0 stalled until cycle 200,
thread B = 1 is eligible but the arbiter returns with `fetch_current = 0`. -/
theorem x86_cpu_fetch_core_fairness_other :
    (scenario_three_params.x86_cpu_fetch_kind = .x86_cpu_fetch_kind_switchonevent ∧
      (X86_CORE scenario_S5_state 0).fetch_current = 0 ∧
      scenario_S5_state.cycle - (X86_CORE scenario_S5_state 0).fetch_switch_when >
        scenario_three_params.x86_cpu_thread_quantum +
          scenario_three_params.x86_cpu_thread_switch_penalty ∧
      x86_cpu_can_fetch scenario_three_params scenario_S5_state 0 2 = true ∧
      (x86_cpu_fetch_core scenario_three_params 8 scenario_S5_state 0).map
        (fun st => (X86_CORE st 0).fetch_current) = some 1) ∧
    (scenario_S5_params.x86_cpu_fetch_kind = .x86_cpu_fetch_kind_switchonevent ∧
      (X86_CORE scenario_S5_stalled 0).fetch_current = 0 ∧
      scenario_S5_stalled.cycle - (X86_CORE scenario_S5_stalled 0).fetch_switch_when >
        scenario_S5_params.x86_cpu_thread_quantum +
          scenario_S5_params.x86_cpu_thread_switch_penalty ∧
      x86_cpu_can_fetch scenario_S5_params scenario_S5_stalled 0 1 = true ∧
      (x86_cpu_fetch_core scenario_S5_params 8 scenario_S5_stalled 0).map
        (fun st => (X86_CORE st 0).fetch_current) = some 0) := by
  decide

/-- Claim C13, amended. Under the switch-on-event policy, if the current
thread A is a thread index and is not stalled (`fetch_stall_until < cycle`),
`cycle - fetch_switch_when > quantum + switch_penalty`, and a different thread
B is eligible, then every return of the arbiter has `fetch_current` equal to
the first eligible thread after A in round-robin order, which is not A, and
`fetch_switch_when` equal to the cycle; the arbiter does return when the
switch penalty is at least 1; and the thread selected is B when no other thread
than A and B is eligible. -/
theorem x86_cpu_fetch_core_fairness (env : x86_params) (fuel : Nat) (st : x86_cpu_t)
    (core B : Nat)
    (hkind : env.x86_cpu_fetch_kind = .x86_cpu_fetch_kind_switchonevent)
    (hcur : (X86_CORE st core).fetch_current < env.x86_cpu_num_threads)
    (hfuel : env.x86_cpu_num_threads ≤ fuel)
    (hstall : (X86_THREAD st core (X86_CORE st core).fetch_current).fetch_stall_until < st.cycle)
    (hq : st.cycle - (X86_CORE st core).fetch_switch_when >
      env.x86_cpu_thread_quantum + env.x86_cpu_thread_switch_penalty)
    (hB : B < env.x86_cpu_num_threads) (hBne : B ≠ (X86_CORE st core).fetch_current)
    (hBcan : x86_cpu_can_fetch env st core B = true) :
    ∃ k, 1 ≤ k ∧ k < env.x86_cpu_num_threads ∧
      x86_cpu_can_fetch env st core
        (((X86_CORE st core).fetch_current + k) % env.x86_cpu_num_threads) = true ∧
      (∀ j, 1 ≤ j → j < k → x86_cpu_can_fetch env st core
        (((X86_CORE st core).fetch_current + j) % env.x86_cpu_num_threads) = false) ∧
      (∀ st1, x86_cpu_fetch_core env fuel st core = some st1 →
        (X86_CORE st1 core).fetch_current =
          ((X86_CORE st core).fetch_current + k) % env.x86_cpu_num_threads ∧
        (X86_CORE st1 core).fetch_current ≠ (X86_CORE st core).fetch_current ∧
        (X86_CORE st1 core).fetch_switch_when = st.cycle) ∧
      (1 ≤ env.x86_cpu_thread_switch_penalty →
        x86_cpu_fetch_core env fuel st core =
          some (fetch_core_switched env st core
            (((X86_CORE st core).fetch_current + k) % env.x86_cpu_num_threads))) ∧
      ((∀ t, t < env.x86_cpu_num_threads → t ≠ (X86_CORE st core).fetch_current → t ≠ B →
          x86_cpu_can_fetch env st core t = false) →
        ((X86_CORE st core).fetch_current + k) % env.x86_cpu_num_threads = B) := by
  obtain ⟨k, hk1, hk2, hcan, hnot, hne⟩ :=
    round_robin_first env st core (X86_CORE st core).fetch_current B hcur hB hBne hBcan
  have hmust := fetch_core_must_switch_quantum env st core (X86_CORE st core).fetch_current hq
  have hsw := fetch_core_switch_first env fuel st core (X86_CORE st core).fetch_current k hk1
    (by omega) hmust hcan hne hnot
  obtain ⟨f1, f2, f3, f4, -, -⟩ := fetch_core_switched_fields env st core
    (((X86_CORE st core).fetch_current + k) % env.x86_cpu_num_threads)
  have harb : x86_cpu_fetch_core env fuel st core =
      (if x86_cpu_can_fetch env
          (fetch_core_switched env st core
            (((X86_CORE st core).fetch_current + k) % env.x86_cpu_num_threads)) core
          (((X86_CORE st core).fetch_current + k) % env.x86_cpu_num_threads) then
        x86_cpu_fetch_thread env fuel
          (fetch_core_switched env st core
            (((X86_CORE st core).fetch_current + k) % env.x86_cpu_num_threads)) core
          (((X86_CORE st core).fetch_current + k) % env.x86_cpu_num_threads)
      else some (fetch_core_switched env st core
            (((X86_CORE st core).fetch_current + k) % env.x86_cpu_num_threads))) := by
    rw [x86_cpu_fetch_core_switchonevent_eq env fuel st core hkind]
    unfold fetch_core_switchonevent
    simp only [ge_iff_le, not_le.mpr hstall, if_false, hsw]
    rw [f1]
  refine ⟨k, hk1, hk2, hcan, hnot, ?_, ?_, ?_⟩
  · intro st1 h1
    rw [harb] at h1
    have hfc : (X86_CORE st1 core).fetch_current =
          ((X86_CORE st core).fetch_current + k) % env.x86_cpu_num_threads ∧
        (X86_CORE st1 core).fetch_switch_when = st.cycle := by
      split at h1
      · obtain ⟨-, -, h3, -⟩ := x86_cpu_fetch_thread_frame env fuel _ core _ st1 h1
        obtain ⟨g1, g2, -⟩ := h3 core
        exact ⟨by rw [g1, f1], by rw [g2, f2]⟩
      · simp only [Option.some.injEq] at h1
        subst h1
        exact ⟨f1, f2⟩
    exact ⟨hfc.1, by rw [hfc.1]; exact hne k hk1 (Nat.le_refl _), hfc.2⟩
  · intro hp
    rw [harb, x86_cpu_can_fetch_stalled env _ core _ (by rw [f3, f4]; omega)]
    simp
  · intro honly
    by_contra hneB
    have := honly _ (Nat.mod_lt _ (by omega)) (hne k hk1 (Nat.le_refl _)) hneB
    rw [hcan] at this
    exact Bool.noConfusion this

/-- Claim C13, amended, on scenario S5: thread 0 has been current since cycle
0, the quantum 100 plus the penalty 5 is exceeded at cycle 106, thread 1 is
eligible, and the arbiter returns with `fetch_current = 1`. -/
theorem x86_cpu_fetch_core_fairness_witness :
    (x86_cpu_fetch_core scenario_S5_params 8 scenario_S5_state 0).map
      (fun st => (X86_CORE st 0).fetch_current) = some 1 ∧
    ∃ k, ∀ st1, x86_cpu_fetch_core scenario_S5_params 8 scenario_S5_state 0 = some st1 →
      (X86_CORE st1 0).fetch_current =
        ((X86_CORE scenario_S5_state 0).fetch_current + k) %
          scenario_S5_params.x86_cpu_num_threads ∧
      (X86_CORE st1 0).fetch_current ≠ (X86_CORE scenario_S5_state 0).fetch_current ∧
      (X86_CORE st1 0).fetch_switch_when = scenario_S5_state.cycle :=
  ⟨by decide,
    (x86_cpu_fetch_core_fairness scenario_S5_params 8 scenario_S5_state 0 1 rfl (by decide)
      (by decide) (by decide) (by decide) (by decide) (by decide) (by decide)).imp
      (fun _ h => h.2.2.2.2.1)⟩

/-! ## The switch-on-event policy without a forced switch -/

/-- Under the switch-on-event policy, when the current thread is not stalled
and `must_switch` is false, the candidates are not scanned: the arbiter is one
call of the block fetch path on the current thread, which is eligible. -/
theorem fetch_core_switchonevent_stay (env : x86_params) (fuel : Nat) (st : x86_cpu_t)
    (core : Nat)
    (hstall : (X86_THREAD st core (X86_CORE st core).fetch_current).fetch_stall_until < st.cycle)
    (hmust : fetch_core_must_switch env st core (X86_CORE st core).fetch_current = false) :
    fetch_core_switchonevent env fuel st core =
      x86_cpu_fetch_thread env fuel st core (X86_CORE st core).fetch_current := by
  have hcan : x86_cpu_can_fetch env st core (X86_CORE st core).fetch_current = true := by
    unfold fetch_core_must_switch at hmust
    simp only [Bool.or_eq_false_iff, Bool.not_eq_false'] at hmust
    exact hmust.1.1
  unfold fetch_core_switchonevent
  simp only [ge_iff_le, not_le.mpr hstall, if_false, fetch_core_switch_stay env fuel st core _ hmust,
    hcan, if_true]

/-- Claim C14 fails as stated. In scenario S5 at cycle 50 the current thread 0
is not stalled and `must_switch` is false (thread 0 eligible, quantum not
expired, no long-latency event); the candidate thread 1 is eligible, its
`committed` counter does not exceed that of thread 0 plus 100000 and it has no
long-latency event pending, so a scan entered with `must_switch` false would
find thread 1 and the claim has the arbiter switch to it. The arbiter does not
scan: it returns with `fetch_current = 0` and `fetch_switch_when = 0`, thread 0
having fetched four instructions and thread 1 none. -/
theorem x86_cpu_fetch_core_no_preemption :
    scenario_S5_params.x86_cpu_fetch_kind = .x86_cpu_fetch_kind_switchonevent ∧
    (X86_CORE scenario_S5_early 0).fetch_current = 0 ∧
    (X86_THREAD scenario_S5_early 0 0).fetch_stall_until < scenario_S5_early.cycle ∧
    fetch_core_must_switch scenario_S5_params scenario_S5_early 0 0 = false ∧
    x86_cpu_can_fetch scenario_S5_params scenario_S5_early 0 1 = true ∧
    ¬ ((X86_THREAD scenario_S5_early 0 1).committed >
      (X86_THREAD scenario_S5_early 0 0).committed + 100000) ∧
    scenario_S5_params.x86_event_queue_long_latency
      (X86_CORE scenario_S5_early 0).event_queue 1 = false ∧
    fetch_core_find_new scenario_S5_params scenario_S5_early 0 0 false 8
      ((0 + 1) % scenario_S5_params.x86_cpu_num_threads) = some 1 ∧
    (x86_cpu_fetch_core scenario_S5_params 8 scenario_S5_early 0).map
      (fun st => ((X86_CORE st 0).fetch_current, (X86_CORE st 0).fetch_switch_when,
        (X86_THREAD st 0 0).fetch_queue.length, (X86_THREAD st 0 1).fetch_queue.length,
        (X86_THREAD st 0 1).fetch_stall_until)) = some (0, 0, 4, 0, 0) := by
  decide

/-- Claim C14, amended. Under the switch-on-event policy, when the current
thread is not stalled: if `must_switch` is false (current thread eligible,
quantum not expired, no long-latency event on it), the other threads are not
scanned and there is no switch, the call of the arbiter is one call of the
block fetch path on the current thread, and on return `fetch_current`,
`fetch_switch_when` and every other thread of the core are as at entry; if
`must_switch` is true, the scan in round-robin order from
`(current + 1) mod num_threads` skips the candidates that are not eligible and
switches to the first eligible one, whatever its `committed` counter and its
long-latency events. -/
theorem x86_cpu_fetch_core_stay (env : x86_params) (fuel : Nat) (st : x86_cpu_t) (core : Nat)
    (hkind : env.x86_cpu_fetch_kind = .x86_cpu_fetch_kind_switchonevent)
    (hstall : (X86_THREAD st core (X86_CORE st core).fetch_current).fetch_stall_until < st.cycle) :
    (fetch_core_must_switch env st core (X86_CORE st core).fetch_current = false →
      x86_cpu_can_fetch env st core (X86_CORE st core).fetch_current = true ∧
      fetch_core_switch env fuel st core (X86_CORE st core).fetch_current = some st ∧
      x86_cpu_fetch_core env fuel st core =
        x86_cpu_fetch_thread env fuel st core (X86_CORE st core).fetch_current ∧
      ∀ st1, x86_cpu_fetch_core env fuel st core = some st1 →
        (X86_CORE st1 core).fetch_current = (X86_CORE st core).fetch_current ∧
        (X86_CORE st1 core).fetch_switch_when = (X86_CORE st core).fetch_switch_when ∧
        ∀ t, t ≠ (X86_CORE st core).fetch_current →
          X86_THREAD st1 core t = X86_THREAD st core t) ∧
    (fetch_core_must_switch env st core (X86_CORE st core).fetch_current = true →
      ∀ k, 1 ≤ k → k ≤ fuel →
        x86_cpu_can_fetch env st core
          (((X86_CORE st core).fetch_current + k) % env.x86_cpu_num_threads) = true →
        (∀ j, 1 ≤ j → j ≤ k →
          ((X86_CORE st core).fetch_current + j) % env.x86_cpu_num_threads ≠
            (X86_CORE st core).fetch_current) →
        (∀ j, 1 ≤ j → j < k → x86_cpu_can_fetch env st core
          (((X86_CORE st core).fetch_current + j) % env.x86_cpu_num_threads) = false) →
        fetch_core_switch env fuel st core (X86_CORE st core).fetch_current =
          some (fetch_core_switched env st core
            (((X86_CORE st core).fetch_current + k) % env.x86_cpu_num_threads))) := by
  constructor
  · intro hmust
    have hcan : x86_cpu_can_fetch env st core (X86_CORE st core).fetch_current = true := by
      unfold fetch_core_must_switch at hmust
      simp only [Bool.or_eq_false_iff, Bool.not_eq_false'] at hmust
      exact hmust.1.1
    have harb : x86_cpu_fetch_core env fuel st core =
        x86_cpu_fetch_thread env fuel st core (X86_CORE st core).fetch_current := by
      rw [x86_cpu_fetch_core_switchonevent_eq env fuel st core hkind]
      exact fetch_core_switchonevent_stay env fuel st core hstall hmust
    refine ⟨hcan, fetch_core_switch_stay env fuel st core _ hmust, harb, ?_⟩
    intro st1 h1
    rw [harb] at h1
    obtain ⟨-, hth, hco, -⟩ := x86_cpu_fetch_thread_frame env fuel st core _ st1 h1
    exact ⟨(hco core).1, (hco core).2.1, fun t ht => hth core t (Or.inr ht)⟩
  · intro hmust k hk1 hkf hcan hne hnot
    exact fetch_core_switch_first env fuel st core (X86_CORE st core).fetch_current k hk1 hkf
      hmust hcan hne hnot

/-- Claim C14, amended, on scenario S5 at cycle 50: `must_switch` is false, and
the arbiter is the block fetch of thread 0, with no switch. -/
theorem x86_cpu_fetch_core_stay_witness :
    fetch_core_must_switch scenario_S5_params scenario_S5_early 0
      (X86_CORE scenario_S5_early 0).fetch_current = false ∧
    x86_cpu_can_fetch scenario_S5_params scenario_S5_early 0
      (X86_CORE scenario_S5_early 0).fetch_current = true ∧
    fetch_core_switch scenario_S5_params 8 scenario_S5_early 0
      (X86_CORE scenario_S5_early 0).fetch_current = some scenario_S5_early ∧
    x86_cpu_fetch_core scenario_S5_params 8 scenario_S5_early 0 =
      x86_cpu_fetch_thread scenario_S5_params 8 scenario_S5_early 0
        (X86_CORE scenario_S5_early 0).fetch_current ∧
    ∀ st1, x86_cpu_fetch_core scenario_S5_params 8 scenario_S5_early 0 = some st1 →
      (X86_CORE st1 0).fetch_current = (X86_CORE scenario_S5_early 0).fetch_current ∧
      (X86_CORE st1 0).fetch_switch_when = (X86_CORE scenario_S5_early 0).fetch_switch_when ∧
      ∀ t, t ≠ (X86_CORE scenario_S5_early 0).fetch_current →
        X86_THREAD st1 0 t = X86_THREAD scenario_S5_early 0 t :=
  ⟨by decide,
    (x86_cpu_fetch_core_stay scenario_S5_params 8 scenario_S5_early 0 rfl (by decide)).1
      (by decide)⟩

/-! ## The uop returned by the fetch primitive -/

/-- The selection of lines 173-174 over a group of uops: either the starting
value stands, no uop of the group having `CTRL`, or the result is a uop of the
group after which no uop has `CTRL`, and which has `CTRL` unless it is the
first uop and the starting value was null. -/
theorem select_ret_uop_spec (ctrl : Nat) (l : List x86_uop_t) :
    ∀ (pos : Nat) (ret : Option (Nat × x86_uop_t)),
      (select_ret_uop ctrl l pos ret = ret ∧ (ret.isSome = true ∨ l = []) ∧
        ∀ u ∈ l, u.flags &&& ctrl = 0) ∨
      ∃ k u, l[k]? = some u ∧ select_ret_uop ctrl l pos ret = some (pos + k, u) ∧
        (∀ j v, k < j → l[j]? = some v → v.flags &&& ctrl = 0) ∧
        (u.flags &&& ctrl ≠ 0 ∨ (k = 0 ∧ ret = none)) := by
  induction l with
  | nil =>
    intro pos ret
    left
    exact ⟨rfl, Or.inr rfl, fun u hu => by cases hu⟩
  | cons x xs ih =>
    intro pos ret
    simp only [select_ret_uop]
    by_cases hc : ret.isNone = true ∨ x.flags &&& ctrl ≠ 0
    · rw [if_pos hc]
      rcases ih (pos + 1) (some (pos, x)) with ⟨h1, -, h3⟩ | ⟨k, u, hk, h1, h2, h3⟩
      · right
        refine ⟨0, x, by simp, by rw [h1]; rfl, ?_, ?_⟩
        · intro j v hj hv
          cases j with
          | zero => omega
          | succ j =>
            simp only [List.getElem?_cons_succ] at hv
            exact h3 v (List.getElem?_mem hv)
        · rcases hc with hc | hc
          · right
            refine ⟨rfl, ?_⟩
            cases ret with
            | none => rfl
            | some r => cases hc
          · left; exact hc
      · right
        refine ⟨k + 1, u, by simpa using hk, by rw [h1]; simp [Nat.add_assoc, Nat.add_comm 1 k],
          ?_, ?_⟩
        · intro j v hj hv
          cases j with
          | zero => omega
          | succ j =>
            simp only [List.getElem?_cons_succ] at hv
            exact h2 j v (by omega) hv
        · rcases h3 with h3 | ⟨-, h3⟩
          · left; exact h3
          · cases h3
    · rw [if_neg hc]
      have hsome : ret.isSome = true := by
        cases ret with
        | none => exact absurd (Or.inl rfl) hc
        | some r => rfl
      have hx : x.flags &&& ctrl = 0 := by
        by_contra hne
        exact hc (Or.inr hne)
      rcases ih (pos + 1) ret with ⟨h1, -, h3⟩ | ⟨k, u, hk, h1, h2, h3⟩
      · left
        refine ⟨h1, Or.inl hsome, ?_⟩
        intro u hu
        rcases List.mem_cons.mp hu with hu | hu
        · rw [hu]; exact hx
        · exact h3 u hu
      · right
        refine ⟨k + 1, u, by simpa using hk, by rw [h1]; simp [Nat.add_assoc, Nat.add_comm 1 k],
          ?_, ?_⟩
        · intro j v hj hv
          cases j with
          | zero => omega
          | succ j =>
            simp only [List.getElem?_cons_succ] at hv
            exact h2 j v (by omega) hv
        · rcases h3 with h3 | ⟨-, h3⟩
          · left; exact h3
          · rw [h3] at hsome; cases hsome

/-- Claim C16. A call of `x86_cpu_fetch_inst` on a thread bound to a context
whose staged opcodes pass the assertion returns; the uops it created are the
group `news` appended to the fetch queue, one per staged uinst; the returned
uop is null exactly when the executor left no uinst in the staging list;
otherwise it is a uop of the group, at position `k`, such that no later uop of
the group has `CTRL`; if some uop of the group has `CTRL`, the returned uop has
`CTRL` (it is the last such uop); if none has, it is the first uop of the
group. -/
theorem x86_cpu_fetch_inst_ret_uop (env : x86_params) (st : x86_cpu_t) (core thread : Nat)
    (tc : Bool) (ctx : x86_ctx_t)
    (hctx : (X86_THREAD st core thread).ctx = some ctx)
    (hv : ∀ u ∈ (x86_ctx_execute_at env st core thread ctx).2, valid_opcode env u) :
    ∃ (st1 : x86_cpu_t) (ret : Option (Nat × x86_uop_t)) (news : List x86_uop_t),
      x86_cpu_fetch_inst env st core thread tc = some (st1, ret) ∧
      (X86_THREAD st1 core thread).fetch_queue = (X86_THREAD st core thread).fetch_queue ++ news ∧
      news.length = (x86_ctx_execute_at env st core thread ctx).2.length ∧
      (ret = none ↔ (x86_ctx_execute_at env st core thread ctx).2 = []) ∧
      ∀ idx uop, ret = some (idx, uop) →
        ∃ k, idx = (X86_THREAD st core thread).fetch_queue.length + k ∧
          news[k]? = some uop ∧
          (∀ j v, k < j → news[j]? = some v → v.flags &&& env.X86_UINST_CTRL = 0) ∧
          ((∃ v ∈ news, v.flags &&& env.X86_UINST_CTRL ≠ 0) →
            uop.flags &&& env.X86_UINST_CTRL ≠ 0) ∧
          ((∀ v ∈ news, v.flags &&& env.X86_UINST_CTRL = 0) → k = 0 ∧ news[0]? = some uop) := by
  have hf := x86_cpu_fetch_inst_eq env st core thread tc ctx hctx hv
  have hlen := fetch_inst_news_length env st core thread tc ctx
  obtain ⟨ctx1, hc1, -, -, hth1⟩ := x86_cpu_fetch_inst_some_thread env st core thread tc _ _ hf
  have hcc : ctx1 = ctx := by
    rw [hctx] at hc1
    exact (Option.some.inj hc1).symm
  subst hcc
  refine ⟨_, _, fetch_inst_news env st core thread tc ctx1, hf, by rw [hth1], hlen, ?_, ?_⟩
  · rw [select_ret_uop_none_iff, ← List.length_eq_zero, hlen, List.length_eq_zero]
  · intro idx uop hret
    rcases select_ret_uop_spec env.X86_UINST_CTRL (fetch_inst_news env st core thread tc ctx1)
      (X86_THREAD st core thread).fetch_queue.length none with ⟨h1, -, -⟩ | ⟨k, u, hk, h1, h2, h3⟩
    · rw [h1] at hret; cases hret
    · rw [h1] at hret
      simp only [Option.some.injEq, Prod.mk.injEq] at hret
      obtain ⟨hidx, hu⟩ := hret
      subst hu
      refine ⟨k, hidx.symm, hk, h2, ?_, ?_⟩
      · rintro ⟨v, hv1, hv2⟩
        rcases h3 with h3 | ⟨h3, -⟩
        · exact h3
        · subst h3
          obtain ⟨j, hj⟩ := List.mem_iff_getElem?.mp hv1
          cases j with
          | zero =>
            rw [hk] at hj
            rw [Option.some.inj hj]
            exact hv2
          | succ j => exact absurd (h2 (j + 1) v (by omega) hj) hv2
      · intro hall
        have hno := hall u (List.getElem?_mem hk)
        rcases h3 with h3 | ⟨h3, -⟩
        · exact absurd hno h3
        · subst h3
          exact ⟨rfl, hk⟩

/-- Claim C16 on an instruction that decodes to a plain, a control, a memory, a
control and a plain uinst: the uop returned is the fourth of the group, the
last one with `CTRL`. -/
theorem x86_cpu_fetch_inst_ret_uop_witness :
    (x86_cpu_fetch_inst (scenario_params 5 [⟨1, 0⟩, ⟨2, 0⟩, ⟨3, 64⟩, ⟨2, 0⟩, ⟨1, 0⟩])
      (scenario_state 0 0) 0 0 false).map
        (fun r => r.2.map (fun p => (p.1, p.2.mop_index, p.2.flags))) = some (some (3, 3, 16)) ∧
    ∃ (st1 : x86_cpu_t) (ret : Option (Nat × x86_uop_t)) (news : List x86_uop_t),
      x86_cpu_fetch_inst (scenario_params 5 [⟨1, 0⟩, ⟨2, 0⟩, ⟨3, 64⟩, ⟨2, 0⟩, ⟨1, 0⟩])
        (scenario_state 0 0) 0 0 false = some (st1, ret) ∧
      (X86_THREAD st1 0 0).fetch_queue = (X86_THREAD (scenario_state 0 0) 0 0).fetch_queue ++ news ∧
      news.length = (x86_ctx_execute_at
        (scenario_params 5 [⟨1, 0⟩, ⟨2, 0⟩, ⟨3, 64⟩, ⟨2, 0⟩, ⟨1, 0⟩])
        (scenario_state 0 0) 0 0 (scenario_ctx 0)).2.length ∧
      (ret = none ↔ (x86_ctx_execute_at
        (scenario_params 5 [⟨1, 0⟩, ⟨2, 0⟩, ⟨3, 64⟩, ⟨2, 0⟩, ⟨1, 0⟩])
        (scenario_state 0 0) 0 0 (scenario_ctx 0)).2 = []) ∧
      ∀ idx uop, ret = some (idx, uop) →
        ∃ k, idx = (X86_THREAD (scenario_state 0 0) 0 0).fetch_queue.length + k ∧
          news[k]? = some uop ∧
          (∀ j v, k < j → news[j]? = some v →
            v.flags &&& (scenario_params 5 [⟨1, 0⟩, ⟨2, 0⟩, ⟨3, 64⟩, ⟨2, 0⟩, ⟨1, 0⟩]).X86_UINST_CTRL
              = 0) ∧
          ((∃ v ∈ news, v.flags &&&
              (scenario_params 5 [⟨1, 0⟩, ⟨2, 0⟩, ⟨3, 64⟩, ⟨2, 0⟩, ⟨1, 0⟩]).X86_UINST_CTRL ≠ 0) →
            uop.flags &&&
              (scenario_params 5 [⟨1, 0⟩, ⟨2, 0⟩, ⟨3, 64⟩, ⟨2, 0⟩, ⟨1, 0⟩]).X86_UINST_CTRL ≠ 0) ∧
          ((∀ v ∈ news, v.flags &&&
              (scenario_params 5 [⟨1, 0⟩, ⟨2, 0⟩, ⟨3, 64⟩, ⟨2, 0⟩, ⟨1, 0⟩]).X86_UINST_CTRL = 0) →
            k = 0 ∧ news[0]? = some uop) :=
  ⟨by decide,
    x86_cpu_fetch_inst_ret_uop (scenario_params 5 [⟨1, 0⟩, ⟨2, 0⟩, ⟨3, 64⟩, ⟨2, 0⟩, ⟨1, 0⟩])
      (scenario_state 0 0) 0 0 false (scenario_ctx 0) rfl (by decide)⟩

/-! ## How the block loop ends -/

/-- A trip of the block loop in detail. It leaves at once, with the state
unchanged, when `fetch_neip` is outside the block, the context is not running
or `fetchq_occ` has reached the limit. Otherwise it calls the primitive once;
it then leaves with the state of the primitive when the instruction size is
zero; it leaves with `fetch_neip` set to the target when the returned uop has
`CTRL`, the BTB target is not zero and the predictor answers taken; and it goes
on in every other case, `fetch_neip` being as the primitive left it. -/
theorem fetch_thread_iter_detail (env : x86_params) (core thread block : Nat)
    (st st2 : x86_cpu_t) (b : Bool)
    (h : fetch_thread_iter env core thread block st = some (st2, b)) :
    (st2 = st ∧ b = false ∧
      (x86_block (X86_THREAD st core thread).fetch_neip
          (X86_THREAD_inst_mod st core thread).block_size ≠ block ∨
        (∃ ctx, (X86_THREAD st core thread).ctx = some ctx ∧
          x86_ctx_get_status ctx .x86_ctx_running = false) ∨
        (X86_THREAD st core thread).fetchq_occ ≥ env.x86_fetch_queue_size)) ∨
    ∃ ctx st1 ret ctx1, (X86_THREAD st core thread).ctx = some ctx ∧
      x86_ctx_get_status ctx .x86_ctx_running = true ∧
      (X86_THREAD st core thread).fetchq_occ < env.x86_fetch_queue_size ∧
      x86_block (X86_THREAD st core thread).fetch_neip
        (X86_THREAD_inst_mod st core thread).block_size = block ∧
      x86_cpu_fetch_inst env st core thread false = some (st1, ret) ∧
      (X86_THREAD st1 core thread).ctx = some ctx1 ∧
      ((ctx1.inst_size = 0 ∧ st2 = st1 ∧ b = false) ∨
        (ctx1.inst_size ≠ 0 ∧ b = true ∧
          ∃ bp f idx, st2 = fetch_adjust st1 core thread bp
              (X86_THREAD st1 core thread).fetch_neip f idx ∧
            (f = (fun u => u) ∨ ∃ info, f = (fun u => { u with bpred_info := info }))) ∨
        (ctx1.inst_size ≠ 0 ∧ b = false ∧
          ∃ idx uop, ret = some (idx, uop) ∧ uop.flags &&& env.X86_UINST_CTRL ≠ 0 ∧
            (env.x86_bpred_btb_lookup (X86_THREAD st1 core thread).bpred uop).1 ≠ 0 ∧
            (env.x86_bpred_lookup
              (env.x86_bpred_btb_lookup (X86_THREAD st1 core thread).bpred uop).2 uop).1 = true ∧
            st2 = fetch_adjust st1 core thread
              (env.x86_bpred_lookup
                (env.x86_bpred_btb_lookup (X86_THREAD st1 core thread).bpred uop).2 uop).2.1
              (env.x86_bpred_btb_lookup (X86_THREAD st1 core thread).bpred uop).1
              (fun u => { u with
                bpred_info := (env.x86_bpred_lookup
                  (env.x86_bpred_btb_lookup (X86_THREAD st1 core thread).bpred uop).2 uop).2.2
                pred_neip := (env.x86_bpred_btb_lookup (X86_THREAD st1 core thread).bpred uop).1 })
              idx)) := by
  unfold fetch_thread_iter at h
  by_cases hb : x86_block (X86_THREAD st core thread).fetch_neip
      (X86_THREAD_inst_mod st core thread).block_size = block
  swap
  · simp [hb] at h
    obtain ⟨h1, h2⟩ := h
    subst h1 h2
    left; exact ⟨rfl, rfl, Or.inl hb⟩
  simp only [hb, ne_eq, not_true_eq_false, if_false] at h
  cases hctx : (X86_THREAD st core thread).ctx with
  | none => simp [hctx] at h
  | some ctx =>
    simp only [hctx] at h
    by_cases hr : x86_ctx_get_status ctx .x86_ctx_running = true
    swap
    · simp [hr] at h
      obtain ⟨h1, h2⟩ := h
      subst h1 h2
      left; exact ⟨rfl, rfl, Or.inr (Or.inl ⟨ctx, rfl, by simpa using hr⟩)⟩
    by_cases ho : (X86_THREAD st core thread).fetchq_occ < env.x86_fetch_queue_size
    swap
    · simp [hr, ho] at h
      rw [if_pos (by omega)] at h
      simp at h
      obtain ⟨h1, h2⟩ := h
      subst h1 h2
      left; exact ⟨rfl, rfl, Or.inr (Or.inr (by omega))⟩
    simp only [hr, Bool.not_true, Bool.false_eq_true, if_false, ge_iff_le, not_le.mpr ho] at h
    cases hf : x86_cpu_fetch_inst env st core thread false with
    | none => simp [hf] at h
    | some r =>
      obtain ⟨st1, ret⟩ := r
      simp only [hf] at h
      cases hc1 : (X86_THREAD st1 core thread).ctx with
      | none => simp [hc1] at h
      | some ctx1 =>
        simp only [hc1] at h
        right
        refine ⟨ctx, st1, ret, ctx1, rfl, hr, ho, hb, rfl, hc1, ?_⟩
        by_cases hz : ctx1.inst_size = 0
        · simp [hz] at h
          obtain ⟨h1, h2⟩ := h
          subst h1 h2
          exact Or.inl ⟨hz, rfl, rfl⟩
        simp only [hz, if_false] at h
        right
        cases ret with
        | none =>
          simp at h
          obtain ⟨h1, h2⟩ := h
          subst h1 h2
          refine Or.inl ⟨hz, rfl, (X86_THREAD st1 core thread).bpred, (fun u => u), 0, ?_,
            Or.inl rfl⟩
          rw [fetch_adjust_id]
        | some r =>
          obtain ⟨idx, uop⟩ := r
          simp only at h
          by_cases hcf : uop.flags &&& env.X86_UINST_CTRL = 0
          · simp [hcf] at h
            obtain ⟨h1, h2⟩ := h
            subst h1 h2
            refine Or.inl ⟨hz, rfl, (X86_THREAD st1 core thread).bpred, (fun u => u), 0, ?_,
              Or.inl rfl⟩
            rw [fetch_adjust_id]
          simp only [ne_eq, hcf, not_false_eq_true, if_true] at h
          by_cases ht : (env.x86_bpred_btb_lookup (X86_THREAD st1 core thread).bpred uop).1 = 0
          · simp [ht] at h
            obtain ⟨h1, h2⟩ := h
            subst h1 h2
            refine Or.inl ⟨hz, rfl,
              (env.x86_bpred_btb_lookup (X86_THREAD st1 core thread).bpred uop).2,
              (fun u => u), 0, ?_, Or.inl rfl⟩
            simp [fetch_adjust, list_modify_id, hc1]
          simp only [ht, not_false_eq_true, if_true] at h
          by_cases hp : (env.x86_bpred_lookup
              (env.x86_bpred_btb_lookup (X86_THREAD st1 core thread).bpred uop).2 uop).1 = true
          · simp [hp] at h
            obtain ⟨h1, h2⟩ := h
            subst h1 h2
            refine Or.inr ⟨hz, rfl, idx, uop, rfl, hcf, ht, hp, ?_⟩
            simp [fetch_adjust, hc1]
          · simp [hp] at h
            obtain ⟨h1, h2⟩ := h
            subst h1 h2
            refine Or.inl ⟨hz, rfl,
              (env.x86_bpred_lookup
                (env.x86_bpred_btb_lookup (X86_THREAD st1 core thread).bpred uop).2 uop).2.1,
              (fun u => { u with
                bpred_info := (env.x86_bpred_lookup
                  (env.x86_bpred_btb_lookup (X86_THREAD st1 core thread).bpred uop).2 uop).2.2 }),
              idx, ?_, Or.inr ⟨_, rfl⟩⟩
            simp [fetch_adjust, hc1]

/-- A trip of the block loop leaves the memory module, `fetch_block`,
`fetch_address`, `fetch_access` and `btb_reads` of the thread alone. -/
theorem fetch_thread_iter_keeps (env : x86_params) (core thread block : Nat)
    (st st2 : x86_cpu_t) (b : Bool)
    (h : fetch_thread_iter env core thread block st = some (st2, b)) :
    (X86_THREAD_inst_mod st2 core thread) = (X86_THREAD_inst_mod st core thread) ∧
    (X86_THREAD st2 core thread).fetch_block = (X86_THREAD st core thread).fetch_block ∧
    (X86_THREAD st2 core thread).fetch_address = (X86_THREAD st core thread).fetch_address ∧
    (X86_THREAD st2 core thread).fetch_access = (X86_THREAD st core thread).fetch_access ∧
    (X86_THREAD st2 core thread).btb_reads = (X86_THREAD st core thread).btb_reads := by
  rcases fetch_thread_iter_cases env core thread block st st2 b h with
    ⟨h1, -⟩ | ⟨ctx, s1, ret, ctx1, -, -, -, -, hf, -, -, bp, neip, f, idx, h2, -⟩
  · subst h1; exact ⟨rfl, rfl, rfl, rfl, rfl⟩
  · obtain ⟨c, -, -, -, hth⟩ := x86_cpu_fetch_inst_some_thread env st core thread false s1 ret hf
    have hm := x86_cpu_fetch_inst_mods env st core thread false s1 ret hf
    subst h2
    refine ⟨X86_THREAD_inst_mod_eq _ _ _ _ (by simp [fetch_adjust, hth])
      (by rw [← hm]; rfl), ?_⟩
    simp [fetch_adjust, hth]

/-- The block loop, when it returns, ends with a trip that leaves the loop; an
invariant of the trips holds in the state in which that trip starts. -/
theorem fetch_thread_loop_last (env : x86_params) (core thread block : Nat)
    (P : x86_cpu_t → Prop)
    (hstep : ∀ s s1, P s → fetch_thread_iter env core thread block s = some (s1, true) → P s1)
    (fuel : Nat) :
    ∀ st st1, P st → fetch_thread_loop env core thread block fuel st = some st1 →
      ∃ s, P s ∧ fetch_thread_iter env core thread block s = some (st1, false) := by
  induction fuel with
  | zero => intro st st1 _ h; simp [fetch_thread_loop] at h
  | succ n ih =>
    intro st st1 h0 h
    simp only [fetch_thread_loop] at h
    cases hi : fetch_thread_iter env core thread block st with
    | none => simp [hi] at h
    | some r =>
      obtain ⟨st2, b⟩ := r
      cases b with
      | false =>
        simp only [hi, Option.some.injEq] at h
        subst h
        exact ⟨st, h0, hi⟩
      | true =>
        simp only [hi] at h
        exact ih st2 st1 (hstep st st2 h0 hi) h

/-- Claim C17. When a call of `x86_cpu_fetch_thread` that misses the trace
cache returns, the block size of the thread is as at entry and, `block` being
the block of `fetch_neip` at entry, one of these holds on return: (a) the block
of `fetch_neip` is not `block`; (b) the last call of the primitive returned a
uop with `CTRL` whose BTB target is not zero and which the predictor answered
taken, and `fetch_neip` is that target; (c) `fetchq_occ` has reached
`x86_fetch_queue_size`; (d) the context is not running; (e) the last call of
the primitive left `inst_size = 0` in the context. -/
theorem x86_cpu_fetch_thread_exit (env : x86_params) (fuel : Nat) (st : x86_cpu_t)
    (core thread : Nat) (sa st2 : x86_cpu_t)
    (hmiss : x86_cpu_fetch_thread_trace_cache env st core thread = some (sa, false))
    (h : x86_cpu_fetch_thread env fuel st core thread = some st2) :
    (X86_THREAD_inst_mod st2 core thread).block_size =
      (X86_THREAD_inst_mod st core thread).block_size ∧
    (x86_block (X86_THREAD st2 core thread).fetch_neip
        (X86_THREAD_inst_mod st2 core thread).block_size ≠
      x86_block (X86_THREAD st core thread).fetch_neip
        (X86_THREAD_inst_mod st core thread).block_size ∨
    (∃ s st1 idx uop,
      x86_cpu_fetch_inst env s core thread false = some (st1, some (idx, uop)) ∧
      uop.flags &&& env.X86_UINST_CTRL ≠ 0 ∧
      (env.x86_bpred_btb_lookup (X86_THREAD st1 core thread).bpred uop).1 ≠ 0 ∧
      (env.x86_bpred_lookup
        (env.x86_bpred_btb_lookup (X86_THREAD st1 core thread).bpred uop).2 uop).1 = true ∧
      (X86_THREAD st2 core thread).fetch_neip =
        (env.x86_bpred_btb_lookup (X86_THREAD st1 core thread).bpred uop).1 ∧
      (X86_THREAD st2 core thread).fetch_queue.length =
        (X86_THREAD st1 core thread).fetch_queue.length ∧
      (X86_THREAD st2 core thread).fetchq_occ = (X86_THREAD st1 core thread).fetchq_occ) ∨
    (X86_THREAD st2 core thread).fetchq_occ ≥ env.x86_fetch_queue_size ∨
    (∃ ctx, (X86_THREAD st2 core thread).ctx = some ctx ∧
      x86_ctx_get_status ctx .x86_ctx_running = false) ∨
    (∃ s ret ctx1, x86_cpu_fetch_inst env s core thread false = some (st2, ret) ∧
      (X86_THREAD st2 core thread).ctx = some ctx1 ∧ ctx1.inst_size = 0)) := by
  obtain ⟨sa1, hit, htc, hcase⟩ := x86_cpu_fetch_thread_cases env fuel st core thread st2 h
  rw [hmiss] at htc
  simp only [Option.some.injEq, Prod.mk.injEq] at htc
  obtain ⟨hsa, hhit⟩ := htc
  subst hsa hhit
  rcases hcase with ⟨hc, -⟩ | ⟨-, sb, block, hopen, hloop⟩
  · cases hc
  obtain ⟨-, b0, t0, hsa⟩ := x86_cpu_fetch_thread_trace_cache_miss env st core thread sa hmiss
  obtain ⟨hblock, -, -, -, -, -, hbs, -⟩ := fetch_thread_open_thread env sa core thread sb block hopen
  have hsa_neip : (X86_THREAD sa core thread).fetch_neip = (X86_THREAD st core thread).fetch_neip := by
    rw [hsa]; simp
  have hsa_bs : (X86_THREAD_inst_mod sa core thread) = (X86_THREAD_inst_mod st core thread) := by
    rw [hsa]; simp [X86_THREAD_inst_mod]
  rw [hsa_neip, hsa_bs] at hblock
  rw [hsa_bs] at hbs
  obtain ⟨s, hP, hlast⟩ := fetch_thread_loop_last env core thread block
    (fun s => (X86_THREAD_inst_mod s core thread).block_size =
      (X86_THREAD_inst_mod st core thread).block_size)
    (fun s s1 hs hi => by
      show (X86_THREAD_inst_mod s1 core thread).block_size = _
      rw [(fetch_thread_iter_keeps env core thread block s s1 true hi).1]; exact hs)
    fuel sb st2 hbs hloop
  have hkeep := (fetch_thread_iter_keeps env core thread block s st2 false hlast).1
  refine ⟨by rw [hkeep]; exact hP, ?_⟩
  rw [← hblock]
  rcases fetch_thread_iter_detail env core thread block s st2 false hlast with
    ⟨h1, -, h3⟩ | ⟨ctx, st1, ret, ctx1, -, -, -, -, hf, hc1, h3⟩
  · subst h1
    rcases h3 with h3 | h3 | h3
    · exact Or.inl h3
    · exact Or.inr (Or.inr (Or.inr (Or.inl h3)))
    · exact Or.inr (Or.inr (Or.inl h3))
  · rcases h3 with ⟨hz, h4, -⟩ | ⟨-, h4, -⟩ | ⟨-, -, idx, uop, hret, hctrl, htar, htaken, h4⟩
    · subst h4
      exact Or.inr (Or.inr (Or.inr (Or.inr ⟨s, ret, ctx1, hf, hc1, hz⟩)))
    · cases h4
    · subst hret
      refine Or.inr (Or.inl ⟨s, st1, idx, uop, hf, hctrl, htar, htaken, ?_, ?_, ?_⟩)
      · rw [h4]; simp [fetch_adjust]
      · rw [h4]; simp [fetch_adjust, list_modify_length]
      · rw [h4]; simp [fetch_adjust]

/-- Claim C17 on the scenario of the spec: block size 64, `fetch_neip = 60` and
an 8-byte instruction. One instruction is fetched, `fetch_neip` becomes 68,
which is outside the block 0 of address 60, and the loop exits. -/
theorem x86_cpu_fetch_thread_exit_witness :
    (x86_cpu_fetch_thread (scenario_params 8 [⟨1, 0⟩]) 2 (scenario_state 60 0) 0 0).map
      (fun st => ((X86_THREAD st 0 0).fetch_neip, (X86_THREAD st 0 0).fetch_queue.length,
        x86_block (X86_THREAD st 0 0).fetch_neip (X86_THREAD_inst_mod st 0 0).block_size)) =
      some (68, 1, 64) ∧
    x86_block (X86_THREAD (scenario_state 60 0) 0 0).fetch_neip
      (X86_THREAD_inst_mod (scenario_state 60 0) 0 0).block_size = 0 ∧
    (X86_THREAD_inst_mod (scenario_after (scenario_params 8 [⟨1, 0⟩]) 2 (scenario_state 60 0)) 0
        0).block_size =
      (X86_THREAD_inst_mod (scenario_state 60 0) 0 0).block_size ∧
    (x86_block
        (X86_THREAD (scenario_after (scenario_params 8 [⟨1, 0⟩]) 2 (scenario_state 60 0)) 0
          0).fetch_neip
        (X86_THREAD_inst_mod (scenario_after (scenario_params 8 [⟨1, 0⟩]) 2 (scenario_state 60 0)) 0
          0).block_size ≠
      x86_block (X86_THREAD (scenario_state 60 0) 0 0).fetch_neip
        (X86_THREAD_inst_mod (scenario_state 60 0) 0 0).block_size ∨
    (∃ s st1 idx uop,
      x86_cpu_fetch_inst (scenario_params 8 [⟨1, 0⟩]) s 0 0 false = some (st1, some (idx, uop)) ∧
      uop.flags &&& (scenario_params 8 [⟨1, 0⟩]).X86_UINST_CTRL ≠ 0 ∧
      ((scenario_params 8 [⟨1, 0⟩]).x86_bpred_btb_lookup (X86_THREAD st1 0 0).bpred uop).1 ≠ 0 ∧
      ((scenario_params 8 [⟨1, 0⟩]).x86_bpred_lookup
        ((scenario_params 8 [⟨1, 0⟩]).x86_bpred_btb_lookup (X86_THREAD st1 0 0).bpred uop).2
          uop).1 = true ∧
      (X86_THREAD (scenario_after (scenario_params 8 [⟨1, 0⟩]) 2 (scenario_state 60 0)) 0
          0).fetch_neip =
        ((scenario_params 8 [⟨1, 0⟩]).x86_bpred_btb_lookup (X86_THREAD st1 0 0).bpred uop).1 ∧
      (X86_THREAD (scenario_after (scenario_params 8 [⟨1, 0⟩]) 2 (scenario_state 60 0)) 0
          0).fetch_queue.length = (X86_THREAD st1 0 0).fetch_queue.length ∧
      (X86_THREAD (scenario_after (scenario_params 8 [⟨1, 0⟩]) 2 (scenario_state 60 0)) 0
          0).fetchq_occ = (X86_THREAD st1 0 0).fetchq_occ) ∨
    (X86_THREAD (scenario_after (scenario_params 8 [⟨1, 0⟩]) 2 (scenario_state 60 0)) 0
        0).fetchq_occ ≥ (scenario_params 8 [⟨1, 0⟩]).x86_fetch_queue_size ∨
    (∃ ctx, (X86_THREAD (scenario_after (scenario_params 8 [⟨1, 0⟩]) 2 (scenario_state 60 0)) 0
        0).ctx = some ctx ∧ x86_ctx_get_status ctx .x86_ctx_running = false) ∨
    (∃ s ret ctx1, x86_cpu_fetch_inst (scenario_params 8 [⟨1, 0⟩]) s 0 0 false =
        some (scenario_after (scenario_params 8 [⟨1, 0⟩]) 2 (scenario_state 60 0), ret) ∧
      (X86_THREAD (scenario_after (scenario_params 8 [⟨1, 0⟩]) 2 (scenario_state 60 0)) 0
        0).ctx = some ctx1 ∧ ctx1.inst_size = 0)) :=
  ⟨by decide, by decide,
    x86_cpu_fetch_thread_exit (scenario_params 8 [⟨1, 0⟩]) 2 (scenario_state 60 0) 0 0
      (scenario_state 60 0) (scenario_after (scenario_params 8 [⟨1, 0⟩]) 2 (scenario_state 60 0))
      rfl rfl⟩

/-! ## The instruction-cache access of the block fetch path -/

/-- A trip of the block loop that calls the primitive ends in the state of the
primitive adjusted by writes that leave `fetch_address` and `fetch_access` of
every uop alone. -/
theorem fetch_thread_iter_adjust (env : x86_params) (core thread block : Nat)
    (st st2 : x86_cpu_t) (b : Bool)
    (h : fetch_thread_iter env core thread block st = some (st2, b)) :
    st2 = st ∨
    ∃ st1 ret, x86_cpu_fetch_inst env st core thread false = some (st1, ret) ∧
      ∃ bp neip f idx, st2 = fetch_adjust st1 core thread bp neip f idx ∧
        ∀ u : x86_uop_t, (f u).fetch_address = u.fetch_address ∧
          (f u).fetch_access = u.fetch_access := by
  rcases fetch_thread_iter_detail env core thread block st st2 b h with
    ⟨h1, -, -⟩ | ⟨ctx, st1, ret, ctx1, -, -, -, -, hf, -, h3⟩
  · exact Or.inl h1
  · right
    refine ⟨st1, ret, hf, ?_⟩
    rcases h3 with ⟨-, h4, -⟩ | ⟨-, -, bp, f, idx, h4, hfid⟩ | ⟨-, -, idx, uop, -, -, -, -, h4⟩
    · exact ⟨(X86_THREAD st1 core thread).bpred, (X86_THREAD st1 core thread).fetch_neip,
        (fun u => u), 0, by rw [fetch_adjust_id]; exact h4, fun _ => ⟨rfl, rfl⟩⟩
    · refine ⟨bp, _, f, idx, h4, ?_⟩
      rcases hfid with hfid | ⟨info, hfid⟩
      · subst hfid; exact fun _ => ⟨rfl, rfl⟩
      · subst hfid; exact fun _ => ⟨rfl, rfl⟩
    · exact ⟨_, _, _, idx, h4, fun _ => ⟨rfl, rfl⟩⟩

/-- A trip of the block loop keeps this invariant: the uops of the fetch queue
from position `n0` on carry the `fetch_address` and `fetch_access` of the
thread. -/
theorem fetch_thread_iter_carry (env : x86_params) (core thread block : Nat) (n0 : Nat)
    (st st2 : x86_cpu_t) (b : Bool)
    (h : fetch_thread_iter env core thread block st = some (st2, b))
    (hinv : n0 ≤ (X86_THREAD st core thread).fetch_queue.length ∧
      ∀ k u, n0 ≤ k → (X86_THREAD st core thread).fetch_queue[k]? = some u →
        u.fetch_address = (X86_THREAD st core thread).fetch_address ∧
        u.fetch_access = (X86_THREAD st core thread).fetch_access) :
    n0 ≤ (X86_THREAD st2 core thread).fetch_queue.length ∧
      ∀ k u, n0 ≤ k → (X86_THREAD st2 core thread).fetch_queue[k]? = some u →
        u.fetch_address = (X86_THREAD st2 core thread).fetch_address ∧
        u.fetch_access = (X86_THREAD st2 core thread).fetch_access := by
  obtain ⟨-, -, ka, kh, -⟩ := fetch_thread_iter_keeps env core thread block st st2 b h
  rw [ka, kh]
  rcases fetch_thread_iter_adjust env core thread block st st2 b h with
    h1 | ⟨st1, ret, hf, bp, neip, f, idx, h2, hfp⟩
  · subst h1; exact hinv
  · obtain ⟨ctx, hctx, -, -, hth⟩ :=
      x86_cpu_fetch_inst_some_thread env st core thread false st1 ret hf
    have hq : (X86_THREAD st2 core thread).fetch_queue =
        list_modify f ((X86_THREAD st core thread).fetch_queue ++
          fetch_inst_news env st core thread false ctx) idx := by
      rw [h2]; simp [fetch_adjust, hth]
    rw [hq, list_modify_length, List.length_append]
    refine ⟨by omega, ?_⟩
    intro k u hk hu
    rw [list_modify_getElem?] at hu
    have hv : ∃ v, ((X86_THREAD st core thread).fetch_queue ++
          fetch_inst_news env st core thread false ctx)[k]? = some v ∧
        u.fetch_address = v.fetch_address ∧ u.fetch_access = v.fetch_access := by
      by_cases hki : k = idx
      · rw [if_pos hki] at hu
        cases hg : ((X86_THREAD st core thread).fetch_queue ++
            fetch_inst_news env st core thread false ctx)[k]? with
        | none => rw [hg] at hu; cases hu
        | some v =>
          rw [hg] at hu
          simp only [Option.map_some', Option.some.injEq] at hu
          subst hu
          exact ⟨v, rfl, (hfp v).1, (hfp v).2⟩
      · rw [if_neg hki] at hu
        exact ⟨u, hu, rfl, rfl⟩
    obtain ⟨v, hg, e1, e2⟩ := hv
    rw [e1, e2]
    by_cases hlt : k < (X86_THREAD st core thread).fetch_queue.length
    · rw [List.getElem?_append_left hlt] at hg
      exact hinv.2 k v hk hg
    · rw [List.getElem?_append_right (by omega)] at hg
      have hfl := fetch_inst_news_fields env st core thread false ctx _ v hg
      exact ⟨hfl.2.2.2.2.2.2.2.2.2.2.2.2.1, hfl.2.2.2.2.2.2.2.2.2.2.2.2.2.1⟩

/-- The opening of the block in detail: when the block of `fetch_neip` is not
`fetch_block`, one access at the translated address is issued to the memory
module of the thread, no other module is written, and `fetch_block`,
`fetch_address`, `fetch_access` and `btb_reads` are written; otherwise the
state is unchanged. -/
theorem fetch_thread_open_access (env : x86_params) (st : x86_cpu_t) (core thread : Nat)
    (sb : x86_cpu_t) (block : Nat) (h : fetch_thread_open env st core thread = some (sb, block)) :
    (x86_block (X86_THREAD st core thread).fetch_neip
        (X86_THREAD_inst_mod st core thread).block_size ≠ (X86_THREAD st core thread).fetch_block →
      ∃ ctx, (X86_THREAD st core thread).ctx = some ctx ∧
        X86_THREAD sb core thread =
          { X86_THREAD st core thread with
            fetch_block := x86_block (X86_THREAD st core thread).fetch_neip
              (X86_THREAD_inst_mod st core thread).block_size
            fetch_address :=
              env.mmu_translate ctx.address_space_index (X86_THREAD st core thread).fetch_neip
            fetch_access := (env.mod_access (X86_THREAD_inst_mod st core thread)
              (env.mmu_translate ctx.address_space_index
                (X86_THREAD st core thread).fetch_neip)).2
            btb_reads := (X86_THREAD st core thread).btb_reads + 1 } ∧
        X86_THREAD_inst_mod sb core thread =
          { X86_THREAD_inst_mod st core thread with
            state := (env.mod_access (X86_THREAD_inst_mod st core thread)
              (env.mmu_translate ctx.address_space_index
                (X86_THREAD st core thread).fetch_neip)).1
            accesses := (X86_THREAD_inst_mod st core thread).accesses ++
              [env.mmu_translate ctx.address_space_index
                (X86_THREAD st core thread).fetch_neip] } ∧
        ∀ i, i ≠ (X86_THREAD st core thread).inst_mod → sb.mods i = st.mods i) ∧
    (x86_block (X86_THREAD st core thread).fetch_neip
        (X86_THREAD_inst_mod st core thread).block_size = (X86_THREAD st core thread).fetch_block →
      sb = st) := by
  unfold fetch_thread_open at h
  by_cases hb : x86_block (X86_THREAD st core thread).fetch_neip
      (X86_THREAD_inst_mod st core thread).block_size = (X86_THREAD st core thread).fetch_block
  · simp [hb] at h
    refine ⟨fun hne => absurd hb hne, fun _ => h.1.symm⟩
  · simp only [ne_eq, hb, not_false_eq_true, if_true] at h
    refine ⟨fun _ => ?_, fun he => absurd he hb⟩
    cases hctx : (X86_THREAD st core thread).ctx with
    | none => simp [hctx] at h
    | some ctx =>
      simp only [hctx, Option.some.injEq, Prod.mk.injEq] at h
      obtain ⟨h1, -⟩ := h
      subst h1
      refine ⟨ctx, rfl, ?_, ?_, ?_⟩
      · cases env.mmu_report <;> simp [X86_THREAD, set_thread, set_core, set_mod] <;>
          exact hctx.symm
      · cases env.mmu_report <;>
          simp [X86_THREAD, X86_THREAD_inst_mod, set_thread, set_core, set_mod]
      · intro i hi
        cases env.mmu_report <;> simp [set_thread, set_core, set_mod, hi]

/-- Claim C18. For a call of `x86_cpu_fetch_thread` that misses the trace cache
and returns, with `block` the block of `fetch_neip` at entry: if `block` is not
`fetch_block`, the thread is bound to a context, exactly one access has been
issued to the instruction module, at `phy = mmu_translate(asid, fetch_neip)`
(the log of accesses is the log at entry followed by `phy`), and on return
`fetch_block = block`, `fetch_address = phy`, `fetch_access` is the handle
that the access returned and `btb_reads` is one more than at entry; if `block`
is `fetch_block`, the module, with its log of accesses, `fetch_block`,
`fetch_address`, `fetch_access` and `btb_reads` are as at entry. Every uop
appended to the fetch queue in the call carries the `fetch_address` and
`fetch_access` that the thread has on return. -/
theorem x86_cpu_fetch_thread_access (env : x86_params) (fuel : Nat) (st : x86_cpu_t)
    (core thread : Nat) (sa st2 : x86_cpu_t)
    (hmiss : x86_cpu_fetch_thread_trace_cache env st core thread = some (sa, false))
    (h : x86_cpu_fetch_thread env fuel st core thread = some st2) :
    (x86_block (X86_THREAD st core thread).fetch_neip
        (X86_THREAD_inst_mod st core thread).block_size ≠ (X86_THREAD st core thread).fetch_block →
      ∃ ctx, (X86_THREAD st core thread).ctx = some ctx ∧
        (X86_THREAD_inst_mod st2 core thread).accesses =
          (X86_THREAD_inst_mod st core thread).accesses ++
            [env.mmu_translate ctx.address_space_index (X86_THREAD st core thread).fetch_neip] ∧
        (X86_THREAD st2 core thread).fetch_block =
          x86_block (X86_THREAD st core thread).fetch_neip
            (X86_THREAD_inst_mod st core thread).block_size ∧
        (X86_THREAD st2 core thread).fetch_address =
          env.mmu_translate ctx.address_space_index (X86_THREAD st core thread).fetch_neip ∧
        (X86_THREAD st2 core thread).fetch_access =
          (env.mod_access (X86_THREAD_inst_mod st core thread)
            (env.mmu_translate ctx.address_space_index
              (X86_THREAD st core thread).fetch_neip)).2 ∧
        (X86_THREAD st2 core thread).btb_reads = (X86_THREAD st core thread).btb_reads + 1) ∧
    (x86_block (X86_THREAD st core thread).fetch_neip
        (X86_THREAD_inst_mod st core thread).block_size = (X86_THREAD st core thread).fetch_block →
      (X86_THREAD_inst_mod st2 core thread) = (X86_THREAD_inst_mod st core thread) ∧
      (X86_THREAD st2 core thread).fetch_block = (X86_THREAD st core thread).fetch_block ∧
      (X86_THREAD st2 core thread).fetch_address = (X86_THREAD st core thread).fetch_address ∧
      (X86_THREAD st2 core thread).fetch_access = (X86_THREAD st core thread).fetch_access ∧
      (X86_THREAD st2 core thread).btb_reads = (X86_THREAD st core thread).btb_reads) ∧
    (X86_THREAD st core thread).fetch_queue.length ≤
      (X86_THREAD st2 core thread).fetch_queue.length ∧
    (∀ k u, (X86_THREAD st core thread).fetch_queue.length ≤ k →
      (X86_THREAD st2 core thread).fetch_queue[k]? = some u →
      u.fetch_address = (X86_THREAD st2 core thread).fetch_address ∧
      u.fetch_access = (X86_THREAD st2 core thread).fetch_access) := by
  obtain ⟨sa1, hit, htc, hcase⟩ := x86_cpu_fetch_thread_cases env fuel st core thread st2 h
  rw [hmiss] at htc
  simp only [Option.some.injEq, Prod.mk.injEq] at htc
  obtain ⟨hsa1, hhit⟩ := htc
  subst hsa1 hhit
  rcases hcase with ⟨hc, -⟩ | ⟨-, sb, block, hopen, hloop⟩
  · cases hc
  obtain ⟨-, b0, t0, hsa⟩ := x86_cpu_fetch_thread_trace_cache_miss env st core thread sa hmiss
  have hsat : X86_THREAD sa core thread =
      { X86_THREAD st core thread with bpred := b0, trace_cache := t0 } := by
    rw [hsa]; simp
  obtain ⟨-, -, hq, -⟩ := fetch_thread_open_thread env sa core thread sb block hopen
  obtain ⟨o1, o2⟩ := fetch_thread_open_access env sa core thread sb block hopen
  have hinv := fetch_thread_loop_invariant env core thread block
    (fun s => ((X86_THREAD_inst_mod s core thread) = (X86_THREAD_inst_mod sb core thread) ∧
        (X86_THREAD s core thread).fetch_block = (X86_THREAD sb core thread).fetch_block ∧
        (X86_THREAD s core thread).fetch_address = (X86_THREAD sb core thread).fetch_address ∧
        (X86_THREAD s core thread).fetch_access = (X86_THREAD sb core thread).fetch_access ∧
        (X86_THREAD s core thread).btb_reads = (X86_THREAD sb core thread).btb_reads) ∧
      ((X86_THREAD st core thread).fetch_queue.length ≤
          (X86_THREAD s core thread).fetch_queue.length ∧
        ∀ k u, (X86_THREAD st core thread).fetch_queue.length ≤ k →
          (X86_THREAD s core thread).fetch_queue[k]? = some u →
          u.fetch_address = (X86_THREAD s core thread).fetch_address ∧
          u.fetch_access = (X86_THREAD s core thread).fetch_access))
    (fun s s1 b hs hi => by
      obtain ⟨k1, k2, k3, k4, k5⟩ := fetch_thread_iter_keeps env core thread block s s1 b hi
      obtain ⟨⟨p1, p2, p3, p4, p5⟩, pc⟩ := hs
      exact ⟨⟨by rw [k1, p1], by rw [k2, p2], by rw [k3, p3], by rw [k4, p4], by rw [k5, p5]⟩,
        fetch_thread_iter_carry env core thread block _ s s1 b hi pc⟩)
    fuel sb st2
    ⟨⟨rfl, rfl, rfl, rfl, rfl⟩, by rw [hq, hsat], by
      intro k u hk hu
      rw [hq, hsat] at hu
      have hnone : (X86_THREAD st core thread).fetch_queue[k]? = none :=
        List.getElem?_eq_none (by omega)
      simp only at hu
      rw [hnone] at hu
      cases hu⟩
    hloop
  obtain ⟨⟨i1, i2, i3, i4, i5⟩, ic1, ic2⟩ := hinv
  have hsam : X86_THREAD_inst_mod sa core thread = X86_THREAD_inst_mod st core thread := by
    rw [hsa]; simp [X86_THREAD_inst_mod]
  have e1 : (X86_THREAD sa core thread).fetch_neip = (X86_THREAD st core thread).fetch_neip := by
    rw [hsat]
  have e2 : (X86_THREAD sa core thread).fetch_block = (X86_THREAD st core thread).fetch_block := by
    rw [hsat]
  have e3 : (X86_THREAD sa core thread).ctx = (X86_THREAD st core thread).ctx := by
    rw [hsat]
  have e4 : (X86_THREAD sa core thread).fetch_address =
      (X86_THREAD st core thread).fetch_address := by
    rw [hsat]
  have e5 : (X86_THREAD sa core thread).fetch_access =
      (X86_THREAD st core thread).fetch_access := by
    rw [hsat]
  have e6 : (X86_THREAD sa core thread).btb_reads = (X86_THREAD st core thread).btb_reads := by
    rw [hsat]
  rw [hsam, e1, e2] at o1 o2
  refine ⟨?_, ?_, ic1, ic2⟩
  · intro hne
    obtain ⟨ctx, hctx, hsb, hmod, -⟩ := o1 hne
    rw [e3] at hctx
    refine ⟨ctx, hctx, ?_, ?_, ?_, ?_, ?_⟩
    · rw [i1, hmod]
    · rw [i2, hsb]
    · rw [i3, hsb]
    · rw [i4, hsb]
    · rw [i5, hsb]
      show (X86_THREAD sa core thread).btb_reads + 1 = _
      rw [e6]
  · intro he
    have hsb := o2 he
    rw [hsb] at i1 i2 i3 i4 i5
    exact ⟨by rw [i1, hsam], by rw [i2, e2], by rw [i3, e4], by rw [i4, e5], by rw [i5, e6]⟩

/-- Claim C18 on a scenario: block size 64, `fetch_neip = 56`, no block opened
yet, 4-byte instructions of two uinsts. The call issues one access, at address
56, sets `fetch_block = 0`, `fetch_address = 56`, `fetch_access` to the handle
0 and `btb_reads = 1`, and the four uops fetched carry the address 56 and the
handle 0. -/
theorem x86_cpu_fetch_thread_access_witness :
    (X86_THREAD_inst_mod (scenario_after (scenario_params 4 [⟨1, 0⟩, ⟨3, 64⟩]) 3 (scenario_state 56 0)) 0
        0).accesses = [56] ∧
    ((X86_THREAD (scenario_after (scenario_params 4 [⟨1, 0⟩, ⟨3, 64⟩]) 3 (scenario_state 56 0)) 0
        0).fetch_block,
      (X86_THREAD (scenario_after (scenario_params 4 [⟨1, 0⟩, ⟨3, 64⟩]) 3 (scenario_state 56 0)) 0
        0).fetch_address,
      (X86_THREAD (scenario_after (scenario_params 4 [⟨1, 0⟩, ⟨3, 64⟩]) 3 (scenario_state 56 0)) 0
        0).fetch_access,
      (X86_THREAD (scenario_after (scenario_params 4 [⟨1, 0⟩, ⟨3, 64⟩]) 3 (scenario_state 56 0)) 0
        0).btb_reads) = (0, 56, 0, 1) ∧
    (X86_THREAD (scenario_after (scenario_params 4 [⟨1, 0⟩, ⟨3, 64⟩]) 3 (scenario_state 56 0)) 0
        0).fetch_queue.map (fun u => (u.eip, u.fetch_address, u.fetch_access)) =
      [(56, 56, 0), (56, 56, 0), (60, 56, 0), (60, 56, 0)] ∧
    (X86_THREAD (scenario_state 56 0) 0 0).fetch_queue.length ≤
      (X86_THREAD (scenario_after (scenario_params 4 [⟨1, 0⟩, ⟨3, 64⟩]) 3 (scenario_state 56 0)) 0
        0).fetch_queue.length ∧
    (∀ k u, (X86_THREAD (scenario_state 56 0) 0 0).fetch_queue.length ≤ k →
      (X86_THREAD (scenario_after (scenario_params 4 [⟨1, 0⟩, ⟨3, 64⟩]) 3 (scenario_state 56 0)) 0
        0).fetch_queue[k]? = some u →
      u.fetch_address =
        (X86_THREAD (scenario_after (scenario_params 4 [⟨1, 0⟩, ⟨3, 64⟩]) 3 (scenario_state 56 0))
          0 0).fetch_address ∧
      u.fetch_access =
        (X86_THREAD (scenario_after (scenario_params 4 [⟨1, 0⟩, ⟨3, 64⟩]) 3 (scenario_state 56 0))
          0 0).fetch_access) :=
  ⟨by decide, by decide, by decide,
    (x86_cpu_fetch_thread_access (scenario_params 4 [⟨1, 0⟩, ⟨3, 64⟩]) 3 (scenario_state 56 0) 0 0
      (scenario_state 56 0)
      (scenario_after (scenario_params 4 [⟨1, 0⟩, ⟨3, 64⟩]) 3 (scenario_state 56 0))
      rfl rfl).2.2⟩

/-! ## Bounded work of the block loop -/

/-- The mask `~(block_size - 1)` for a block size `2 ^ k`, `k < 32`. -/
theorem x86_block_mask_two_pow (k : Nat) (hk : k < 32) :
    x86_block_mask (2 ^ k) = 2 ^ 32 - (2 ^ k - 1 + 1) := by
  have h1 : 1 ≤ 2 ^ k := Nat.one_le_two_pow
  have h2 : 2 ^ k < 2 ^ 32 := Nat.pow_lt_pow_right (by omega) hk
  have h3 : (2 : Nat) ^ 32 = 4294967296 := by norm_num
  unfold x86_block_mask
  have h4 : (2 ^ k + 4294967295) % 4294967296 = 2 ^ k - 1 := by
    have : 2 ^ k + 4294967295 = (2 ^ k - 1) + 4294967296 := by omega
    rw [this, Nat.add_mod_right, Nat.mod_eq_of_lt (by omega)]
  rw [h4]
  omega

/-- The block of a 32-bit address, for a block size `2 ^ k`, `k < 32`: the
address without its offset in the block. -/
theorem x86_block_two_pow (x k : Nat) (hk : k < 32) (hx : x < 4294967296) :
    x86_block x (2 ^ k) = x - x % 2 ^ k := by
  have h2 : 2 ^ k - 1 < 2 ^ 32 := by
    have : 2 ^ k < 2 ^ 32 := Nat.pow_lt_pow_right (by omega) hk
    omega
  have hd : x - x % 2 ^ k = 2 ^ k * (x / 2 ^ k) := by
    have := Nat.div_add_mod x (2 ^ k)
    omega
  unfold x86_block
  rw [x86_block_mask_two_pow k hk, hd]
  apply Nat.eq_of_testBit_eq
  intro j
  rw [Nat.testBit_and, Nat.testBit_two_pow_sub_succ h2, Nat.testBit_two_pow_sub_one,
    Nat.testBit_mul_pow_two, ← Nat.shiftRight_eq_div_pow, Nat.testBit_shiftRight]
  by_cases hj : j < k
  · simp [hj]
  · have hjk : k + (j - k) = j := by omega
    rw [hjk]
    by_cases hj2 : j < 32
    · simp [hj, hj2]
      omega
    · have hxj : x < 2 ^ j := by
        have : (2 : Nat) ^ 32 ≤ 2 ^ j := Nat.pow_le_pow_right (by omega) (by omega)
        have h3 : (2 : Nat) ^ 32 = 4294967296 := by norm_num
        omega
      simp [Nat.testBit_lt_two_pow hxj]

/-- The offset of the next address in its block grows in a trip that stays in
the block, for an instruction of size between 1 and the block size. -/
theorem x86_block_advance (x k size : Nat) (hk : k < 32) (hx : x < 4294967296)
    (h1 : 1 ≤ size) (h2 : size ≤ 2 ^ k)
    (hsame : x86_block ((x + size) % 4294967296) (2 ^ k) = x86_block x (2 ^ k)) :
    x % 2 ^ k < ((x + size) % 4294967296) % 2 ^ k := by
  have hB : 0 < 2 ^ k := Nat.two_pow_pos k
  have hB2 : 2 ^ k ≤ 2147483648 := by
    have : (2 : Nat) ^ k ≤ 2 ^ 31 := Nat.pow_le_pow_right (by omega) (by omega)
    have h3 : (2 : Nat) ^ 31 = 2147483648 := by norm_num
    omega
  have hy : (x + size) % 4294967296 < 4294967296 := Nat.mod_lt _ (by omega)
  rw [x86_block_two_pow _ k hk hy, x86_block_two_pow _ k hk hx] at hsame
  have hxm := Nat.mod_lt x hB
  have hxl := Nat.mod_le x (2 ^ k)
  have hym := Nat.mod_lt ((x + size) % 4294967296) hB
  have hyl := Nat.mod_le ((x + size) % 4294967296) (2 ^ k)
  by_cases hw : x + size < 4294967296
  · rw [Nat.mod_eq_of_lt hw] at hsame hym hyl ⊢
    omega
  · have hy2 : (x + size) % 4294967296 = x + size - 4294967296 := by
      rw [Nat.mod_eq_sub_mod (by omega), Nat.mod_eq_of_lt (by omega)]
    rw [hy2] at hsame hym hyl ⊢
    have hsmall : (x + size - 4294967296) % 2 ^ k = x + size - 4294967296 :=
      Nat.mod_eq_of_lt (by omega)
    rw [hsmall] at hsame
    omega

/-- Dropping the count from `fetch_thread_loop_calls` gives the block loop. -/
theorem fetch_thread_loop_calls_fst (env : x86_params) (core thread block : Nat) (fuel : Nat) :
    ∀ st, (fetch_thread_loop_calls env core thread block fuel st).map Prod.fst =
      fetch_thread_loop env core thread block fuel st := by
  induction fuel with
  | zero => intro st; rfl
  | succ n ih =>
    intro st
    simp only [fetch_thread_loop_calls, fetch_thread_loop]
    cases hi : fetch_thread_iter env core thread block st with
    | none => rfl
    | some r =>
      obtain ⟨st1, b⟩ := r
      cases b with
      | false => rfl
      | true =>
        simp only
        rw [← ih st1]
        cases fetch_thread_loop_calls env core thread block n st1 with
        | none => rfl
        | some r2 => rfl

/-- A trip of the block loop returns when the thread is bound to a context and
the opcodes that the executor stages pass the assertion. -/
theorem fetch_thread_iter_returns (env : x86_params) (core thread block : Nat) (st : x86_cpu_t)
    (ctx : x86_ctx_t) (hctx : (X86_THREAD st core thread).ctx = some ctx)
    (hv : ∀ u ∈ (x86_ctx_execute_at env st core thread ctx).2, valid_opcode env u) :
    ∃ st2 b, fetch_thread_iter env core thread block st = some (st2, b) := by
  obtain ⟨st1, ret, hf⟩ : ∃ st1 ret, x86_cpu_fetch_inst env st core thread false = some (st1, ret) :=
    ⟨_, _, x86_cpu_fetch_inst_eq env st core thread false ctx hctx hv⟩
  obtain ⟨c, -, -, -, hth⟩ := x86_cpu_fetch_inst_some_thread env st core thread false st1 ret hf
  have hc1 : (X86_THREAD st1 core thread).ctx = some (x86_ctx_execute_at env st core thread c).1 := by
    rw [hth]
  unfold fetch_thread_iter
  simp only [hctx, hf, hc1]
  repeat' split
  all_goals exact ⟨_, _, rfl⟩

theorem fetch_thread_iter_calls_le (env : x86_params) (core thread block : Nat) (st : x86_cpu_t) :
    fetch_thread_iter_calls env core thread block st ≤ 1 ∧
    (x86_block (X86_THREAD st core thread).fetch_neip
        (X86_THREAD_inst_mod st core thread).block_size ≠ block →
      fetch_thread_iter_calls env core thread block st = 0) := by
  unfold fetch_thread_iter_calls
  constructor
  · dsimp only
    repeat' split
    all_goals omega
  · intro h
    simp [h]

/-- A trip of the block loop that goes on has called the primitive, which left
a non-zero instruction size `s`, and `fetch_neip` has advanced by `s`; the
thread is still bound to a context and its memory module is unchanged. -/
theorem fetch_thread_iter_advance (env : x86_params) (core thread block : Nat)
    (st st2 : x86_cpu_t)
    (h : fetch_thread_iter env core thread block st = some (st2, true)) :
    fetch_thread_iter_calls env core thread block st = 1 ∧
    x86_block (X86_THREAD st core thread).fetch_neip
      (X86_THREAD_inst_mod st core thread).block_size = block ∧
    (X86_THREAD_inst_mod st2 core thread) = (X86_THREAD_inst_mod st core thread) ∧
    ∃ ctx, (X86_THREAD st core thread).ctx = some ctx ∧
      (X86_THREAD st2 core thread).ctx = some (x86_ctx_execute_at env st core thread ctx).1 ∧
      (x86_ctx_execute_at env st core thread ctx).1.inst_size ≠ 0 ∧
      (X86_THREAD st2 core thread).fetch_neip =
        ((X86_THREAD st core thread).fetch_neip +
          (x86_ctx_execute_at env st core thread ctx).1.inst_size) % 4294967296 := by
  have hk := (fetch_thread_iter_keeps env core thread block st st2 true h).1
  rcases fetch_thread_iter_detail env core thread block st st2 true h with
    ⟨-, hb, -⟩ | ⟨ctx, st1, ret, ctx1, hctx, hr, ho, hb, hf, hc1, h3⟩
  · cases hb
  · obtain ⟨c, hc, -, -, hth⟩ := x86_cpu_fetch_inst_some_thread env st core thread false st1 ret hf
    have hcc : c = ctx := by
      rw [hctx] at hc
      exact (Option.some.inj hc).symm
    subst hcc
    have hctx1 : ctx1 = (x86_ctx_execute_at env st core thread c).1 := by
      rw [hth] at hc1
      exact (Option.some.inj hc1).symm
    refine ⟨?_, hb, hk, c, hctx, ?_⟩
    · unfold fetch_thread_iter_calls
      simp [hb, hctx, hr, ho]
    · rcases h3 with ⟨-, -, hx⟩ | ⟨hz, -, bp, f, idx, h4, -⟩ | ⟨-, hx, -⟩
      · cases hx
      · rw [hctx1] at hz
        refine ⟨?_, hz, ?_⟩
        · rw [h4]; simp [fetch_adjust, hth]
        · rw [h4]; simp [fetch_adjust, hth]
      · cases hx

/-- The block loop with `n + 1` units of fuel returns after at most `n` calls
of the primitive when the offsets left in the block are at most `n`. -/
theorem fetch_thread_loop_calls_bound (env : x86_params) (core thread block k : Nat)
    (hk : k < 32)
    (hv : ∀ c l, ∀ u ∈ (env.x86_ctx_execute c l).2, valid_opcode env u)
    (hsize : ∀ c l, (env.x86_ctx_execute c l).1.inst_size ≤ 2 ^ k) (n : Nat) :
    ∀ st : x86_cpu_t, (∃ ctx, (X86_THREAD st core thread).ctx = some ctx) →
      (X86_THREAD_inst_mod st core thread).block_size = 2 ^ k →
      (X86_THREAD st core thread).fetch_neip < 4294967296 →
      (x86_block (X86_THREAD st core thread).fetch_neip (2 ^ k) = block →
        2 ^ k - (X86_THREAD st core thread).fetch_neip % 2 ^ k ≤ n) →
      ∃ st1 calls, fetch_thread_loop_calls env core thread block (n + 1) st = some (st1, calls) ∧
        calls ≤ n := by
  induction n with
  | zero =>
    intro st hctx hbs hneip hmeas
    obtain ⟨ctx, hctx⟩ := hctx
    have hout : x86_block (X86_THREAD st core thread).fetch_neip
        (X86_THREAD_inst_mod st core thread).block_size ≠ block := by
      rw [hbs]
      intro hin
      have := hmeas hin
      have := Nat.mod_lt (X86_THREAD st core thread).fetch_neip (Nat.two_pow_pos k)
      omega
    have hi : fetch_thread_iter env core thread block st = some (st, false) := by
      unfold fetch_thread_iter
      simp [hout]
    refine ⟨st, 0, ?_, Nat.le_refl _⟩
    simp only [fetch_thread_loop_calls, hi,
      (fetch_thread_iter_calls_le env core thread block st).2 hout]
  | succ m ih =>
    intro st hctx hbs hneip hmeas
    obtain ⟨ctx, hctx⟩ := hctx
    obtain ⟨st2, b, hi⟩ := fetch_thread_iter_returns env core thread block st ctx hctx
      (hv _ _)
    cases b with
    | false =>
      refine ⟨st2, fetch_thread_iter_calls env core thread block st,
        by simp only [fetch_thread_loop_calls, hi], ?_⟩
      have := (fetch_thread_iter_calls_le env core thread block st).1
      omega
    | true =>
      obtain ⟨hc1, hb, hmod, c, hc, hctx2, hnz, hneip2⟩ :=
        fetch_thread_iter_advance env core thread block st st2 hi
      have hbs2 : (X86_THREAD_inst_mod st2 core thread).block_size = 2 ^ k := by rw [hmod, hbs]
      have hlt2 : (X86_THREAD st2 core thread).fetch_neip < 4294967296 := by
        rw [hneip2]; exact Nat.mod_lt _ (by omega)
      rw [hbs] at hb
      have hmeas2 : x86_block (X86_THREAD st2 core thread).fetch_neip (2 ^ k) = block →
          2 ^ k - (X86_THREAD st2 core thread).fetch_neip % 2 ^ k ≤ m := by
        intro hin
        rw [hneip2] at hin ⊢
        have hadv := x86_block_advance (X86_THREAD st core thread).fetch_neip k
          (x86_ctx_execute_at env st core thread c).1.inst_size hk hneip (by omega)
          (hsize _ _) (by rw [hin, hb])
        have := hmeas hb
        omega
      obtain ⟨st1, calls, hl, hle⟩ := ih st2 ⟨_, hctx2⟩ hbs2 hlt2 hmeas2
      refine ⟨st1, calls + 1, ?_, by omega⟩
      rw [fetch_thread_loop_calls]
      simp only [hi, hl, hc1]

/-- Claim C19. Let the block size of the thread be `2 ^ k` with `k < 32`, the
thread be bound to a context, `fetch_neip` be a 32-bit value, and every
instruction that the executor decodes have a size of at most the block size
(and stage opcodes that pass the assertion). Then the block loop, started for
any block with `2 ^ k + 1` units of fuel, returns, and its trips have called
the fetch primitive at most `2 ^ k` times. Every trip that goes on has called
the primitive in the block, which reported a size `s ≥ 1`, and has advanced
`fetch_neip` by `s`, whether or not a uop was returned and whatever the
predictor answered. A call of `x86_cpu_fetch_thread` that misses the trace
cache returns with that fuel. -/
theorem fetch_thread_loop_bounded (env : x86_params) (core thread block k : Nat)
    (st : x86_cpu_t) (ctx : x86_ctx_t) (hk : k < 32)
    (hbs : (X86_THREAD_inst_mod st core thread).block_size = 2 ^ k)
    (hctx : (X86_THREAD st core thread).ctx = some ctx)
    (hneip : (X86_THREAD st core thread).fetch_neip < 4294967296)
    (hv : ∀ c l, ∀ u ∈ (env.x86_ctx_execute c l).2, valid_opcode env u)
    (hsize : ∀ c l, (env.x86_ctx_execute c l).1.inst_size ≤ 2 ^ k) :
    (∃ st1 calls,
      fetch_thread_loop_calls env core thread block (2 ^ k + 1) st = some (st1, calls) ∧
      calls ≤ 2 ^ k ∧
      fetch_thread_loop env core thread block (2 ^ k + 1) st = some st1) ∧
    (∀ s s1, fetch_thread_iter env core thread block s = some (s1, true) →
      fetch_thread_iter_calls env core thread block s = 1 ∧
      x86_block (X86_THREAD s core thread).fetch_neip
        (X86_THREAD_inst_mod s core thread).block_size = block ∧
      ∃ c, (X86_THREAD s core thread).ctx = some c ∧
        1 ≤ (x86_ctx_execute_at env s core thread c).1.inst_size ∧
        (X86_THREAD s1 core thread).fetch_neip =
          ((X86_THREAD s core thread).fetch_neip +
            (x86_ctx_execute_at env s core thread c).1.inst_size) % 4294967296) ∧
    (∀ sa, x86_cpu_fetch_thread_trace_cache env st core thread = some (sa, false) →
      ∃ st1, x86_cpu_fetch_thread env (2 ^ k + 1) st core thread = some st1) := by
  refine ⟨?_, ?_, ?_⟩
  · obtain ⟨st1, calls, hl, hle⟩ := fetch_thread_loop_calls_bound env core thread block k hk hv
      hsize (2 ^ k) st ⟨ctx, hctx⟩ hbs hneip (fun _ => Nat.sub_le _ _)
    refine ⟨st1, calls, hl, hle, ?_⟩
    rw [← fetch_thread_loop_calls_fst, hl]
    rfl
  · intro s s1 hi
    obtain ⟨h1, h2, -, c, h4, -, h6, h7⟩ := fetch_thread_iter_advance env core thread block s s1 hi
    exact ⟨h1, h2, c, h4, by omega, h7⟩
  · intro sa hmiss
    obtain ⟨-, b0, t0, hsa⟩ := x86_cpu_fetch_thread_trace_cache_miss env st core thread sa hmiss
    have hsat : X86_THREAD sa core thread =
        { X86_THREAD st core thread with bpred := b0, trace_cache := t0 } := by
      rw [hsa]; simp
    have hctxa : (X86_THREAD sa core thread).ctx = some ctx := by rw [hsat]; exact hctx
    obtain ⟨sb, hopen, -⟩ := fetch_thread_open_some env sa core thread ctx hctxa
    obtain ⟨-, o2, -, o4, -, -, o7, -⟩ := fetch_thread_open_thread env sa core thread sb _ hopen
    obtain ⟨st1, calls, hl, -⟩ := fetch_thread_loop_calls_bound env core thread
      (x86_block (X86_THREAD sa core thread).fetch_neip
        (X86_THREAD_inst_mod sa core thread).block_size) k hk hv
      hsize (2 ^ k) sb ⟨ctx, by rw [o2, hctxa]⟩
      (by
        have hsam : X86_THREAD_inst_mod sa core thread = X86_THREAD_inst_mod st core thread := by
          rw [hsa]; simp [X86_THREAD_inst_mod]
        rw [o7, hsam]; exact hbs)
      (by rw [o4, hsat]; exact hneip) (fun _ => Nat.sub_le _ _)
    refine ⟨st1, ?_⟩
    unfold x86_cpu_fetch_thread
    simp only [hmiss, hopen]
    rw [← fetch_thread_loop_calls_fst, hl]
    rfl

/-- Claim C19 on a scenario: block size 64, 4-byte instructions, `fetch_neip`
at the start of block 0 and a fetch queue of 16 bytes. The loop returns after
four calls of the primitive, within the bound 64. -/
theorem fetch_thread_loop_bounded_witness :
    (fetch_thread_loop_calls (scenario_params 4 [⟨1, 0⟩]) 0 0 0 (2 ^ 6 + 1)
      (scenario_state 0 0)).map (fun r => (r.2, (X86_THREAD r.1 0 0).fetch_neip)) =
      some (4, 16) ∧
    ∃ st1 calls,
      fetch_thread_loop_calls (scenario_params 4 [⟨1, 0⟩]) 0 0 0 (2 ^ 6 + 1) (scenario_state 0 0) =
        some (st1, calls) ∧
      calls ≤ 2 ^ 6 ∧
      fetch_thread_loop (scenario_params 4 [⟨1, 0⟩]) 0 0 0 (2 ^ 6 + 1) (scenario_state 0 0) =
        some st1 :=
  ⟨by decide,
    (fetch_thread_loop_bounded (scenario_params 4 [⟨1, 0⟩]) 0 0 0 6 (scenario_state 0 0)
      (scenario_ctx 0) (by decide) rfl rfl (by decide)
      (fun _ _ u hu => by
        have h1 : u = ⟨1, 0⟩ := by simpa [scenario_params, scenario_execute] using hu
        rw [h1]
        decide)
      (fun _ _ => by simp [scenario_params, scenario_execute])).1⟩

/-! ## The overshoot of the fetch queue -/

/-- Claim C20. If `x86_cpu_fetch_thread` is called on a thread with
`fetchq_occ < x86_fetch_queue_size` and every instruction that the executor
decodes has a size of at most `M`, then on return
`fetchq_occ < x86_fetch_queue_size + M`: the primitive is called only while
`fetchq_occ` is below the limit, and each call adds at most one instruction
size. -/
theorem x86_cpu_fetch_thread_overshoot_bound (env : x86_params) (fuel : Nat) (st : x86_cpu_t)
    (core thread : Nat) (st1 : x86_cpu_t) (M : Nat)
    (h0 : (X86_THREAD st core thread).fetchq_occ < env.x86_fetch_queue_size)
    (hM : ∀ c l, (env.x86_ctx_execute c l).1.inst_size ≤ M)
    (h : x86_cpu_fetch_thread env fuel st core thread = some st1) :
    (X86_THREAD st1 core thread).fetchq_occ < env.x86_fetch_queue_size + M := by
  obtain ⟨sa, hit, htc, hcase⟩ := x86_cpu_fetch_thread_cases env fuel st core thread st1 h
  have hocc : (X86_THREAD sa core thread).fetchq_occ = (X86_THREAD st core thread).fetchq_occ := by
    have h6 := x86_cpu_fetch_thread_trace_cache_cases env st core thread sa hit htc
    rcases h6 with ⟨-, h2⟩ | ⟨-, -, -, -, st2, hloop, h2⟩
    · rcases h2 with h2 | h2 <;> subst h2 <;> simp [fetch_thread_trace_cache_lookup]
    · obtain ⟨news, -, -, ho, -⟩ :=
        fetch_thread_trace_cache_loop_thread env core thread _ _ _ _ _ hloop
      subst h2
      simp only [fetch_thread_trace_cache_lookup, X86_THREAD_set_thread_same] at ho
      simpa using ho
  rcases hcase with ⟨-, h1⟩ | ⟨-, sb, block, hopen, hloop⟩
  · subst h1
    omega
  · have hob := (fetch_thread_open_thread env sa core thread sb block hopen).2.2.2.2.1
    refine fetch_thread_loop_invariant env core thread block
      (fun s => (X86_THREAD s core thread).fetchq_occ < env.x86_fetch_queue_size + M)
      ?_ fuel sb st1 (by show _ < _; omega) hloop
    intro s s2 b hP hi
    rcases fetch_thread_iter_cases env core thread block s s2 b hi with
      ⟨h1, -⟩ | ⟨ctx, s1, ret, ctx1, -, -, hlt, -, hf, -, -, bp, neip, f, idx, h2, -⟩
    · subst h1; exact hP
    · obtain ⟨c, -, -, -, hth⟩ := x86_cpu_fetch_inst_some_thread env s core thread false s1 ret hf
      obtain ⟨c1, hc1, hor⟩ := x86_cpu_fetch_inst_occ_after env s core thread s1 ret hf
      have hc1M : c1.inst_size ≤ M := by
        rw [hth] at hc1
        have := Option.some.inj hc1
        rw [← this]
        exact hM _ _
      subst h2
      show (X86_THREAD (fetch_adjust s1 core thread bp neip f idx) core thread).fetchq_occ < _
      simp only [fetch_adjust, X86_THREAD_set_thread_same]
      rcases hor with hor | hor <;> omega

/-- Claim C20 on the scenario of the overshoot: entered with 15 of 16 bytes
used and 4-byte instructions, the path returns with `fetchq_occ = 19`, which is
less than `16 + 4`. -/
theorem x86_cpu_fetch_thread_overshoot_bound_witness :
    (x86_cpu_fetch_thread (scenario_params 4 [⟨1, 0⟩]) 2 (scenario_state 60 15) 0 0).map
      (fun st => (X86_THREAD st 0 0).fetchq_occ) = some 19 ∧
    (X86_THREAD (scenario_after (scenario_params 4 [⟨1, 0⟩]) 2 (scenario_state 60 15)) 0
      0).fetchq_occ < (scenario_params 4 [⟨1, 0⟩]).x86_fetch_queue_size + 4 :=
  ⟨by decide,
    x86_cpu_fetch_thread_overshoot_bound (scenario_params 4 [⟨1, 0⟩]) 2 (scenario_state 60 15) 0 0
      (scenario_after (scenario_params 4 [⟨1, 0⟩]) 2 (scenario_state 60 15)) 4 (by decide)
      (fun _ _ => by simp [scenario_params, scenario_execute]) rfl⟩

/-! ## The memory modules that the fetch paths write -/

theorem same_mods_refl (st : x86_cpu_t) (core thread : Nat) : same_mods st st core thread :=
  ⟨rfl, fun _ _ => rfl⟩

theorem same_mods_trans (st st1 st2 : x86_cpu_t) (core thread : Nat)
    (h1 : same_mods st st1 core thread) (h2 : same_mods st1 st2 core thread) :
    same_mods st st2 core thread := by
  obtain ⟨a1, a2⟩ := h1
  obtain ⟨b1, b2⟩ := h2
  refine ⟨by rw [b1, a1], fun i hi => ?_⟩
  rw [b2 i (by rw [a1]; exact hi), a2 i hi]

theorem same_mods_of_eq (st st1 : x86_cpu_t) (core thread : Nat)
    (hp : (X86_THREAD st1 core thread).inst_mod = (X86_THREAD st core thread).inst_mod)
    (hm : st1.mods = st.mods) : same_mods st st1 core thread :=
  ⟨hp, fun i _ => by rw [hm]⟩

/-- The fetch primitive writes to no memory module. -/
theorem x86_cpu_fetch_inst_same_mods (env : x86_params) (st : x86_cpu_t) (core thread : Nat)
    (tc : Bool) (st1 : x86_cpu_t) (ret : Option (Nat × x86_uop_t))
    (h : x86_cpu_fetch_inst env st core thread tc = some (st1, ret)) :
    (X86_THREAD st1 core thread).inst_mod = (X86_THREAD st core thread).inst_mod ∧
    st1.mods = st.mods := by
  obtain ⟨c, -, -, -, hth⟩ := x86_cpu_fetch_inst_some_thread env st core thread tc st1 ret h
  exact ⟨by rw [hth], x86_cpu_fetch_inst_mods env st core thread tc st1 ret h⟩

/-- A trip of the block loop writes to no memory module. -/
theorem fetch_thread_iter_mods (env : x86_params) (core thread block : Nat)
    (st st2 : x86_cpu_t) (b : Bool)
    (h : fetch_thread_iter env core thread block st = some (st2, b)) :
    (X86_THREAD st2 core thread).inst_mod = (X86_THREAD st core thread).inst_mod ∧
    st2.mods = st.mods := by
  rcases fetch_thread_iter_cases env core thread block st st2 b h with
    ⟨h1, -⟩ | ⟨ctx, s1, ret, ctx1, -, -, -, -, hf, -, -, bp, neip, f, idx, h2, -⟩
  · subst h1; exact ⟨rfl, rfl⟩
  · obtain ⟨p1, p2⟩ := x86_cpu_fetch_inst_same_mods env st core thread false s1 ret hf
    subst h2
    exact ⟨by rw [← p1]; simp [fetch_adjust], by rw [← p2]; rfl⟩

/-- A trip of the trace-cache loop writes to no memory module. -/
theorem fetch_thread_trace_cache_iter_mods (env : x86_params) (core thread : Nat)
    (res : x86_trace_cache_result_t) (i : Nat) (st st2 : x86_cpu_t) (b : Bool)
    (h : fetch_thread_trace_cache_iter env core thread res i st = some (st2, b)) :
    (X86_THREAD st2 core thread).inst_mod = (X86_THREAD st core thread).inst_mod ∧
    st2.mods = st.mods := by
  rcases fetch_thread_trace_cache_iter_cases env core thread res i st st2 b h with
    ⟨h1, -⟩ | ⟨ctx, s1, ret, -, -, -, hf, hcase⟩
  · subst h1; exact ⟨rfl, rfl⟩
  · obtain ⟨p1, p2⟩ := x86_cpu_fetch_inst_same_mods env _ core thread true s1 ret hf
    simp only [X86_THREAD_set_thread_same, set_thread_mods] at p1 p2
    rcases hcase with ⟨h2, -⟩ | ⟨idx, uop, -, -, h2⟩
    · subst h2; exact ⟨p1, p2⟩
    · subst h2
      exact ⟨by rw [← p1]; simp [fetch_adjust], by rw [← p2]; rfl⟩

/-- The trace-cache path writes to no memory module. -/
theorem x86_cpu_fetch_thread_trace_cache_mods (env : x86_params) (st : x86_cpu_t)
    (core thread : Nat) (st1 : x86_cpu_t) (hit : Bool)
    (h : x86_cpu_fetch_thread_trace_cache env st core thread = some (st1, hit)) :
    (X86_THREAD st1 core thread).inst_mod = (X86_THREAD st core thread).inst_mod ∧
    st1.mods = st.mods := by
  rcases x86_cpu_fetch_thread_trace_cache_cases env st core thread st1 hit h with
    ⟨-, h2⟩ | ⟨-, -, -, -, st2, hloop, h2⟩
  · rcases h2 with h2 | h2
    · subst h2; exact ⟨rfl, rfl⟩
    · subst h2
      exact ⟨by simp [fetch_thread_trace_cache_lookup], by simp [fetch_thread_trace_cache_lookup]⟩
  · subst h2
    have hl := fetch_thread_trace_cache_loop_invariant env core thread _
      (fun s => (X86_THREAD s core thread).inst_mod = (X86_THREAD st core thread).inst_mod ∧
        s.mods = st.mods)
      (fun i s s1 b hP hi => by
        obtain ⟨q1, q2⟩ := fetch_thread_trace_cache_iter_mods env core thread _ i s s1 b hi
        exact ⟨by rw [q1, hP.1], by rw [q2, hP.2]⟩)
      _ _ _ _
      ⟨by simp [fetch_thread_trace_cache_lookup], by simp [fetch_thread_trace_cache_lookup]⟩
      hloop
    exact ⟨by rw [← hl.1]; simp, by rw [← hl.2]; rfl⟩

/-- The block fetch path writes to no memory module other than the one of its
thread, and leaves the pointer of the thread to it alone. -/
theorem x86_cpu_fetch_thread_same_mods (env : x86_params) (fuel : Nat) (st : x86_cpu_t)
    (core thread : Nat) (st1 : x86_cpu_t)
    (h : x86_cpu_fetch_thread env fuel st core thread = some st1) :
    same_mods st st1 core thread := by
  obtain ⟨sa, hit, htc, hcase⟩ := x86_cpu_fetch_thread_cases env fuel st core thread st1 h
  obtain ⟨a1, a2⟩ := x86_cpu_fetch_thread_trace_cache_mods env st core thread sa hit htc
  have h1 := same_mods_of_eq st sa core thread a1 a2
  rcases hcase with ⟨-, h2⟩ | ⟨-, sb, block, hopen, hloop⟩
  · subst h2; exact h1
  · have hopen2 : same_mods sa sb core thread := by
      obtain ⟨o1, o2⟩ := fetch_thread_open_access env sa core thread sb block hopen
      by_cases hb : x86_block (X86_THREAD sa core thread).fetch_neip
          (X86_THREAD_inst_mod sa core thread).block_size = (X86_THREAD sa core thread).fetch_block
      · rw [o2 hb]; exact same_mods_refl _ _ _
      · obtain ⟨ctx, -, hsb, -, hm⟩ := o1 hb
        exact ⟨by rw [hsb], hm⟩
    have h2 := same_mods_trans _ _ _ _ _ h1 hopen2
    exact fetch_thread_loop_invariant env core thread block
      (fun s => same_mods st s core thread)
      (fun s s1 b hP hi => by
        obtain ⟨q1, q2⟩ := fetch_thread_iter_mods env core thread block s s1 b hi
        exact same_mods_trans _ _ _ _ _ hP (same_mods_of_eq _ _ _ _ q1 q2))
      fuel sb st1 h2 hloop
/-! ## The shared policy -/

/-- Eligibility depends on the thread, the memory module it points to and the
cycle. -/
theorem x86_cpu_can_fetch_congr (env : x86_params) (a b : x86_cpu_t) (core thread : Nat)
    (hth : X86_THREAD a core thread = X86_THREAD b core thread)
    (hm : X86_THREAD_inst_mod a core thread = X86_THREAD_inst_mod b core thread)
    (hc : a.cycle = b.cycle) :
    x86_cpu_can_fetch env a core thread = x86_cpu_can_fetch env b core thread := by
  simp only [x86_cpu_can_fetch, hth, hm, hc]

/-- One more trip of the shared loop, at its end. -/
theorem fetch_core_shared_succ (env : x86_params) (fuel core : Nat) (left : Nat) :
    ∀ (thread : Nat) (st : x86_cpu_t),
      fetch_core_shared env fuel core (left + 1) thread st =
        match fetch_core_shared env fuel core left thread st with
        | none => none
        | some s =>
          if x86_cpu_can_fetch env s core (thread + left) then
            x86_cpu_fetch_thread env fuel s core (thread + left)
          else some s := by
  induction left with
  | zero =>
    intro thread st
    simp only [fetch_core_shared, Nat.add_zero]
    split
    · cases x86_cpu_fetch_thread env fuel st core thread <;> rfl
    · rfl
  | succ left ih =>
    intro thread st
    have e : thread + (left + 1) = thread + 1 + left := by omega
    rw [fetch_core_shared]
    conv => rhs; rw [fetch_core_shared]
    rw [e]
    by_cases hc : x86_cpu_can_fetch env st core thread = true
    · simp only [hc, if_true]
      cases x86_cpu_fetch_thread env fuel st core thread with
      | none => rfl
      | some s1 => exact ih (thread + 1) s1
    · simp only [hc, if_false]
      exact ih (thread + 1) st
/-- A trip of the shared loop changes nothing outside the thread it visits. -/
theorem fetch_core_shared_trip_frame (env : x86_params) (fuel core thread : Nat)
    (s s1 : x86_cpu_t)
    (h : (if x86_cpu_can_fetch env s core thread then x86_cpu_fetch_thread env fuel s core thread
      else some s) = some s1) :
    same_outside s s1 core thread := by
  split at h
  · exact x86_cpu_fetch_thread_frame env fuel s core thread s1 h
  · simp only [Option.some.injEq] at h
    subst h
    exact same_outside_refl _ _ _

/-- If the shared loop returns after `t + d` trips, it returns after `t`. -/
theorem fetch_core_shared_prefix (env : x86_params) (fuel core : Nat) (st : x86_cpu_t)
    (t d : Nat) :
    ∀ st1, fetch_core_shared env fuel core (t + d) 0 st = some st1 →
      ∃ sa, fetch_core_shared env fuel core t 0 st = some sa := by
  induction d with
  | zero => intro st1 h; exact ⟨st1, h⟩
  | succ d ih =>
    intro st1 h
    rw [← Nat.add_assoc, fetch_core_shared_succ] at h
    cases hp : fetch_core_shared env fuel core (t + d) 0 st with
    | none => rw [hp] at h; exact Option.noConfusion h
    | some sp => exact ih sp hp

/-- After `t` trips of the shared loop the threads from `t` on are as at
entry, and so are the cycle and the arbitration state of every core. -/
theorem fetch_core_shared_before (env : x86_params) (fuel core : Nat) (st : x86_cpu_t)
    (t : Nat) :
    ∀ sa, fetch_core_shared env fuel core t 0 st = some sa →
      sa.cycle = st.cycle ∧
      (∀ c, (X86_CORE sa c).fetch_current = (X86_CORE st c).fetch_current ∧
        (X86_CORE sa c).fetch_switch_when = (X86_CORE st c).fetch_switch_when) ∧
      (∀ c u, c ≠ core ∨ t ≤ u → X86_THREAD sa c u = X86_THREAD st c u) := by
  induction t with
  | zero =>
    intro sa h
    simp only [fetch_core_shared, Option.some.injEq] at h
    subst h
    exact ⟨rfl, fun _ => ⟨rfl, rfl⟩, fun _ _ _ => rfl⟩
  | succ t ih =>
    intro sa h
    rw [fetch_core_shared_succ] at h
    cases hp : fetch_core_shared env fuel core t 0 st with
    | none => rw [hp] at h; exact Option.noConfusion h
    | some sp =>
      rw [hp] at h
      simp only [Nat.zero_add] at h
      obtain ⟨i1, i2, i3⟩ := ih sp hp
      obtain ⟨g1, g2, g3, -⟩ := fetch_core_shared_trip_frame env fuel core t sp sa h
      refine ⟨by rw [g1, i1], fun c => ⟨by rw [(g3 c).1, (i2 c).1], by rw [(g3 c).2.1, (i2 c).2]⟩,
        ?_⟩
      intro c u hu
      rw [g2 c u (by rcases hu with hu | hu; exact Or.inl hu; exact Or.inr (by omega)),
        i3 c u (by rcases hu with hu | hu; exact Or.inl hu; exact Or.inr (by omega))]

/-- Thread `t` is not written after trip `t` of the shared loop. -/
theorem fetch_core_shared_after (env : x86_params) (fuel core : Nat) (st : x86_cpu_t)
    (t : Nat) (sb : x86_cpu_t) (hb : fetch_core_shared env fuel core (t + 1) 0 st = some sb)
    (d : Nat) :
    ∀ sj, fetch_core_shared env fuel core (t + 1 + d) 0 st = some sj →
      X86_THREAD sj core t = X86_THREAD sb core t := by
  induction d with
  | zero =>
    intro sj h
    rw [Nat.add_zero, hb, Option.some.injEq] at h
    rw [h]
  | succ d ih =>
    intro sj h
    rw [← Nat.add_assoc, fetch_core_shared_succ] at h
    cases hp : fetch_core_shared env fuel core (t + 1 + d) 0 st with
    | none => rw [hp] at h; exact Option.noConfusion h
    | some sp =>
      rw [hp] at h
      simp only [Nat.zero_add] at h
      obtain ⟨-, g2, -, -⟩ := fetch_core_shared_trip_frame env fuel core _ sp sj h
      rw [g2 core t (Or.inr (by omega)), ih sp hp]

/-- The shared loop returns when every call of the block fetch path on an
eligible thread returns. -/
theorem fetch_core_shared_returns (env : x86_params) (fuel core : Nat)
    (hret : ∀ s t, x86_cpu_can_fetch env s core t = true →
      (x86_cpu_fetch_thread env fuel s core t).isSome = true)
    (left : Nat) :
    ∀ thread st, (fetch_core_shared env fuel core left thread st).isSome = true := by
  induction left with
  | zero => intro thread st; rfl
  | succ left ih =>
    intro thread st
    rw [fetch_core_shared]
    by_cases hc : x86_cpu_can_fetch env st core thread = true
    · have h1 := hret st thread hc
      simp only [hc, if_true]
      cases hf : x86_cpu_fetch_thread env fuel st core thread with
      | none => rw [hf] at h1; exact Bool.noConfusion h1
      | some s1 => exact ih (thread + 1) s1
    · simp only [hc, if_false]
      exact ih (thread + 1) st

/-- A trip of the shared loop writes to no memory module other than the one of
the thread it visits. -/
theorem fetch_core_shared_trip_mods (env : x86_params) (fuel core thread : Nat)
    (s s1 : x86_cpu_t)
    (h : (if x86_cpu_can_fetch env s core thread then x86_cpu_fetch_thread env fuel s core thread
      else some s) = some s1) :
    same_mods s s1 core thread := by
  split at h
  · exact x86_cpu_fetch_thread_same_mods env fuel s core thread s1 h
  · simp only [Option.some.injEq] at h
    subst h
    exact same_mods_refl _ _ _

/-- After `t` trips of the shared loop, a memory module that none of the
threads `0, ..., t - 1` points to is as at entry. -/
theorem fetch_core_shared_before_mods (env : x86_params) (fuel core : Nat) (st : x86_cpu_t)
    (t : Nat) :
    ∀ sa, fetch_core_shared env fuel core t 0 st = some sa →
      ∀ i, (∀ u, u < t → (X86_THREAD st core u).inst_mod ≠ i) → sa.mods i = st.mods i := by
  induction t with
  | zero =>
    intro sa h i _
    simp only [fetch_core_shared, Option.some.injEq] at h
    rw [← h]
  | succ t ih =>
    intro sa h i hi
    rw [fetch_core_shared_succ] at h
    cases hp : fetch_core_shared env fuel core t 0 st with
    | none => rw [hp] at h; exact Option.noConfusion h
    | some sp =>
      rw [hp] at h
      simp only [Nat.zero_add] at h
      obtain ⟨-, -, b3⟩ := fetch_core_shared_before env fuel core st t sp hp
      have hth := b3 core t (Or.inr (Nat.le_refl _))
      obtain ⟨-, m2⟩ := fetch_core_shared_trip_mods env fuel core t sp sa h
      rw [m2 i (by rw [hth]; exact (hi t (Nat.lt_succ_self t)).symm),
        ih sp hp i (fun u hu => hi u (by omega))]

/-- Claim C15. Under the shared policy, a call of the arbiter that returns
`st1` from `st` goes through states `s 0 = st`, ..., `s n = st1`
(`n = x86_cpu_num_threads`), one per thread in index order: the step from `s t`
to `s (t + 1)` is a call of the block fetch path on thread `t` if `t` is
eligible in `s t`, the state when it is visited, and no change otherwise, all
in the same cycle. Thread `t` is not written before its visit nor after it, so
a thread that is not eligible when it is visited is on return as at entry (its
`fetch_neip`, `fetch_block`, `fetchq_occ` and `fetch_queue` in particular).
The memory module that a thread points to may have been accessed by the
threads visited before it; a thread that shares its module with none of them
is eligible when it is visited exactly when it is eligible at entry. The cycle
and every core's `fetch_current` and `fetch_switch_when` are unchanged. The
arbiter returns when every call of the block fetch path on an eligible thread
does. -/
theorem x86_cpu_fetch_core_shared (env : x86_params) (fuel : Nat) (st : x86_cpu_t) (core : Nat)
    (hkind : env.x86_cpu_fetch_kind = .x86_cpu_fetch_kind_shared) :
    (∀ st1, x86_cpu_fetch_core env fuel st core = some st1 →
      (∃ s : Nat → x86_cpu_t, s 0 = st ∧ s env.x86_cpu_num_threads = st1 ∧
        ∀ t, t < env.x86_cpu_num_threads →
          (x86_cpu_can_fetch env (s t) core t = true →
            x86_cpu_fetch_thread env fuel (s t) core t = some (s (t + 1))) ∧
          (x86_cpu_can_fetch env (s t) core t = false →
            s (t + 1) = s t ∧
            X86_THREAD st1 core t = X86_THREAD st core t ∧
            (X86_THREAD st1 core t).fetch_neip = (X86_THREAD st core t).fetch_neip ∧
            (X86_THREAD st1 core t).fetch_block = (X86_THREAD st core t).fetch_block ∧
            (X86_THREAD st1 core t).fetchq_occ = (X86_THREAD st core t).fetchq_occ ∧
            (X86_THREAD st1 core t).fetch_queue = (X86_THREAD st core t).fetch_queue) ∧
          X86_THREAD (s t) core t = X86_THREAD st core t ∧
          (s t).cycle = st.cycle ∧
          X86_THREAD st1 core t = X86_THREAD (s (t + 1)) core t ∧
          ((∀ u, u < t →
              (X86_THREAD st core u).inst_mod ≠ (X86_THREAD st core t).inst_mod) →
            x86_cpu_can_fetch env (s t) core t = x86_cpu_can_fetch env st core t)) ∧
      st1.cycle = st.cycle ∧
      (∀ c, (X86_CORE st1 c).fetch_current = (X86_CORE st c).fetch_current ∧
        (X86_CORE st1 c).fetch_switch_when = (X86_CORE st c).fetch_switch_when)) ∧
    ((∀ s t, x86_cpu_can_fetch env s core t = true →
        (x86_cpu_fetch_thread env fuel s core t).isSome = true) →
      (x86_cpu_fetch_core env fuel st core).isSome = true) := by
  have hcore : x86_cpu_fetch_core env fuel st core =
      fetch_core_shared env fuel core env.x86_cpu_num_threads 0 st := by
    unfold x86_cpu_fetch_core
    rw [hkind]
  refine ⟨?_, fun hret => by rw [hcore]; exact fetch_core_shared_returns env fuel core hret _ _ _⟩
  intro st1 h
  rw [hcore] at h
  -- the state after each number of trips
  have hpre : ∀ t, t ≤ env.x86_cpu_num_threads →
      ∃ sa, fetch_core_shared env fuel core t 0 st = some sa := by
    intro t ht
    obtain ⟨d, hd⟩ := Nat.exists_eq_add_of_le ht
    rw [hd] at h
    exact fetch_core_shared_prefix env fuel core st t d st1 h
  have hs : ∀ t, t ≤ env.x86_cpu_num_threads →
      fetch_core_shared env fuel core t 0 st =
        some ((fetch_core_shared env fuel core t 0 st).getD st) := by
    intro t ht
    obtain ⟨sa, hsa⟩ := hpre t ht
    rw [hsa]; rfl
  have hstep : ∀ t, t < env.x86_cpu_num_threads →
      (if x86_cpu_can_fetch env ((fetch_core_shared env fuel core t 0 st).getD st) core t then
        x86_cpu_fetch_thread env fuel ((fetch_core_shared env fuel core t 0 st).getD st) core t
      else some ((fetch_core_shared env fuel core t 0 st).getD st)) =
        some ((fetch_core_shared env fuel core (t + 1) 0 st).getD st) := by
    intro t ht
    obtain ⟨sa, hsa⟩ := hpre t (by omega)
    obtain ⟨sb, hsb⟩ := hpre (t + 1) ht
    have h1 := hsb
    rw [fetch_core_shared_succ, hsa] at h1
    simp only [Nat.zero_add] at h1
    rw [hsa, hsb]
    exact h1
  have hafter : ∀ t, t < env.x86_cpu_num_threads →
      X86_THREAD st1 core t =
        X86_THREAD ((fetch_core_shared env fuel core (t + 1) 0 st).getD st) core t := by
    intro t ht
    obtain ⟨d, hd⟩ := Nat.exists_eq_add_of_le (show t + 1 ≤ env.x86_cpu_num_threads by omega)
    rw [hd] at h
    exact fetch_core_shared_after env fuel core st t _ (hs (t + 1) ht) d st1 h
  obtain ⟨e1, e2, -⟩ := fetch_core_shared_before env fuel core st _ st1 h
  refine ⟨⟨fun t => (fetch_core_shared env fuel core t 0 st).getD st, rfl, ?_, ?_⟩, e1, e2⟩
  · show (fetch_core_shared env fuel core env.x86_cpu_num_threads 0 st).getD st = st1
    rw [h]; rfl
  · intro t ht
    show (x86_cpu_can_fetch env ((fetch_core_shared env fuel core t 0 st).getD st) core t = true →
        x86_cpu_fetch_thread env fuel ((fetch_core_shared env fuel core t 0 st).getD st) core t =
          some ((fetch_core_shared env fuel core (t + 1) 0 st).getD st)) ∧
      (x86_cpu_can_fetch env ((fetch_core_shared env fuel core t 0 st).getD st) core t = false →
        (fetch_core_shared env fuel core (t + 1) 0 st).getD st =
          (fetch_core_shared env fuel core t 0 st).getD st ∧
        X86_THREAD st1 core t = X86_THREAD st core t ∧
        (X86_THREAD st1 core t).fetch_neip = (X86_THREAD st core t).fetch_neip ∧
        (X86_THREAD st1 core t).fetch_block = (X86_THREAD st core t).fetch_block ∧
        (X86_THREAD st1 core t).fetchq_occ = (X86_THREAD st core t).fetchq_occ ∧
        (X86_THREAD st1 core t).fetch_queue = (X86_THREAD st core t).fetch_queue) ∧
      X86_THREAD ((fetch_core_shared env fuel core t 0 st).getD st) core t =
        X86_THREAD st core t ∧
      ((fetch_core_shared env fuel core t 0 st).getD st).cycle = st.cycle ∧
      X86_THREAD st1 core t =
        X86_THREAD ((fetch_core_shared env fuel core (t + 1) 0 st).getD st) core t ∧
      ((∀ u, u < t →
          (X86_THREAD st core u).inst_mod ≠ (X86_THREAD st core t).inst_mod) →
        x86_cpu_can_fetch env ((fetch_core_shared env fuel core t 0 st).getD st) core t =
          x86_cpu_can_fetch env st core t)
    obtain ⟨b1, -, b3⟩ := fetch_core_shared_before env fuel core st t _ (hs t (by omega))
    have b4 := b3 core t (Or.inr (Nat.le_refl _))
    have hst := hstep t ht
    refine ⟨?_, ?_, b4, b1, hafter t ht, ?_⟩
    · intro hc
      rw [hc] at hst
      simpa using hst
    · intro hc
      rw [hc] at hst
      simp only [Bool.false_eq_true, if_false, Option.some.injEq] at hst
      have hth : X86_THREAD st1 core t = X86_THREAD st core t := by
        rw [hafter t ht, ← hst, b4]
      exact ⟨hst.symm, hth, by rw [hth], by rw [hth], by rw [hth], by rw [hth]⟩
    · intro hsep
      have hm := fetch_core_shared_before_mods env fuel core st t _ (hs t (by omega))
        (X86_THREAD st core t).inst_mod hsep
      refine x86_cpu_can_fetch_congr env _ _ core t b4 ?_ b1
      unfold X86_THREAD_inst_mod
      rw [b4, hm]

/-- Claim C15 on the shared scenario: thread 0 is stalled and threads 1 and 2
are eligible; the arbiter fetches two instructions from thread 1 and two from
thread 2 in the same call, thread 0 is unchanged, and `fetch_current` and
`fetch_switch_when` keep their values 1 and 0. When the module that the three
threads share can take one access only, threads 1 and 2 are both eligible at
entry, thread 1 fetches, and thread 2 is no longer eligible when it is visited:
it does not fetch and is unchanged. -/
theorem x86_cpu_fetch_core_shared_witness :
    ((X86_THREAD scenario_shared_after 0 0).fetch_queue.length,
      (X86_THREAD scenario_shared_after 0 1).fetch_queue.length,
      (X86_THREAD scenario_shared_after 0 2).fetch_queue.length,
      (X86_CORE scenario_shared_after 0).fetch_current,
      (X86_CORE scenario_shared_after 0).fetch_switch_when) = (0, 2, 2, 1, 0) ∧
    (x86_cpu_can_fetch scenario_busy_params scenario_shared_state 0 1,
      x86_cpu_can_fetch scenario_busy_params scenario_shared_state 0 2,
      (X86_THREAD scenario_busy_after 0 0).fetch_queue.length,
      (X86_THREAD scenario_busy_after 0 1).fetch_queue.length,
      (X86_THREAD scenario_busy_after 0 2).fetch_queue.length) = (true, true, 0, 2, 0) ∧
    X86_THREAD scenario_busy_after 0 2 = X86_THREAD scenario_shared_state 0 2 ∧
    scenario_busy_after.cycle = scenario_shared_state.cycle ∧
    (∀ c, (X86_CORE scenario_busy_after c).fetch_current =
        (X86_CORE scenario_shared_state c).fetch_current ∧
      (X86_CORE scenario_busy_after c).fetch_switch_when =
        (X86_CORE scenario_shared_state c).fetch_switch_when) :=
  ⟨by decide, by decide, rfl,
    ((x86_cpu_fetch_core_shared scenario_busy_params 3 scenario_shared_state 0 rfl).1
      scenario_busy_after rfl).2⟩
